import Mathlib

set_option linter.unusedVariables false

/-
  Verification of the AT workflow platform core against its specification.

  Shallow embedding of:
  - src/backend/execution-engine/template-renderer.ts  (renderTemplate, evaluateExpression)
  - src/backend/state/session-manager.ts               (RedisSessionManager)
  - src/shared/workflow-spec/validator.ts              (validateWorkflowSpec)
  - src/backend/api/server.ts, compiler part           (compileWorkflow, buildExecutionGraph,
                                                        topologicalSort, validateExecutionGraph)
  - src/backend/execution-engine/executor.ts           (WorkflowExecutionEngine)
  - src/shared/node-definitions                        (node registry)

  Modelling conventions:
  - JavaScript runtime values are modelled by the tagged variant `JValue`
    (string, integer number, boolean, null, object, array); `undefined` is
    modelled by absence (`Option.none`).
  - JavaScript objects are association lists with unique keys; `set` replaces
    an existing key in place and otherwise appends (matching Map/object
    insertion-order semantics).
  - Wall-clock timestamps are natural numbers; the executor threads a `clock`
    that advances by recorded node durations and retry sleeps.
  - Recursions that JavaScript bounds dynamically (DFS over a finite node set)
    take an explicit fuel argument that is large enough to never be exhausted
    on the runs the theorems talk about.
-/

namespace ATWorkflow

/-- Tagged model of a JavaScript runtime value.  Numbers are modelled as
integers (the workflow code only manipulates integral quantities). -/
inductive JValue where
  | str (s : String)
  | num (n : Int)
  | bool (b : Bool)
  | null
  | obj (fields : List (String × JValue))
  | arr (elems : List JValue)

mutual
def decEqJValue : (a b : JValue) → Decidable (a = b)
  | .str s, .str t =>
      match decEq s t with
      | isTrue h => isTrue (by rw [h])
      | isFalse h => isFalse (by intro hh; cases hh; exact h rfl)
  | .num s, .num t =>
      match decEq s t with
      | isTrue h => isTrue (by rw [h])
      | isFalse h => isFalse (by intro hh; cases hh; exact h rfl)
  | .bool s, .bool t =>
      match decEq s t with
      | isTrue h => isTrue (by rw [h])
      | isFalse h => isFalse (by intro hh; cases hh; exact h rfl)
  | .null, .null => isTrue rfl
  | .obj fs, .obj gs =>
      match decEqJFields fs gs with
      | isTrue h => isTrue (by rw [h])
      | isFalse h => isFalse (by intro hh; cases hh; exact h rfl)
  | .arr fs, .arr gs =>
      match decEqJElems fs gs with
      | isTrue h => isTrue (by rw [h])
      | isFalse h => isFalse (by intro hh; cases hh; exact h rfl)
  | .str _, .num _ => isFalse (by intro h; exact JValue.noConfusion h)
  | .str _, .bool _ => isFalse (by intro h; exact JValue.noConfusion h)
  | .str _, .null => isFalse (by intro h; exact JValue.noConfusion h)
  | .str _, .obj _ => isFalse (by intro h; exact JValue.noConfusion h)
  | .str _, .arr _ => isFalse (by intro h; exact JValue.noConfusion h)
  | .num _, .str _ => isFalse (by intro h; exact JValue.noConfusion h)
  | .num _, .bool _ => isFalse (by intro h; exact JValue.noConfusion h)
  | .num _, .null => isFalse (by intro h; exact JValue.noConfusion h)
  | .num _, .obj _ => isFalse (by intro h; exact JValue.noConfusion h)
  | .num _, .arr _ => isFalse (by intro h; exact JValue.noConfusion h)
  | .bool _, .str _ => isFalse (by intro h; exact JValue.noConfusion h)
  | .bool _, .num _ => isFalse (by intro h; exact JValue.noConfusion h)
  | .bool _, .null => isFalse (by intro h; exact JValue.noConfusion h)
  | .bool _, .obj _ => isFalse (by intro h; exact JValue.noConfusion h)
  | .bool _, .arr _ => isFalse (by intro h; exact JValue.noConfusion h)
  | .null, .str _ => isFalse (by intro h; exact JValue.noConfusion h)
  | .null, .num _ => isFalse (by intro h; exact JValue.noConfusion h)
  | .null, .bool _ => isFalse (by intro h; exact JValue.noConfusion h)
  | .null, .obj _ => isFalse (by intro h; exact JValue.noConfusion h)
  | .null, .arr _ => isFalse (by intro h; exact JValue.noConfusion h)
  | .obj _, .str _ => isFalse (by intro h; exact JValue.noConfusion h)
  | .obj _, .num _ => isFalse (by intro h; exact JValue.noConfusion h)
  | .obj _, .bool _ => isFalse (by intro h; exact JValue.noConfusion h)
  | .obj _, .null => isFalse (by intro h; exact JValue.noConfusion h)
  | .obj _, .arr _ => isFalse (by intro h; exact JValue.noConfusion h)
  | .arr _, .str _ => isFalse (by intro h; exact JValue.noConfusion h)
  | .arr _, .num _ => isFalse (by intro h; exact JValue.noConfusion h)
  | .arr _, .bool _ => isFalse (by intro h; exact JValue.noConfusion h)
  | .arr _, .null => isFalse (by intro h; exact JValue.noConfusion h)
  | .arr _, .obj _ => isFalse (by intro h; exact JValue.noConfusion h)

def decEqJFields : (a b : List (String × JValue)) → Decidable (a = b)
  | [], [] => isTrue rfl
  | [], _ :: _ => isFalse (by intro h; exact List.noConfusion h)
  | _ :: _, [] => isFalse (by intro h; exact List.noConfusion h)
  | (k, v) :: r, (k2, v2) :: r2 =>
      match decEq k k2 with
      | isFalse h => isFalse (by intro hh; cases hh; exact h rfl)
      | isTrue hk =>
        match decEqJValue v v2 with
        | isFalse h => isFalse (by intro hh; cases hh; exact h rfl)
        | isTrue hv =>
          match decEqJFields r r2 with
          | isFalse h => isFalse (by intro hh; cases hh; exact h rfl)
          | isTrue hr => isTrue (by rw [hk, hv, hr])

def decEqJElems : (a b : List JValue) → Decidable (a = b)
  | [], [] => isTrue rfl
  | [], _ :: _ => isFalse (by intro h; exact List.noConfusion h)
  | _ :: _, [] => isFalse (by intro h; exact List.noConfusion h)
  | v :: r, v2 :: r2 =>
      match decEqJValue v v2 with
      | isFalse h => isFalse (by intro hh; cases hh; exact h rfl)
      | isTrue hv =>
        match decEqJElems r r2 with
        | isFalse h => isFalse (by intro hh; cases hh; exact h rfl)
        | isTrue hr => isTrue (by rw [hv, hr])
end

instance : DecidableEq JValue := decEqJValue

/-- An object / scope: a JavaScript object as an association list. -/
abbrev JObj := List (String × JValue)

/-- First-match association-list lookup (JavaScript property access on an
object whose keys are unique). -/
def objLookup : JObj → String → Option JValue
  | [], _ => none
  | (k, v) :: rest, key => if k = key then some v else objLookup rest key

/-- `obj[k] = v`: replace the value at an existing key in place, otherwise
append the new key (JavaScript object / Map assignment). -/
def objSet : JObj → String → JValue → JObj
  | [], key, v => [(key, v)]
  | (k, w) :: rest, key, v =>
      if k = key then (k, v) :: rest else (k, w) :: objSet rest key v

/-- `Object.assign(a, b)` / object spread: every key of `b` overwrites `a`. -/
def objMerge (a b : JObj) : JObj := b.foldl (fun acc kv => objSet acc kv.1 kv.2) a

/-- Whitespace as recognised by `String.prototype.trim` (the common cases). -/
def isWsp (c : Char) : Bool := c = ' ' || c = '\t' || c = '\n' || c = '\r'

/-- `String.prototype.trim` on a character list: drop leading and trailing
whitespace. -/
def trimChars (s : List Char) : List Char :=
  (s.dropWhile isWsp).rdropWhile isWsp

/-- `String.prototype.includes` with a single-character needle. -/
def containsChar (c : Char) : List Char → Bool
  | [] => false
  | x :: xs => decide (x = c) || containsChar c xs

/-- Decimal digit character. -/
def digitChar (n : Nat) : Char := Char.ofNat (48 + n)

/-- Worker for `natDigits`; the fuel only bounds the recursion depth (one
unit per decimal digit) and is never exhausted when it starts at `n + 1`. -/
def natDigitsGo : Nat → Nat → List Char
  | 0, _ => []
  | fuel + 1, n =>
      if n < 10 then [digitChar n]
      else natDigitsGo fuel (n / 10) ++ [digitChar (n % 10)]

/-- Decimal representation of a natural number (used to model JavaScript
number-to-string conversion). -/
def natDigits (n : Nat) : List Char := natDigitsGo (n + 1) n

/-- Decimal representation of an integer. -/
def intChars (n : Int) : List Char :=
  if n < 0 then '-' :: natDigits n.natAbs else natDigits n.natAbs

/-- Is this value `null`?  (used for the `value === undefined || value === null`
test; `undefined` is modelled as `Option.none` outside the value itself.) -/
def JValue.isNull : JValue → Bool
  | .null => true
  | _ => false

mutual
/-- Model of JavaScript `String(value)` for the values that occur in the
workflow engine.  Objects stringify to `[object Object]`, arrays join their
elements with commas, `null` stringifies to `null`. -/
def jsString : JValue → List Char
  | .str s => s.data
  | .num n => intChars n
  | .bool b => if b then "true".data else "false".data
  | .null => "null".data
  | .obj _ => "[object Object]".data
  | .arr l => jsStringList l

/-- `Array.prototype.toString`: elements joined by `,` (with `null`
contributing the empty string). -/
def jsStringList : List JValue → List Char
  | [] => []
  | [v] => if v.isNull then [] else jsString v
  | v :: rest => (if v.isNull then [] else jsString v) ++ ',' :: jsStringList rest
end

/-- getNestedValue's walk (template-renderer.ts, getNestedValue): descend into
objects one path part at a time; `null` and non-objects yield `undefined`. -/
def getNestedGo : Option JValue → List String → Option JValue
  | cur, [] => cur
  | none, _ :: _ => none
  | some (.obj fs), p :: ps => getNestedGo (objLookup fs p) ps
  | some (.str _), _ :: _ => none
  | some (.num _), _ :: _ => none
  | some (.bool _), _ :: _ => none
  | some .null, _ :: _ => none
  | some (.arr _), _ :: _ => none

/-- `String.prototype.split` with a single-character separator. -/
def splitOnChar (c : Char) : List Char → List (List Char)
  | [] => [[]]
  | x :: xs =>
      if x = c then [] :: splitOnChar c xs
      else (splitOnChar c xs).modifyHead (x :: ·)

/-- `getNestedValue(obj, path)` from template-renderer.ts: split the dotted
path and walk the object. -/
def getNestedValue (vars : JObj) (path : String) : Option JValue :=
  getNestedGo (some (.obj vars)) ((splitOnChar '.' path.data).map String.mk)

/-- The replacement performed for one matched `\x7b\x7bpath\x7d\x7d`: `some`
with the stringified value when the trimmed path resolves to a value that is
neither `undefined` nor `null`, otherwise `none` (placeholder kept). -/
def lookupRender (V : JObj) (content : List Char) : Option (List Char) :=
  match getNestedValue V (String.mk (trimChars content)) with
  | none => none
  | some v => if v.isNull then none else some (jsString v)

/-- Scan for the body of a placeholder after an opening `\x7b\x7b`:
one or more non-`\x7d` characters followed by `\x7d\x7d`.  Returns the
captured content and the remainder after the closing braces.  This is the
match attempt of the regex `\x7b\x7b([^\x7d]+)\x7d\x7d` at a fixed position
(`grabContent` allows empty content, `braceMatch` below rules it out). -/
def grabContent : List Char → Option (List Char × List Char)
  | [] => none
  | c :: rest =>
      if c = '}' then
        if rest.head? = some '}' then some ([], rest.tail) else none
      else (grabContent rest).map (fun p => (c :: p.1, p.2))

/-- A placeholder match attempt: like `grabContent` but requiring a non-empty
content (the regex uses `+`). -/
def braceMatch (rest : List Char) : Option (List Char × List Char) :=
  (grabContent rest).bind (fun p => if p.1 = [] then none else some p)

theorem grabContent_eq (rest content rest2 : List Char)
    (h : grabContent rest = some (content, rest2)) :
    rest = content ++ '}' :: '}' :: rest2 ∧ ∀ x ∈ content, x ≠ '}' := by
  induction rest generalizing content rest2 with
  | nil => simp [grabContent] at h
  | cons c cs ih =>
    rw [grabContent] at h
    split_ifs at h with hc hh
    · subst hc
      simp only [Option.some.injEq, Prod.mk.injEq] at h
      obtain ⟨h1, h2⟩ := h
      subst h1
      subst h2
      cases cs with
      | nil => simp at hh
      | cons d ds =>
        have hd : d = '}' := by simpa using hh
        subst hd
        simp
    · rcases hgc : grabContent cs with _ | ⟨ct, r2⟩
      · rw [hgc] at h; exact absurd h (by simp)
      · rw [hgc, Option.map_some'] at h
        simp only [Option.some.injEq, Prod.mk.injEq] at h
        obtain ⟨h1, h2⟩ := h
        obtain ⟨ih1, ih2⟩ := ih ct r2 hgc
        subst h2
        rw [← h1]
        subst ih1
        refine ⟨by simp, ?_⟩
        intro x hx
        rcases List.mem_cons.mp hx with hx | hx
        · subst hx; exact hc
        · exact ih2 x hx

theorem grabContent_append (content r : List Char)
    (h : ∀ x ∈ content, x ≠ '}') :
    grabContent (content ++ '}' :: '}' :: r) = some (content, r) := by
  induction content with
  | nil => rfl
  | cons c cs ih =>
    have hc : c ≠ '}' := h c (by simp)
    have hrest : grabContent (cs ++ '}' :: '}' :: r) = some (cs, r) :=
      ih (fun x hx => h x (by simp [hx]))
    rw [List.cons_append, grabContent, if_neg hc, hrest]
    rfl

theorem grabContent_none_of_single_rbrace (u t : List Char)
    (hu : ∀ x ∈ u, x ≠ '}') (ht : t.head? ≠ some '}') :
    grabContent (u ++ '}' :: t) = none := by
  induction u with
  | nil =>
    rw [List.nil_append, grabContent, if_pos rfl, if_neg (by simpa using ht)]
  | cons c cs ih =>
    have hc : c ≠ '}' := hu c (by simp)
    have hrest : grabContent (cs ++ '}' :: t) = none :=
      ih (fun x hx => hu x (by simp [hx]))
    rw [List.cons_append, grabContent, if_neg hc, hrest]
    rfl

theorem grabContent_none_of_no_rbrace (u : List Char)
    (hu : ∀ x ∈ u, x ≠ '}') : grabContent u = none := by
  induction u with
  | nil => rfl
  | cons c cs ih =>
    have hc : c ≠ '}' := hu c (by simp)
    have hrest : grabContent cs = none := ih (fun x hx => hu x (by simp [hx]))
    rw [grabContent, if_neg hc, hrest]
    rfl

theorem braceMatch_some (rest content rest2 : List Char)
    (h : braceMatch rest = some (content, rest2)) :
    rest = content ++ '}' :: '}' :: rest2 ∧ content ≠ [] ∧ ∀ x ∈ content, x ≠ '}' := by
  unfold braceMatch at h
  match hg : grabContent rest with
  | some (ct, r) =>
    rw [hg] at h
    simp only [Option.bind_eq_some] at h
    obtain ⟨p, hp, hif⟩ := h
    simp only [Option.some.injEq] at hp
    subst hp
    by_cases hct : ct = []
    · rw [if_pos hct] at hif; exact absurd hif (by simp)
    · rw [if_neg hct] at hif
      simp only [Option.some.injEq, Prod.mk.injEq] at hif
      obtain ⟨h1, h2⟩ := hif
      subst h1
      subst h2
      obtain ⟨g1, g2⟩ := grabContent_eq rest ct r hg
      exact ⟨g1, hct, g2⟩
  | none => rw [hg] at h; exact absurd h (by simp)

theorem braceMatch_append (content r : List Char)
    (hne : content ≠ []) (h : ∀ x ∈ content, x ≠ '}') :
    braceMatch (content ++ '}' :: '}' :: r) = some (content, r) := by
  unfold braceMatch
  rw [grabContent_append content r h]
  simp [hne]

/-- Size lemma used for the renderer's termination. -/
theorem braceMatch_length (rest content rest2 : List Char)
    (h : braceMatch rest = some (content, rest2)) :
    rest2.length < rest.length := by
  obtain ⟨h1, h2, _⟩ := braceMatch_some rest content rest2 h
  subst h1
  cases content with
  | nil => exact absurd rfl h2
  | cons c cs => simp [List.length_append]; omega

/-- Variant of `braceMatch_length` phrased on the tail, matching the
renderer's termination goals. -/
theorem braceMatch_tail_length (rest content rest2 : List Char)
    (h : braceMatch rest.tail = some (content, rest2)) :
    rest2.length < rest.length + 1 := by
  have h1 := braceMatch_length rest.tail content rest2 h
  have h2 : rest.tail.length ≤ rest.length := by cases rest <;> simp
  omega

/-- Core of `renderTemplate` (template-renderer.ts, lines 15-27): scan the
character list; at every `\x7b\x7b` attempt the regex match
`\x7b\x7b([^\x7d]+)\x7d\x7d`; on a match substitute the stringified value
(or keep the placeholder verbatim when the path resolves to
`undefined`/`null`) and continue after the match; on a failed attempt
advance one character. -/
def renderChars (V : JObj) : List Char → List Char
  | [] => []
  | c :: rest =>
      if c = '{' ∧ rest.head? = some '{' then
        match hb : braceMatch rest.tail with
        | some (content, rest2) =>
            (match lookupRender V content with
             | some repl => repl ++ renderChars V rest2
             | none => '{' :: '{' :: (content ++ '}' :: '}' :: renderChars V rest2))
        | none => c :: renderChars V rest
      else c :: renderChars V rest
termination_by s => s.length
decreasing_by
  all_goals simp only [List.length_cons]
  all_goals
    first
      | omega
      | exact braceMatch_tail_length _ _ _ (by assumption)

/-- `renderTemplate(template, variables)` from template-renderer.ts. -/
def renderTemplate (template : String) (vars : JObj) : String :=
  String.mk (renderChars vars template.data)

theorem renderChars_nil (V : JObj) : renderChars V [] = [] := by
  rw [renderChars.eq_def]

theorem renderChars_cons_of_not_open (V : JObj) (c : Char) (rest : List Char)
    (h : ¬(c = '{' ∧ rest.head? = some '{')) :
    renderChars V (c :: rest) = c :: renderChars V rest := by
  rw [renderChars.eq_def]
  simp only [if_neg h]

theorem renderChars_open_fail (V : JObj) (rest : List Char)
    (hb : braceMatch rest = none) :
    renderChars V ('{' :: '{' :: rest) = '{' :: renderChars V ('{' :: rest) := by
  rw [renderChars.eq_def]
  simp only [List.head?_cons, List.tail_cons, and_self, if_true, if_pos]
  split
  · next content rest2 heq => rw [hb] at heq; exact absurd heq (by simp)
  · rfl

theorem renderChars_open_subst (V : JObj) (rest content rest2 repl : List Char)
    (hb : braceMatch rest = some (content, rest2))
    (hl : lookupRender V content = some repl) :
    renderChars V ('{' :: '{' :: rest) = repl ++ renderChars V rest2 := by
  rw [renderChars.eq_def]
  simp only [List.head?_cons, List.tail_cons, and_self, if_true, if_pos]
  split
  · next content2 rest2a heq =>
    rw [hb] at heq
    simp only [Option.some.injEq, Prod.mk.injEq] at heq
    obtain ⟨h1, h2⟩ := heq
    subst h1
    subst h2
    rw [hl]
  · next heq => rw [hb] at heq; exact absurd heq (by simp)

theorem renderChars_open_keep (V : JObj) (rest content rest2 : List Char)
    (hb : braceMatch rest = some (content, rest2))
    (hl : lookupRender V content = none) :
    renderChars V ('{' :: '{' :: rest) =
      '{' :: '{' :: (content ++ '}' :: '}' :: renderChars V rest2) := by
  rw [renderChars.eq_def]
  simp only [List.head?_cons, List.tail_cons, and_self, if_true, if_pos]
  split
  · next content2 rest2a heq =>
    rw [hb] at heq
    simp only [Option.some.injEq, Prod.mk.injEq] at heq
    obtain ⟨h1, h2⟩ := heq
    subst h1
    subst h2
    rw [hl]
  · next heq => rw [hb] at heq; exact absurd heq (by simp)

/-- Fuel-indexed evaluator for `renderChars` (a computational device: the
same scan with an explicit recursion-depth bound so that concrete runs reduce
inside the kernel; `renderChars_eval` below proves it computes `renderChars`). -/
def renderFuel (V : JObj) : Nat → List Char → List Char
  | 0, s => s
  | fuel + 1, s =>
      match s with
      | [] => []
      | c :: rest =>
          if c = '{' ∧ rest.head? = some '{' then
            match braceMatch rest.tail with
            | some (content, rest2) =>
                (match lookupRender V content with
                 | some repl => repl ++ renderFuel V fuel rest2
                 | none => '{' :: '{' :: (content ++ '}' :: '}' :: renderFuel V fuel rest2))
            | none => c :: renderFuel V fuel rest
          else c :: renderFuel V fuel rest

theorem renderFuel_eq (V : JObj) (fuel : Nat) (s : List Char) (h : s.length < fuel) :
    renderFuel V fuel s = renderChars V s := by
  induction fuel generalizing s with
  | zero => omega
  | succ f ih =>
    cases s with
    | nil => rw [renderFuel, renderChars_nil]
    | cons c rest =>
      by_cases hcc : c = '{' ∧ rest.head? = some '{'
      · obtain ⟨hc, hh⟩ := hcc
        subst hc
        cases rest with
        | nil => simp at hh
        | cons d rest1 =>
          have hd : d = '{' := by simpa using hh
          subst hd
          rw [renderFuel]
          simp only [List.head?_cons, List.tail_cons, and_self, if_true, if_pos]
          rcases hb : braceMatch rest1 with _ | ⟨content, rest2⟩
          · rw [renderChars_open_fail V rest1 hb]
            exact congrArg (List.cons '{')
              (ih ('{' :: rest1) (by simp only [List.length_cons] at h ⊢; omega))
          · have hlen := braceMatch_length rest1 content rest2 hb
            dsimp only
            rcases hl : lookupRender V content with _ | repl
            · rw [renderChars_open_keep V rest1 content rest2 hb hl]
              exact congrArg (fun t => '{' :: '{' :: (content ++ '}' :: '}' :: t))
                (ih rest2 (by simp only [List.length_cons] at h; omega))
            · rw [renderChars_open_subst V rest1 content rest2 repl hb hl]
              exact congrArg (fun t => repl ++ t)
                (ih rest2 (by simp only [List.length_cons] at h; omega))
      · rw [renderFuel]
        simp only [if_neg hcc]
        rw [renderChars_cons_of_not_open V c rest hcc]
        congr 1
        exact ih rest (by simp only [List.length_cons] at h; omega)

/-- Evaluation rule: `renderChars` is computed by the fuel evaluator with
fuel one more than the input length. -/
theorem renderChars_eval (V : JObj) (s : List Char) :
    renderChars V s = renderFuel V (s.length + 1) s :=
  (renderFuel_eq V (s.length + 1) s (by omega)).symm

/-
  evaluateExpression (template-renderer.ts, lines 63-105).
-/

/-- Value of a decimal digit character, if it is one. -/
def digitVal (c : Char) : Option Nat :=
  if '0' ≤ c ∧ c ≤ '9' then some (c.toNat - 48) else none

/-- Parse a non-empty all-digit run as a natural number. -/
def parseDigitsGo : Nat → List Char → Option Nat
  | acc, [] => some acc
  | acc, c :: cs =>
      match digitVal c with
      | some d => parseDigitsGo (acc * 10 + d) cs
      | none => none

/-- Parse a non-empty digit string. -/
def parseDigits (l : List Char) : Option Nat :=
  if l = [] then none else parseDigitsGo 0 l

/-- Model of JavaScript `Number(string)` restricted to optionally signed
decimal integer literals: whitespace is trimmed, the empty string is `0`,
anything that is not an integer literal is `NaN` (modelled as `none`).
(Fractional, exponent, hexadecimal and `Infinity` forms do not occur in the
repository's workflows and are mapped to `NaN` by this model.) -/
def jsNumber (s : List Char) : Option Int :=
  let t := trimChars s
  if t = [] then some 0
  else if t.head? = some '+' then (parseDigits t.tail).map Int.ofNat
  else if t.head? = some '-' then (parseDigits t.tail).map (fun n => -(n : Int))
  else (parseDigits t).map Int.ofNat

/-- `Number(a) > Number(b)`: any comparison against `NaN` is false. -/
def jsNumGt (a b : List Char) : Bool :=
  match jsNumber a, jsNumber b with
  | some x, some y => decide (x > y)
  | _, _ => false

/-- `Number(a) < Number(b)`. -/
def jsNumLt (a b : List Char) : Bool :=
  match jsNumber a, jsNumber b with
  | some x, some y => decide (x < y)
  | _, _ => false

/-- `Number(a) >= Number(b)`. -/
def jsNumGe (a b : List Char) : Bool :=
  match jsNumber a, jsNumber b with
  | some x, some y => decide (x ≥ y)
  | _, _ => false

/-- `Number(a) <= Number(b)`. -/
def jsNumLe (a b : List Char) : Bool :=
  match jsNumber a, jsNumber b with
  | some x, some y => decide (x ≤ y)
  | _, _ => false

/-- `String.prototype.split` with a two-character separator `ab` (the only
multi-character separators used by the source are `>=`, `<=`, `==`, `!=`). -/
def splitOnTwo (a b : Char) : List Char → List (List Char)
  | [] => [[]]
  | [x] => [[x]]
  | x :: y :: xs =>
      if x = a ∧ y = b then [] :: splitOnTwo a b xs
      else (splitOnTwo a b (y :: xs)).modifyHead (x :: ·)

/-- `String.prototype.includes` with a two-character needle `ab`. -/
def containsTwo (a b : Char) : List Char → Bool
  | [] => false
  | [_] => false
  | x :: y :: xs => (decide (x = a) && decide (y = b)) || containsTwo a b (y :: xs)

/-- Take the first two parts of a split, trim them and compare.  When the
split has fewer than two parts the right side is `undefined` and JavaScript's
`.trim()` throws, which the surrounding `try` turns into `false`. -/
def cmpSplit (f : List Char → List Char → Bool) : List (List Char) → Bool
  | [] => false
  | [_] => false
  | l :: r :: _ => f (trimChars l) (trimChars r)

/-- The operator dispatch of `evaluateExpression` on the rendered string:
the checks run in source order `>`, `<`, `>=`, `<=`, `==`, `!=`; ordering
operators compare via `Number`, equality compares the trimmed strings; with
no operator the string's truthiness is returned. -/
def evalRendered (rendered : List Char) : Bool :=
  if containsChar '>' rendered then
    cmpSplit jsNumGt (splitOnChar '>' rendered)
  else if containsChar '<' rendered then
    cmpSplit jsNumLt (splitOnChar '<' rendered)
  else if containsTwo '>' '=' rendered then
    cmpSplit jsNumGe (splitOnTwo '>' '=' rendered)
  else if containsTwo '<' '=' rendered then
    cmpSplit jsNumLe (splitOnTwo '<' '=' rendered)
  else if containsTwo '=' '=' rendered then
    cmpSplit (fun l r => decide (l = r)) (splitOnTwo '=' '=' rendered)
  else if containsTwo '!' '=' rendered then
    cmpSplit (fun l r => decide (l ≠ r)) (splitOnTwo '!' '=' rendered)
  else decide (rendered ≠ [])

/-- `evaluateExpression(expression, variables)` from template-renderer.ts:
render the expression, then dispatch on the first operator found. -/
def evaluateExpression (expr : String) (V : JObj) : Bool :=
  evalRendered (renderChars V expr.data)

/-
  Idempotence analysis of the renderer (claim C8).
-/

mutual
/-- A value is brace-safe when every string reachable inside it is non-empty
and free of `\x7b` and `\x7d`, and it contains no arrays (whose
stringification may be empty).  Substituting such values can never create or
destroy placeholders. -/
def braceSafeVal : JValue → Bool
  | .str s => decide (s.data ≠ []) && !(containsChar '{' s.data) && !(containsChar '}' s.data)
  | .num _ => true
  | .bool _ => true
  | .null => true
  | .obj fs => braceSafeFields fs
  | .arr _ => false

/-- All values of an object are brace-safe. -/
def braceSafeFields : List (String × JValue) → Bool
  | [] => true
  | kv :: rest => braceSafeVal kv.2 && braceSafeFields rest
end

theorem containsChar_iff (c : Char) (l : List Char) : containsChar c l = true ↔ c ∈ l := by
  induction l with
  | nil => simp [containsChar]
  | cons x xs ih =>
    simp [containsChar, ih]
    constructor
    · rintro (h | h)
      · subst h; exact Or.inl rfl
      · exact Or.inr h
    · rintro (h | h)
      · subst h; exact Or.inl rfl
      · exact Or.inr h

theorem natDigitsGo_digits (fuel n : Nat) :
    ∀ c ∈ natDigitsGo fuel n, ∃ k, k < 10 ∧ c = digitChar k := by
  induction fuel generalizing n with
  | zero => intro c hc; simp [natDigitsGo] at hc
  | succ f ih =>
    intro c hc
    rw [natDigitsGo] at hc
    split_ifs at hc with h10
    · simp at hc
      exact ⟨n, h10, hc⟩
    · rcases List.mem_append.mp hc with hc | hc
      · exact ih (n / 10) c hc
      · simp at hc
        exact ⟨n % 10, Nat.mod_lt _ (by omega), hc⟩

theorem natDigits_ne_nil (n : Nat) : natDigits n ≠ [] := by
  rw [natDigits, natDigitsGo]
  split_ifs <;> simp

theorem digitChar_ne_braces (k : Nat) (h : k < 10) :
    digitChar k ≠ '{' ∧ digitChar k ≠ '}' := by
  interval_cases k <;> exact (by decide)

theorem jsString_safe (v : JValue) (hv : braceSafeVal v = true) (hn : v.isNull = false) :
    jsString v ≠ [] ∧ ∀ c ∈ jsString v, c ≠ '{' ∧ c ≠ '}' := by
  cases v with
  | str s =>
    rw [braceSafeVal] at hv
    simp only [Bool.and_eq_true, Bool.not_eq_true', decide_eq_true_eq] at hv
    obtain ⟨⟨h1, h2⟩, h3⟩ := hv
    refine ⟨h1, ?_⟩
    intro c hc
    constructor
    · intro hcb; subst hcb
      rw [show containsChar '{' s.data = true from (containsChar_iff _ _).mpr hc] at h2
      exact absurd h2 (by simp)
    · intro hcb; subst hcb
      rw [show containsChar '}' s.data = true from (containsChar_iff _ _).mpr hc] at h3
      exact absurd h3 (by simp)
  | num n =>
    rw [jsString, intChars]
    split_ifs with hneg
    · refine ⟨by simp, ?_⟩
      intro c hc
      rcases List.mem_cons.mp hc with hc | hc
      · subst hc; exact ⟨by decide, by decide⟩
      · obtain ⟨k, hk, hck⟩ := natDigitsGo_digits _ _ c hc
        subst hck
        exact digitChar_ne_braces k hk
    · refine ⟨natDigits_ne_nil _, ?_⟩
      intro c hc
      obtain ⟨k, hk, hck⟩ := natDigitsGo_digits _ _ c hc
      subst hck
      exact digitChar_ne_braces k hk
  | bool b => cases b <;> rw [jsString] <;> exact ⟨by decide, by decide⟩
  | null => simp [JValue.isNull] at hn
  | obj fs => rw [jsString]; exact ⟨by decide, by decide⟩
  | arr l => simp [braceSafeVal] at hv

theorem braceSafeFields_lookup (fs : List (String × JValue)) (p : String) (v : JValue)
    (hf : braceSafeFields fs = true) (hl : objLookup fs p = some v) :
    braceSafeVal v = true := by
  induction fs with
  | nil => simp [objLookup] at hl
  | cons kv rest ih =>
    rw [braceSafeFields] at hf
    simp only [Bool.and_eq_true] at hf
    obtain ⟨hf1, hf2⟩ := hf
    obtain ⟨k, w⟩ := kv
    rw [objLookup] at hl
    split_ifs at hl with hk
    · simp only [Option.some.injEq] at hl; subst hl; exact hf1
    · exact ih hf2 hl

theorem getNestedGo_safe (parts : List String) (cur : Option JValue)
    (hcur : ∀ v, cur = some v → braceSafeVal v = true) (w : JValue)
    (h : getNestedGo cur parts = some w) : braceSafeVal w = true := by
  induction parts generalizing cur with
  | nil => rw [getNestedGo] at h; exact hcur w h
  | cons p ps ih =>
    rcases cur with _ | v
    · rw [getNestedGo] at h
      exact Option.noConfusion h
    · rcases v with s | nn | b | _ | fs | l <;> rw [getNestedGo] at h
      · exact Option.noConfusion h
      · exact Option.noConfusion h
      · exact Option.noConfusion h
      · exact Option.noConfusion h
      · have hfs : braceSafeFields fs = true := hcur (.obj fs) rfl
        exact ih (objLookup fs p)
          (fun v hv => braceSafeFields_lookup fs p v hfs hv) h
      · exact Option.noConfusion h

theorem lookupRender_safe (V : JObj) (content repl : List Char)
    (hV : braceSafeFields V = true) (hl : lookupRender V content = some repl) :
    repl ≠ [] ∧ ∀ c ∈ repl, c ≠ '{' ∧ c ≠ '}' := by
  rw [lookupRender] at hl
  match hg : getNestedValue V (String.mk (trimChars content)) with
  | none => rw [hg] at hl; exact absurd hl (by simp)
  | some v =>
    rw [hg] at hl
    have hl2 : (if v.isNull then none else some (jsString v)) = some repl := hl
    by_cases hnull : v.isNull = true
    · rw [if_pos hnull] at hl2; exact absurd hl2 (by simp)
    · rw [if_neg hnull] at hl2
      simp only [Option.some.injEq] at hl2
      subst hl2
      have hv : braceSafeVal v = true := by
        apply getNestedGo_safe _ (some (.obj V)) _ v hg
        intro w hw
        simp only [Option.some.injEq] at hw
        subst hw
        exact hV
      exact jsString_safe v hv (by simpa using hnull)

theorem renderChars_append_of_no_lbrace (V : JObj) (A B : List Char)
    (hA : ∀ x ∈ A, x ≠ '{') :
    renderChars V (A ++ B) = A ++ renderChars V B := by
  induction A with
  | nil => simp
  | cons a A2 ih =>
    have ha : a ≠ '{' := hA a (by simp)
    rw [List.cons_append,
      renderChars_cons_of_not_open V a (A2 ++ B) (by intro hcc; exact ha hcc.1),
      ih (fun x hx => hA x (by simp [hx]))]
    rfl

theorem renderChars_id_of_no_lbrace (V : JObj) (A : List Char)
    (hA : ∀ x ∈ A, x ≠ '{') : renderChars V A = A := by
  have := renderChars_append_of_no_lbrace V A [] hA
  simpa [renderChars_nil] using this

theorem renderChars_head_preserved (V : JObj) (s : List Char)
    (h : s.head? ≠ some '{') : (renderChars V s).head? = s.head? := by
  cases s with
  | nil => rw [renderChars_nil]
  | cons c rest =>
    have hc : c ≠ '{' := by simpa using h
    rw [renderChars_cons_of_not_open V c rest (by intro hcc; exact hc hcc.1)]
    rfl

theorem braceMatch_none_of_grab_none (r : List Char) (h : grabContent r = none) :
    braceMatch r = none := by
  rw [braceMatch, h]
  rfl

theorem braceMatch_none_of_grab_empty (r rr : List Char)
    (h : grabContent r = some ([], rr)) : braceMatch r = none := by
  rw [braceMatch, h]
  rfl

theorem braceMatch_none_cases (r : List Char) (h : braceMatch r = none) :
    grabContent r = none ∨ ∃ rr, grabContent r = some ([], rr) := by
  rw [braceMatch] at h
  match hg : grabContent r with
  | none => exact Or.inl rfl
  | some (ct, rr) =>
    rw [hg] at h
    by_cases hct : ct = []
    · subst hct; exact Or.inr ⟨rr, rfl⟩
    · rw [show ((some (ct, rr)).bind fun p => if p.1 = [] then none else some p) =
          some (ct, rr) from by simp [hct]] at h
      exact absurd h (by simp)

theorem rbrace_split (s : List Char) :
    (∀ x ∈ s, x ≠ '}') ∨ ∃ u t, s = u ++ '}' :: t ∧ ∀ x ∈ u, x ≠ '}' := by
  induction s with
  | nil => exact Or.inl (by simp)
  | cons c cs ih =>
    by_cases hc : c = '}'
    · subst hc
      exact Or.inr ⟨[], cs, by simp⟩
    · rcases ih with hno | ⟨u, t, heq, hu⟩
      · refine Or.inl ?_
        intro x hx
        rcases List.mem_cons.mp hx with hx | hx
        · subst hx; exact hc
        · exact hno x hx
      · subst heq
        refine Or.inr ⟨c :: u, t, by simp, ?_⟩
        intro x hx
        rcases List.mem_cons.mp hx with hx | hx
        · subst hx; exact hc
        · exact hu x hx

theorem renderChars_scan_rbrace (V : JObj) (u t : List Char)
    (hu : ∀ x ∈ u, x ≠ '}') (ht : t.head? ≠ some '}') :
    renderChars V (u ++ '}' :: t) = u ++ '}' :: renderChars V t := by
  induction u with
  | nil =>
    rw [List.nil_append,
      renderChars_cons_of_not_open V '}' t (by intro hcc; exact absurd hcc.1 (by decide))]
    rfl
  | cons a u2 ih =>
    have hau : ∀ x ∈ u2, x ≠ '}' := fun x hx => hu x (by simp [hx])
    by_cases hcc : a = '{' ∧ (u2 ++ '}' :: t).head? = some '{'
    · obtain ⟨ha, hhd⟩ := hcc
      subst ha
      match u2, hhd with
      | b :: u3, hhd =>
        have hb : b = '{' := by simpa using hhd
        subst hb
        have hu3 : ∀ x ∈ u3, x ≠ '}' := fun x hx => hau x (by simp [hx])
        have hgn : grabContent (u3 ++ '}' :: t) = none :=
          grabContent_none_of_single_rbrace u3 t hu3 ht
        rw [show ('{' :: ('{' :: u3) ++ '}' :: t : List Char) =
              '{' :: '{' :: (u3 ++ '}' :: t) from by simp,
          renderChars_open_fail V (u3 ++ '}' :: t) (braceMatch_none_of_grab_none _ hgn)]
        have := ih hau
        rw [show ('{' :: (u3 ++ '}' :: t) : List Char) = ('{' :: u3) ++ '}' :: t from by simp,
          this]
        simp
    · rw [List.cons_append, renderChars_cons_of_not_open V a (u2 ++ '}' :: t) hcc,
        ih hau]
      rfl

theorem renderChars_id_of_no_rbrace (V : JObj) :
    ∀ n (s : List Char), s.length < n → (∀ x ∈ s, x ≠ '}') → renderChars V s = s := by
  intro n
  induction n with
  | zero => intro s hs; omega
  | succ n ih =>
    intro s hs hnb
    match s with
    | [] => exact renderChars_nil V
    | c :: rest =>
      by_cases hcc : c = '{' ∧ rest.head? = some '{'
      · obtain ⟨hc, hh⟩ := hcc
        subst hc
        match rest, hh with
        | d :: rest1, hh =>
          have hd : d = '{' := by simpa using hh
          subst hd
          have hr1 : ∀ x ∈ rest1, x ≠ '}' := fun x hx => hnb x (by simp [hx])
          have hgn : grabContent rest1 = none := grabContent_none_of_no_rbrace rest1 hr1
          rw [renderChars_open_fail V rest1 (braceMatch_none_of_grab_none _ hgn)]
          have := ih ('{' :: rest1) (by simp only [List.length_cons] at hs ⊢; omega)
            (fun x hx => hnb x (by
              rcases List.mem_cons.mp hx with hx | hx
              · subst hx; simp
              · simp [hx]))
          rw [this]
      · rw [renderChars_cons_of_not_open V c rest hcc,
          ih rest (by simp only [List.length_cons] at hs; omega)
            (fun x hx => hnb x (by simp [hx]))]

theorem renderChars_head_ne_rbrace (V : JObj) (hV : braceSafeFields V = true)
    (s : List Char) (hh : s.head? ≠ some '}') :
    (renderChars V s).head? ≠ some '}' := by
  cases s with
  | nil => rw [renderChars_nil]; simp
  | cons c rest =>
    have hc : c ≠ '}' := by simpa using hh
    by_cases hcc : c = '{' ∧ rest.head? = some '{'
    · obtain ⟨hceq, hhd⟩ := hcc
      subst hceq
      match rest, hhd with
      | d :: rest1, hhd =>
        have hd : d = '{' := by simpa using hhd
        subst hd
        rcases hb : braceMatch rest1 with _ | ⟨content, rest2⟩
        · rw [renderChars_open_fail V rest1 hb]; simp
        · rcases hl : lookupRender V content with _ | repl
          · rw [renderChars_open_keep V rest1 content rest2 hb hl]; simp
          · rw [renderChars_open_subst V rest1 content rest2 repl hb hl]
            obtain ⟨hrne, hrnb⟩ := lookupRender_safe V content repl hV hl
            match repl, hrne with
            | r0 :: repl2, _ =>
              rw [List.cons_append]
              simp only [List.head?_cons, ne_eq, Option.some.injEq]
              exact (hrnb r0 (by simp)).2
    · rw [renderChars_cons_of_not_open V c rest hcc]
      simpa using hc

theorem renderChars_idem (V : JObj) (hV : braceSafeFields V = true) :
    ∀ s, renderChars V (renderChars V s) = renderChars V s := by
  suffices h : ∀ n (s : List Char), s.length < n →
      renderChars V (renderChars V s) = renderChars V s from
    fun s => h (s.length + 1) s (by omega)
  intro n
  induction n with
  | zero => intro s hs; omega
  | succ n ih =>
    intro s hs
    match s with
    | [] => rw [renderChars_nil, renderChars_nil]
    | c :: rest =>
      by_cases hcc : c = '{' ∧ rest.head? = some '{'
      case neg =>
        rw [renderChars_cons_of_not_open V c rest hcc]
        have hho : ¬(c = '{' ∧ (renderChars V rest).head? = some '{') := by
          rintro ⟨hc, hh⟩
          apply hcc
          refine ⟨hc, ?_⟩
          by_cases hrh : rest.head? = some '{'
          · exact hrh
          · rw [renderChars_head_preserved V rest hrh] at hh
            exact absurd hh hrh
        rw [renderChars_cons_of_not_open V c (renderChars V rest) hho]
        exact congrArg (c :: ·)
          (ih rest (by simp only [List.length_cons] at hs; omega))
      case pos =>
        obtain ⟨hc, hh⟩ := hcc
        subst hc
        match rest, hh with
        | d :: rest1, hh =>
          have hd : d = '{' := by simpa using hh
          subst hd
          simp only [List.length_cons] at hs
          rcases hb : braceMatch rest1 with _ | ⟨content, rest2⟩
          case some =>
            obtain ⟨hsplit, hcne, hcnb⟩ := braceMatch_some rest1 content rest2 hb
            have hlen : rest2.length < n := by
              have := braceMatch_length rest1 content rest2 hb
              omega
            rcases hl : lookupRender V content with _ | repl
            · rw [renderChars_open_keep V rest1 content rest2 hb hl]
              have hb2 : braceMatch (content ++ '}' :: '}' :: renderChars V rest2) =
                  some (content, renderChars V rest2) := braceMatch_append _ _ hcne hcnb
              rw [renderChars_open_keep V _ content (renderChars V rest2) hb2 hl,
                ih rest2 hlen]
            · rw [renderChars_open_subst V rest1 content rest2 repl hb hl]
              obtain ⟨hrne, hrnb⟩ := lookupRender_safe V content repl hV hl
              rw [renderChars_append_of_no_lbrace V repl _ (fun x hx => (hrnb x hx).1),
                ih rest2 hlen]
          case none =>
            rw [renderChars_open_fail V rest1 hb]
            rcases braceMatch_none_cases rest1 hb with hgn | ⟨rr, hgs⟩
            · rcases rbrace_split rest1 with hnorb | ⟨u, t, hsp, hu⟩
              · have hnb : ∀ x ∈ ('{' :: rest1 : List Char), x ≠ '}' := by
                  intro x hx
                  rcases List.mem_cons.mp hx with hx | hx
                  · subst hx; decide
                  · exact hnorb x hx
                have hnr : renderChars V ('{' :: rest1) = '{' :: rest1 :=
                  renderChars_id_of_no_rbrace V (rest1.length + 2) _ (by simp) hnb
                rw [hnr]
                have hnb2 : ∀ x ∈ ('{' :: '{' :: rest1 : List Char), x ≠ '}' := by
                  intro x hx
                  rcases List.mem_cons.mp hx with hx | hx
                  · subst hx; decide
                  · exact hnb x hx
                exact renderChars_id_of_no_rbrace V (rest1.length + 3) _ (by simp) hnb2
              · by_cases hth : t.head? = some '}'
                · exfalso
                  match t, hth with
                  | t0 :: t2, hth =>
                    have ht0 : t0 = '}' := by simpa using hth
                    subst ht0
                    rw [hsp, grabContent_append u t2 hu] at hgn
                    exact Option.noConfusion hgn
                · subst hsp
                  have hscan1 : renderChars V ('{' :: (u ++ '}' :: t)) =
                      '{' :: u ++ '}' :: renderChars V t := by
                    have := renderChars_scan_rbrace V ('{' :: u) t
                      (by
                        intro x hx
                        rcases List.mem_cons.mp hx with hx | hx
                        · subst hx; decide
                        · exact hu x hx) hth
                    simpa using this
                  rw [hscan1]
                  have hrth : (renderChars V t).head? ≠ some '}' :=
                    renderChars_head_ne_rbrace V hV t hth
                  have hb2 : braceMatch (u ++ '}' :: renderChars V t) = none :=
                    braceMatch_none_of_grab_none _
                      (grabContent_none_of_single_rbrace u _ hu hrth)
                  have hassoc : ('{' :: ('{' :: u ++ '}' :: renderChars V t) : List Char) =
                      '{' :: '{' :: (u ++ '}' :: renderChars V t) := by simp
                  rw [hassoc, renderChars_open_fail V _ hb2]
                  have hscan2 : renderChars V ('{' :: (u ++ '}' :: renderChars V t)) =
                      '{' :: u ++ '}' :: renderChars V (renderChars V t) := by
                    have := renderChars_scan_rbrace V ('{' :: u) (renderChars V t)
                      (by
                        intro x hx
                        rcases List.mem_cons.mp hx with hx | hx
                        · subst hx; decide
                        · exact hu x hx) hrth
                    simpa using this
                  rw [hscan2,
                    ih t (by
                      have h9 : (u ++ '}' :: t).length = u.length + 1 + t.length := by
                        simp [List.length_append]
                        omega
                      omega)]
                  simp
            · obtain ⟨h1, _⟩ := grabContent_eq rest1 [] rr hgs
              simp only [List.nil_append] at h1
              subst h1
              have e1 : ∀ X : List Char,
                  renderChars V ('{' :: '}' :: '}' :: X) =
                    '{' :: '}' :: '}' :: renderChars V X := by
                intro X
                rw [renderChars_cons_of_not_open V '{' ('}' :: '}' :: X)
                    (by rintro ⟨_, hx⟩; simp at hx),
                  renderChars_cons_of_not_open V '}' ('}' :: X)
                    (by rintro ⟨hx, _⟩; exact absurd hx (by decide)),
                  renderChars_cons_of_not_open V '}' X
                    (by rintro ⟨hx, _⟩; exact absurd hx (by decide))]
              rw [e1 rr]
              have hg2 : grabContent ('}' :: '}' :: renderChars V rr) =
                  some ([], renderChars V rr) := by
                rw [grabContent]
                simp
              rw [renderChars_open_fail V _ (braceMatch_none_of_grab_empty _ _ hg2),
                e1 (renderChars V rr),
                ih rr (by simp only [List.length_cons] at hs; omega)]

/-- C8 counterexample: rendering is not idempotent as claimed.  With the
scope `a = "\x7b\x7bb\x7d\x7d", b = "x"`, the template `\x7b\x7ba\x7d\x7d`
renders to `\x7b\x7bb\x7d\x7d`, and rendering that again yields `x`. -/
theorem renderTemplate_not_idempotent :
    renderTemplate
        (renderTemplate "\x7b\x7ba\x7d\x7d"
          [("a", JValue.str "\x7b\x7bb\x7d\x7d"), ("b", JValue.str "x")])
        [("a", JValue.str "\x7b\x7bb\x7d\x7d"), ("b", JValue.str "x")] ≠
      renderTemplate "\x7b\x7ba\x7d\x7d"
        [("a", JValue.str "\x7b\x7bb\x7d\x7d"), ("b", JValue.str "x")] := by
  simp only [renderTemplate, renderChars_eval]
  decide

/-- C8 (amended): for every template `T` and scope `V` whose values are
brace-safe (every reachable string is non-empty and contains neither
`\x7b` nor `\x7d`, and no arrays occur), rendering is idempotent:
`renderTemplate (renderTemplate T V) V = renderTemplate T V`. -/
theorem renderTemplate_idempotent_of_braceSafe (T : String) (V : JObj)
    (hV : braceSafeFields V = true) :
    renderTemplate (renderTemplate T V) V = renderTemplate T V :=
  congrArg String.mk (renderChars_idem V hV T.data)

/-- Witness for C8 (amended) at a concrete template and brace-safe scope. -/
theorem renderTemplate_idempotent_witness :
    braceSafeFields [("a", JValue.str "va"), ("n", JValue.num 7)] = true ∧
    renderTemplate
        (renderTemplate "\x7b\x7ba\x7d\x7d and \x7b\x7bmissing\x7d\x7d"
          [("a", JValue.str "va"), ("n", JValue.num 7)])
        [("a", JValue.str "va"), ("n", JValue.num 7)] =
      renderTemplate "\x7b\x7ba\x7d\x7d and \x7b\x7bmissing\x7d\x7d"
        [("a", JValue.str "va"), ("n", JValue.num 7)] :=
  ⟨by decide,
   renderTemplate_idempotent_of_braceSafe
     "\x7b\x7ba\x7d\x7d and \x7b\x7bmissing\x7d\x7d"
     [("a", JValue.str "va"), ("n", JValue.num 7)] (by decide)⟩

/-- C7: the code mis-parses `>=`.  At the failing input
`\x7b\x7ba\x7d\x7d >= 100` with `a = 200` the claimed numeric comparison
`200 >= 100` is true, yet `evaluateExpression` returns `false`: the `>`
branch fires first, splitting the rendered string into `200` and `= 100`,
and `Number("= 100")` is `NaN`. -/
theorem evaluateExpression_ge_failing_input :
    evaluateExpression "\x7b\x7ba\x7d\x7d >= 100" [("a", JValue.num 200)] = false ∧
      (200 : Int) ≥ 100 :=
  ⟨by simp only [evaluateExpression, renderChars_eval]; decide, by decide⟩

/-
  Session manager (src/backend/state/session-manager.ts).

  Timestamps (ISO strings in the source) are modelled as natural numbers;
  each operation takes the current wall-clock `now` as a parameter.
-/

/-- Generic association map with JavaScript Map semantics: lookup finds the
first (unique) matching key. -/
def mapLookup {β : Type} : List (String × β) → String → Option β
  | [], _ => none
  | (k, v) :: rest, key => if k = key then some v else mapLookup rest key

/-- `Map.set`: replace in place or append. -/
def mapSet {β : Type} : List (String × β) → String → β → List (String × β)
  | [], key, v => [(key, v)]
  | (k, w) :: rest, key, v =>
      if k = key then (k, v) :: rest else (k, w) :: mapSet rest key v

/-- `Map.delete`. -/
def mapDelete {β : Type} : List (String × β) → String → List (String × β)
  | [], _ => []
  | (k, w) :: rest, key =>
      if k = key then rest else (k, w) :: mapDelete rest key

theorem mapLookup_mapSet_self {β : Type} (m : List (String × β)) (k : String) (v : β) :
    mapLookup (mapSet m k v) k = some v := by
  induction m with
  | nil => simp [mapSet, mapLookup]
  | cons kv rest ih =>
    obtain ⟨k2, w⟩ := kv
    rw [mapSet]
    by_cases hk : k2 = k
    · rw [if_pos hk, mapLookup, if_pos hk]
    · rw [if_neg hk, mapLookup, if_neg hk, ih]

theorem mapLookup_mapSet_other {β : Type} (m : List (String × β)) (k k2 : String) (v : β)
    (h : k2 ≠ k) : mapLookup (mapSet m k v) k2 = mapLookup m k2 := by
  induction m with
  | nil =>
    simp only [mapSet, mapLookup]
    rw [if_neg (fun hh => h hh.symm)]
  | cons kv rest ih =>
    obtain ⟨k3, w⟩ := kv
    rw [mapSet]
    by_cases hk : k3 = k
    · subst hk
      rw [if_pos rfl, mapLookup, mapLookup, if_neg (by intro hh; exact h hh.symm),
        if_neg (by intro hh; exact h hh.symm)]
    · rw [if_neg hk, mapLookup, mapLookup]
      by_cases h32 : k3 = k2
      · rw [if_pos h32, if_pos h32]
      · rw [if_neg h32, if_neg h32, ih]

/-- SessionState (shared/workflow-spec/types.ts). -/
structure SessionState where
  sessionId : String
  type : String
  msisdn : String
  data : JObj
  createdAt : Nat
  lastActivityAt : Nat
  expiresAt : Option Nat
  isActive : Bool
deriving DecidableEq

/-- The argument of `createSession`:
`Omit<SessionState, 'createdAt' | 'lastActivityAt'>`. -/
structure SessionInit where
  sessionId : String
  type : String
  msisdn : String
  data : JObj
  expiresAt : Option Nat
  isActive : Bool
deriving DecidableEq

/-- The state of a `RedisSessionManager` instance: the backing map and the
default TTL in milliseconds. -/
structure RedisState where
  redis : List (String × SessionState)
  defaultTtl : Nat
deriving DecidableEq

/-- `new RedisSessionManager(defaultTtlSeconds)`. -/
def newRedisSessionManager (defaultTtlSeconds : Nat) : RedisState :=
  { redis := [], defaultTtl := defaultTtlSeconds * 1000 }

/-- `RedisSessionManager.createSession` (session-manager.ts, lines 65-88):
build the full record with `createdAt = lastActivityAt = now`, defaulted
`expiresAt` and `isActive = true`; store it under `session:{id}` and, when
the MSISDN is truthy, under the secondary index
`session:msisdn:{msisdn}:{type}`.  No conflict check is performed. -/
def createSession (st : RedisState) (now : Nat) (s : SessionInit) :
    SessionState × RedisState :=
  let expiresAt := match s.expiresAt with
    | some e => some e
    | none => some (now + st.defaultTtl)
  let fullSession : SessionState :=
    { sessionId := s.sessionId, type := s.type, msisdn := s.msisdn,
      data := s.data, createdAt := now, lastActivityAt := now,
      expiresAt := expiresAt, isActive := true }
  let r1 := mapSet st.redis ("session:" ++ s.sessionId) fullSession
  let r2 :=
    if s.msisdn ≠ "" then
      mapSet r1 ("session:msisdn:" ++ s.msisdn ++ ":" ++ s.type) fullSession
    else r1
  (fullSession, { st with redis := r2 })

mutual
/-- `RedisSessionManager.getSession` (lines 90-104).  On an expired record the
source calls `endSession`, which itself calls `getSession` again, an unbounded
mutual recursion; the fuel models that recursion depth (in the source an
expired record makes this pair of methods recurse without bound). -/
def getSessionF : Nat → RedisState → Nat → String → Option SessionState × RedisState
  | 0, st, _, _ => (none, st)
  | fuel + 1, st, now, sessionId =>
      match mapLookup st.redis ("session:" ++ sessionId) with
      | none => (none, st)
      | some session =>
          match session.expiresAt with
          | some e =>
              if e < now then (none, endSessionF fuel st now sessionId)
              else (some session, st)
          | none => (some session, st)

/-- `RedisSessionManager.endSession` (lines 133-148): mark the record
inactive and remove the secondary index entry. -/
def endSessionF : Nat → RedisState → Nat → String → RedisState
  | 0, st, _, _ => st
  | fuel + 1, st, now, sessionId =>
      match getSessionF fuel st now sessionId with
      | (none, st2) => st2
      | (some session, st2) =>
          let s2 := { session with isActive := false, lastActivityAt := now }
          let r1 := mapSet st2.redis ("session:" ++ sessionId) s2
          let r2 :=
            if session.msisdn ≠ "" then
              mapDelete r1 ("session:msisdn:" ++ session.msisdn ++ ":" ++ session.type)
            else r1
          { st2 with redis := r2 }
end

/-- `RedisSessionManager.getActiveSessionByMsisdn` (lines 150-167). -/
def getActiveSessionByMsisdn (fuel : Nat) (st : RedisState) (now : Nat)
    (msisdn : String) (type : String) : Option SessionState × RedisState :=
  match mapLookup st.redis ("session:msisdn:" ++ msisdn ++ ":" ++ type) with
  | none => (none, st)
  | some session =>
      if session.isActive = false then (none, st)
      else
        match session.expiresAt with
        | some e =>
            if e < now then (none, endSessionF fuel st now session.sessionId)
            else (some session, st)
        | none => (some session, st)

/-- C6 counterexample: two `createSession` calls for the same
`(subscriber, channel)` pair both succeed — the second does not fail with
`session_conflict` — and afterwards both stored session records are active,
while the secondary index points at the second one. -/
theorem createSession_conflict_counterexample :
    ((mapLookup ((createSession
          ((createSession (newRedisSessionManager 3600) 0
              (SessionInit.mk "s1" "ussd" "m" [] none true)).2) 1
          (SessionInit.mk "s2" "ussd" "m" [] none true)).2).redis
        "session:s1").map (fun s => s.isActive)) = some true ∧
    ((mapLookup ((createSession
          ((createSession (newRedisSessionManager 3600) 0
              (SessionInit.mk "s1" "ussd" "m" [] none true)).2) 1
          (SessionInit.mk "s2" "ussd" "m" [] none true)).2).redis
        "session:s2").map (fun s => s.isActive)) = some true ∧
    ((mapLookup ((createSession
          ((createSession (newRedisSessionManager 3600) 0
              (SessionInit.mk "s1" "ussd" "m" [] none true)).2) 1
          (SessionInit.mk "s2" "ussd" "m" [] none true)).2).redis
        "session:msisdn:m:ussd").map (fun s => s.sessionId)) = some "s2" := by
  decide

/-- C6 (amended): `createSession` is unconditional.  It always returns an
active record, stores it under `session:{id}`, overwrites the secondary
index entry for `(msisdn, type)`, and leaves every other key — in
particular any previously stored (still active) session record for the same
pair — unchanged.  No `session_conflict` failure exists. -/
theorem createSession_unconditional (st : RedisState) (now : Nat) (s : SessionInit)
    (hm : s.msisdn ≠ "") :
    (createSession st now s).1.isActive = true ∧
    mapLookup (createSession st now s).2.redis ("session:" ++ s.sessionId) =
      some (createSession st now s).1 ∧
    mapLookup (createSession st now s).2.redis
        ("session:msisdn:" ++ s.msisdn ++ ":" ++ s.type) =
      some (createSession st now s).1 ∧
    ∀ k, k ≠ "session:" ++ s.sessionId →
      k ≠ "session:msisdn:" ++ s.msisdn ++ ":" ++ s.type →
      mapLookup (createSession st now s).2.redis k = mapLookup st.redis k := by
  have hred : (createSession st now s).2.redis =
      (if s.msisdn ≠ "" then
        mapSet (mapSet st.redis ("session:" ++ s.sessionId) (createSession st now s).1)
          ("session:msisdn:" ++ s.msisdn ++ ":" ++ s.type) (createSession st now s).1
       else mapSet st.redis ("session:" ++ s.sessionId) (createSession st now s).1) := rfl
  rw [hred, if_pos hm]
  refine ⟨rfl, ?_, ?_, ?_⟩
  · by_cases hk : ("session:" ++ s.sessionId : String) =
        "session:msisdn:" ++ s.msisdn ++ ":" ++ s.type
    · rw [hk, mapLookup_mapSet_self]
    · rw [mapLookup_mapSet_other _ _ _ _ hk, mapLookup_mapSet_self]
  · rw [mapLookup_mapSet_self]
  · intro k h1 h2
    rw [mapLookup_mapSet_other _ _ _ _ h2, mapLookup_mapSet_other _ _ _ _ h1]

/-- Witness for C6 (amended) at a concrete state and session request. -/
theorem createSession_unconditional_witness :
    (SessionInit.mk "w1" "voice" "77" [] none false).msisdn ≠ "" ∧
    ((createSession (newRedisSessionManager 10) 5
        (SessionInit.mk "w1" "voice" "77" [] none false)).1.isActive = true ∧
      mapLookup (createSession (newRedisSessionManager 10) 5
          (SessionInit.mk "w1" "voice" "77" [] none false)).2.redis
          ("session:" ++ (SessionInit.mk "w1" "voice" "77" [] none false).sessionId) =
        some (createSession (newRedisSessionManager 10) 5
          (SessionInit.mk "w1" "voice" "77" [] none false)).1 ∧
      mapLookup (createSession (newRedisSessionManager 10) 5
          (SessionInit.mk "w1" "voice" "77" [] none false)).2.redis
          ("session:msisdn:" ++ (SessionInit.mk "w1" "voice" "77" [] none false).msisdn ++
            ":" ++ (SessionInit.mk "w1" "voice" "77" [] none false).type) =
        some (createSession (newRedisSessionManager 10) 5
          (SessionInit.mk "w1" "voice" "77" [] none false)).1 ∧
      ∀ k, k ≠ "session:" ++ (SessionInit.mk "w1" "voice" "77" [] none false).sessionId →
        k ≠ "session:msisdn:" ++ (SessionInit.mk "w1" "voice" "77" [] none false).msisdn ++
            ":" ++ (SessionInit.mk "w1" "voice" "77" [] none false).type →
        mapLookup (createSession (newRedisSessionManager 10) 5
            (SessionInit.mk "w1" "voice" "77" [] none false)).2.redis k =
          mapLookup (newRedisSessionManager 10).redis k) :=
  ⟨by decide,
   createSession_unconditional (newRedisSessionManager 10) 5
     (SessionInit.mk "w1" "voice" "77" [] none false) (by decide)⟩

/-
  Workflow specification types (src/shared/workflow-spec/types.ts) and the
  validator (src/shared/workflow-spec/validator.ts).

  The optional `settings` and `errorHandling` sections and the optional
  metadata fields (`description`, `publishedAt`, `tags`, `environment`) are
  omitted from the model: absent optional sections are schema-valid, and no
  code under verification reads them.
-/

/-- RetryConfig (shared/workflow-spec/types.ts). -/
structure RetryConfig where
  maxAttempts : Nat
  initialDelayMs : Nat
  backoffMultiplier : Option Nat
  maxDelayMs : Option Nat
  retryableErrors : Option (List String)
deriving DecidableEq

/-- WorkflowMetadata (required fields). -/
structure WorkflowMetadata where
  workflowId : String
  version : Nat
  name : String
  createdBy : String
  createdAt : String
deriving DecidableEq

/-- BaseNode (shared/workflow-spec/types.ts); the UI-only `position` field is
omitted. -/
structure BaseNode where
  id : String
  type : String
  label : String
  config : JObj
  retry : Option RetryConfig
  timeout : Option Nat
  disabled : Option Bool
deriving DecidableEq

/-- WorkflowEdge. -/
structure WorkflowEdge where
  id : String
  source : String
  target : String
  sourceHandle : Option String
  targetHandle : Option String
  condition : Option String
  label : Option String
deriving DecidableEq

/-- WorkflowSpec. -/
structure WorkflowSpec where
  metadata : WorkflowMetadata
  trigger : BaseNode
  nodes : List BaseNode
  edges : List WorkflowEdge
deriving DecidableEq

def isHexDigit (c : Char) : Bool :=
  ('0' ≤ c && c ≤ '9') || ('a' ≤ c && c ≤ 'f') || ('A' ≤ c && c ≤ 'F')

/-- Model of Zod's `z.string().uuid()`: five dash-separated hex groups of
lengths 8-4-4-4-12. -/
def isUuid (s : String) : Bool :=
  match splitOnChar '-' s.data with
  | [a, b, c, d, e] =>
      decide (a.length = 8) && decide (b.length = 4) && decide (c.length = 4) &&
      decide (d.length = 4) && decide (e.length = 12) &&
      (a ++ b ++ c ++ d ++ e).all isHexDigit
  | _ => false

def isDigit (c : Char) : Bool := '0' ≤ c && c ≤ '9'

/-- Model of Zod's `z.string().datetime()` restricted to the plain
`YYYY-MM-DDTHH:MM:SSZ` form (the only form used in this development). -/
def isDatetime (s : String) : Bool :=
  match s.data with
  | [y1, y2, y3, y4, '-', m1, m2, '-', d1, d2, 'T',
     h1, h2, ':', n1, n2, ':', s1, s2, 'Z'] =>
      [y1, y2, y3, y4, m1, m2, d1, d2, h1, h2, n1, n2, s1, s2].all isDigit
  | _ => false

/-- The trigger type enumeration of `WorkflowSpecSchema`. -/
def triggerTypes : List String :=
  ["SMS_RECEIVED", "USSD_SESSION_START", "INCOMING_CALL",
   "PAYMENT_CALLBACK", "SCHEDULED", "HTTP_WEBHOOK"]

/-- The retry sub-schema of `WorkflowSpecSchema`. -/
def retrySchemaOk (r : RetryConfig) : Bool :=
  decide (r.maxAttempts > 0) &&
  (match r.backoffMultiplier with | some b => decide (b > 0) | none => true) &&
  (match r.maxDelayMs with | some m => decide (m > 0) | none => true)

/-- `WorkflowSpecSchema.safeParse(spec).success` on the modelled fields:
metadata refinements, the trigger shape, and the trigger's optional retry and
timeout.  Node entries are `z.any()` and edge fields are plain strings, so
they always parse. -/
def schemaCheck (spec : WorkflowSpec) : Bool :=
  isUuid spec.metadata.workflowId &&
  decide (spec.metadata.version > 0) &&
  decide (spec.metadata.name ≠ "") &&
  decide (spec.metadata.createdBy ≠ "") &&
  isDatetime spec.metadata.createdAt &&
  decide (spec.trigger.type ∈ triggerTypes) &&
  (match spec.trigger.retry with | some r => retrySchemaOk r | none => true) &&
  (match spec.trigger.timeout with | some t => decide (t > 0) | none => true)

/-- A validation error or warning (validator.ts). -/
structure ValidationIssue where
  code : String
  message : String
  path : Option String
  nodeId : Option String
deriving DecidableEq

/-- ValidationResult (validator.ts). -/
structure WfValidationResult where
  valid : Bool
  errors : List ValidationIssue
  warnings : List ValidationIssue
deriving DecidableEq

/-- The recursive `dfs` of `findReachableNodes` (validator.ts, lines
158-185); the `forEach` over outgoing edges is the fold.  The fuel bounds
the nesting depth of the recursion, which the `visited` check keeps below
the number of distinct node ids plus one; `findReachableNodes` below
supplies more fuel than that, so the fuel-zero branch is never taken there. -/
def reachVisit (edges : List WorkflowEdge) : Nat → List String → String → List String
  | 0, vis, _ => vis
  | fuel + 1, vis, nodeId =>
      if nodeId ∈ vis then vis
      else
        ((edges.filter (fun e => e.source = nodeId)).map (fun e => e.target)).foldl
          (reachVisit edges fuel) (nodeId :: vis)

/-- `findReachableNodes(spec)`: the `visited` set (equal to `reachable` in
the source) of a DFS from the trigger over the edge index. -/
def findReachableNodes (spec : WorkflowSpec) : List String :=
  reachVisit spec.edges (spec.edges.length + 2) [] spec.trigger.id

/-- `validateGraphStructure` (validator.ts, lines 109-153): edge endpoint
existence, trigger presence and reachability of every non-trigger node. -/
def validateGraphStructure (spec : WorkflowSpec) : List ValidationIssue :=
  let nodeIds := spec.nodes.map (fun n => n.id)
  let edgeErrors := spec.edges.flatMap (fun e =>
    (if e.source ∈ nodeIds then [] else
      [{ code := "INVALID_EDGE_SOURCE",
         message := "Edge " ++ e.id ++ " references non-existent source node: " ++ e.source,
         path := none, nodeId := some e.source }]) ++
    (if e.target ∈ nodeIds then [] else
      [{ code := "INVALID_EDGE_TARGET",
         message := "Edge " ++ e.id ++ " references non-existent target node: " ++ e.target,
         path := none, nodeId := some e.target }]))
  let triggerErrors :=
    if spec.trigger.id ∈ nodeIds then []
    else [{ code := "TRIGGER_NOT_IN_NODES",
            message := "Trigger node " ++ spec.trigger.id ++ " not found in nodes array",
            path := none, nodeId := some spec.trigger.id }]
  let reachable := findReachableNodes spec
  let unreachableErrors := spec.nodes.flatMap (fun n =>
    if n.id ∉ reachable ∧ n.id ≠ spec.trigger.id then
      [{ code := "UNREACHABLE_NODE",
         message := "Node " ++ n.id ++ " is not reachable from trigger",
         path := none, nodeId := some n.id }]
    else [])
  edgeErrors ++ triggerErrors ++ unreachableErrors

/-- Fuel-indexed helper for `dedupKeepFirst`; the fuel dominates the list
length at every call, so the zero branch only ever sees `[]`. -/
def dedupKeepFirstGo : Nat → List String → List String
  | 0, _ => []
  | _ + 1, [] => []
  | fuel + 1, x :: xs => x :: dedupKeepFirstGo fuel (xs.filter (fun y => y ≠ x))

/-- Distinct elements in first-occurrence order (the key order of the
`nodeIdCounts` Map built in `validateSemantics`). -/
def dedupKeepFirst (l : List String) : List String :=
  dedupKeepFirstGo l.length l

/-- `validateSemantics` (validator.ts, lines 193-233): duplicate node ids,
no incoming edges into the trigger, and USSD workflows must contain a
SESSION_END node. -/
def validateSemantics (spec : WorkflowSpec) : List ValidationIssue :=
  let ids := spec.nodes.map (fun n => n.id)
  let dupErrors := (dedupKeepFirst ids).flatMap (fun id =>
    if ids.count id > 1 then
      [{ code := "DUPLICATE_NODE_ID", message := "Duplicate node ID: " ++ id,
         path := none, nodeId := some id }]
    else [])
  let triggerErrors :=
    if spec.edges.any (fun e => e.target = spec.trigger.id) then
      [{ code := "TRIGGER_HAS_INCOMING_EDGES",
         message := "Trigger node cannot have incoming edges",
         path := none, nodeId := some spec.trigger.id }]
    else []
  let ussdErrors :=
    if spec.trigger.type = "USSD_SESSION_START" ∧
        ¬ spec.nodes.any (fun n => n.type = "SESSION_END") then
      [{ code := "USSD_MISSING_SESSION_END",
         message := "USSD workflows must include at least one SESSION_END node",
         path := none, nodeId := none }]
    else []
  dupErrors ++ triggerErrors ++ ussdErrors

/-- `validateSemanticsWarnings` (validator.ts, lines 238-254). -/
def validateSemanticsWarnings (spec : WorkflowSpec) : List ValidationIssue :=
  let nodesWithOutgoing := spec.edges.map (fun e => e.source)
  spec.nodes.flatMap (fun n =>
    if n.id ∉ nodesWithOutgoing ∧ n.type ≠ "SESSION_END" then
      [{ code := "DEAD_END_NODE", message := "Node " ++ n.id ++ " has no outgoing edges",
         path := none, nodeId := some n.id }]
    else [])

/-- `validateWorkflowSpec` (validator.ts, lines 68-101).  A schema failure
returns immediately; Zod reports one issue per failed refinement, modelled
here as a single `SCHEMA_VALIDATION_ERROR` entry (only `valid` and the codes
are consumed downstream). -/
def validateWorkflowSpec (spec : WorkflowSpec) : WfValidationResult :=
  if schemaCheck spec = false then
    { valid := false,
      errors := [{ code := "SCHEMA_VALIDATION_ERROR",
                   message := "schema validation failed", path := some "", nodeId := none }],
      warnings := [] }
  else
    let errors := validateGraphStructure spec ++ validateSemantics spec
    { valid := errors.isEmpty, errors := errors,
      warnings := validateSemanticsWarnings spec }

/-
  Node definitions (src/shared/node-definitions/*).  Each Zod config schema is
  modelled as a boolean checker over a JSON object; `validate` hooks (used by
  SCHEDULED and PLAY_IVR only, and ignoring their context argument as the
  source hooks do) return the node-definitions ValidationResult, modelled as
  a flag plus (field, message) pairs.
-/

def reqStr (c : JObj) (k : String) : Bool :=
  match objLookup c k with | some (.str _) => true | _ => false

def reqStrMin1 (c : JObj) (k : String) : Bool :=
  match objLookup c k with | some (.str s) => decide (s ≠ "") | _ => false

def optStr (c : JObj) (k : String) : Bool :=
  match objLookup c k with | none => true | some (.str _) => true | _ => false

def optBool (c : JObj) (k : String) : Bool :=
  match objLookup c k with | none => true | some (.bool _) => true | _ => false

def optPosInt (c : JObj) (k : String) : Bool :=
  match objLookup c k with | none => true | some (.num n) => decide (n > 0) | _ => false

def reqPosInt (c : JObj) (k : String) : Bool :=
  match objLookup c k with | some (.num n) => decide (n > 0) | _ => false

def optNonnegInt (c : JObj) (k : String) : Bool :=
  match objLookup c k with | none => true | some (.num n) => decide (n ≥ 0) | _ => false

def optIntRange (c : JObj) (k : String) (lo hi : Int) : Bool :=
  match objLookup c k with
  | none => true
  | some (.num n) => decide (lo ≤ n) && decide (n ≤ hi)
  | _ => false

def reqEnum (c : JObj) (k : String) (vals : List String) : Bool :=
  match objLookup c k with | some (.str s) => decide (s ∈ vals) | _ => false

def optEnum (c : JObj) (k : String) (vals : List String) : Bool :=
  match objLookup c k with
  | none => true
  | some (.str s) => decide (s ∈ vals)
  | _ => false

def isStrVal : JValue → Bool
  | .str _ => true
  | _ => false

def reqRecordStr (c : JObj) (k : String) : Bool :=
  match objLookup c k with
  | some (.obj fs) => fs.all (fun kv => isStrVal kv.2)
  | _ => false

def optRecordStr (c : JObj) (k : String) : Bool :=
  match objLookup c k with
  | none => true
  | some (.obj fs) => fs.all (fun kv => isStrVal kv.2)
  | _ => false

def optRecordAny (c : JObj) (k : String) : Bool :=
  match objLookup c k with | none => true | some (.obj _) => true | _ => false

def optArrStr (c : JObj) (k : String) : Bool :=
  match objLookup c k with
  | none => true
  | some (.arr l) => l.all isStrVal
  | _ => false

/-- Model of Zod's `z.string().url()`: the string contains the scheme
separator.  Only well-formedness relative to this check matters downstream. -/
def containsSchemeSep : List Char → Bool
  | a :: b :: c :: rest =>
      (decide (a = ':') && decide (b = '/') && decide (c = '/')) ||
      containsSchemeSep (b :: c :: rest)
  | _ => false

def isUrlStr (s : String) : Bool := containsSchemeSep s.data

def optUrl (c : JObj) (k : String) : Bool :=
  match objLookup c k with
  | none => true
  | some (.str s) => isUrlStr s
  | _ => false

def reqUrl (c : JObj) (k : String) : Bool :=
  match objLookup c k with | some (.str s) => isUrlStr s | _ => false

def isAlphaNumUnd (c : Char) : Bool :=
  ('a' ≤ c && c ≤ 'z') || ('A' ≤ c && c ≤ 'Z') || ('0' ≤ c && c ≤ '9') ||
  c = '/' || c = '_' || c = '-'

/-- HTTP_WEBHOOK path regex `/^\/[a-zA-Z0-9\/_-]*$/`. -/
def pathRegexOk (s : String) : Bool :=
  match s.data with
  | '/' :: rest => rest.all isAlphaNumUnd
  | _ => false

def reqPath (c : JObj) (k : String) : Bool :=
  match objLookup c k with | some (.str s) => pathRegexOk s | _ => false

/-- The result type of node-definition `validate` hooks. -/
structure NodeCheckResult where
  valid : Bool
  errors : List (String × String)
deriving DecidableEq

/-- Number of whitespace-separated fields of the trimmed cron expression;
`"".split(/\s+/)` in JS yields `[""]`, hence 1 for an all-whitespace input. -/
def wordCount : List Char → Bool → Nat
  | [], _ => 0
  | c :: rest, inWord =>
      if isWsp c then wordCount rest false
      else (if inWord then 0 else 1) + wordCount rest true

def cronFieldCount (s : String) : Nat :=
  let t := trimChars s.data
  if t = [] then 1 else wordCount t false

/-- SCHEDULED validate hook (node-definitions/triggers.ts). -/
def scheduledValidate (c : JObj) : NodeCheckResult :=
  match objLookup c "cronExpression" with
  | some (.str s) =>
      if cronFieldCount s = 5 ∨ cronFieldCount s = 6 then
        { valid := true, errors := [] }
      else
        { valid := false,
          errors := [("cronExpression", "Cron expression must have 5 or 6 fields")] }
  | _ => { valid := false, errors := [("cronExpression", "Invalid cron expression")] }

def strTruthy (c : JObj) (k : String) : Bool :=
  match objLookup c k with | some (.str s) => decide (s ≠ "") | _ => false

/-- PLAY_IVR validate hook (node-definitions/actions.ts): either text or
audioUrl must be provided (empty strings are falsy in JS). -/
def playIvrValidate (c : JObj) : NodeCheckResult :=
  if strTruthy c "text" || strTruthy c "audioUrl" then
    { valid := true, errors := [] }
  else
    { valid := false,
      errors := [("text/audioUrl", "Either text or audioUrl must be provided")] }

/-- NodeDefinition (node-definitions/types.ts); the Zod `configSchema` is the
boolean checker `configSchemaCheck`. -/
structure NodeDefinition where
  type : String
  name : String
  category : String
  configSchemaCheck : JObj → Bool
  validate : Option (JObj → NodeCheckResult)
  allowedIncomingTypes : Option (List String)
  allowedOutgoingTypes : Option (List String)
  requiresSession : Option Bool
  endsSession : Option Bool
  defaultTimeout : Option Nat
  defaultRetry : Option RetryConfig

def smsReceivedDef : NodeDefinition :=
  { type := "SMS_RECEIVED", name := "SMS Received", category := "trigger",
    configSchemaCheck := fun c =>
      optStr c "phoneNumber" && optStr c "keyword" && optBool c "caseSensitive",
    validate := none, allowedIncomingTypes := none, allowedOutgoingTypes := none,
    requiresSession := none, endsSession := none,
    defaultTimeout := some 30000, defaultRetry := none }

def ussdSessionStartDef : NodeDefinition :=
  { type := "USSD_SESSION_START", name := "USSD Session Start", category := "trigger",
    configSchemaCheck := fun c => optStr c "serviceCode",
    validate := none, allowedIncomingTypes := none, allowedOutgoingTypes := none,
    requiresSession := some true, endsSession := none,
    defaultTimeout := some 30000, defaultRetry := none }

def incomingCallDef : NodeDefinition :=
  { type := "INCOMING_CALL", name := "Incoming Call", category := "trigger",
    configSchemaCheck := fun c => optStr c "phoneNumber",
    validate := none, allowedIncomingTypes := none, allowedOutgoingTypes := none,
    requiresSession := some true, endsSession := none,
    defaultTimeout := some 30000, defaultRetry := none }

def paymentCallbackDef : NodeDefinition :=
  { type := "PAYMENT_CALLBACK", name := "Payment Callback", category := "trigger",
    configSchemaCheck := fun c =>
      optEnum c "transactionType" ["checkout", "b2c", "b2b"] &&
      optEnum c "status" ["Success", "Failed", "Pending"],
    validate := none, allowedIncomingTypes := none, allowedOutgoingTypes := none,
    requiresSession := none, endsSession := none,
    defaultTimeout := some 30000, defaultRetry := none }

def scheduledDef : NodeDefinition :=
  { type := "SCHEDULED", name := "Scheduled", category := "trigger",
    configSchemaCheck := fun c => reqStr c "cronExpression" && optStr c "timezone",
    validate := some scheduledValidate,
    allowedIncomingTypes := none, allowedOutgoingTypes := none,
    requiresSession := none, endsSession := none,
    defaultTimeout := some 30000, defaultRetry := none }

def httpWebhookDef : NodeDefinition :=
  { type := "HTTP_WEBHOOK", name := "HTTP Webhook", category := "trigger",
    configSchemaCheck := fun c =>
      optEnum c "method" ["GET", "POST", "PUT", "PATCH"] &&
      reqPath c "path" && optBool c "requireAuth" && optStr c "authToken",
    validate := none, allowedIncomingTypes := none, allowedOutgoingTypes := none,
    requiresSession := none, endsSession := none,
    defaultTimeout := some 30000, defaultRetry := none }

def sendSmsDef : NodeDefinition :=
  { type := "SEND_SMS", name := "Send SMS", category := "action",
    configSchemaCheck := fun c =>
      reqStr c "to" && reqStrMin1 c "message" && optStr c "from",
    validate := none, allowedIncomingTypes := none, allowedOutgoingTypes := none,
    requiresSession := none, endsSession := none,
    defaultTimeout := some 30000,
    defaultRetry := some
      { maxAttempts := 3, initialDelayMs := 1000, backoffMultiplier := some 2,
        maxDelayMs := none, retryableErrors := some ["RATE_LIMIT", "NETWORK_ERROR"] } }

def sendUssdResponseDef : NodeDefinition :=
  { type := "SEND_USSD_RESPONSE", name := "Send USSD Response", category := "action",
    configSchemaCheck := fun c => reqStrMin1 c "message" && optBool c "expectInput",
    validate := none, allowedIncomingTypes := none, allowedOutgoingTypes := none,
    requiresSession := some true, endsSession := none,
    defaultTimeout := some 10000, defaultRetry := none }

def initiateCallDef : NodeDefinition :=
  { type := "INITIATE_CALL", name := "Initiate Call", category := "action",
    configSchemaCheck := fun c =>
      reqStr c "to" && optStr c "from" && optStr c "callHoldMusic",
    validate := none, allowedIncomingTypes := none, allowedOutgoingTypes := none,
    requiresSession := some true, endsSession := none,
    defaultTimeout := some 60000, defaultRetry := none }

def playIvrDef : NodeDefinition :=
  { type := "PLAY_IVR", name := "Play IVR Menu", category := "action",
    configSchemaCheck := fun c =>
      optStr c "text" && optUrl c "audioUrl" && optStr c "language" &&
      optStr c "voice" && optIntRange c "loop" 1 3,
    validate := some playIvrValidate,
    allowedIncomingTypes := none, allowedOutgoingTypes := none,
    requiresSession := some true, endsSession := none,
    defaultTimeout := some 30000, defaultRetry := none }

def collectDtmfDef : NodeDefinition :=
  { type := "COLLECT_DTMF", name := "Collect DTMF Input", category := "action",
    configSchemaCheck := fun c =>
      optIntRange c "maxDigits" 1 20 && optIntRange c "timeout" 1 60 &&
      optStr c "finishOnKey" && optStr c "playPrompt",
    validate := none, allowedIncomingTypes := none, allowedOutgoingTypes := none,
    requiresSession := some true, endsSession := none,
    defaultTimeout := some 60000, defaultRetry := none }

def requestPaymentDef : NodeDefinition :=
  { type := "REQUEST_PAYMENT", name := "Request Payment", category := "action",
    configSchemaCheck := fun c =>
      reqEnum c "transactionType" ["checkout", "b2c", "b2b"] &&
      reqStr c "amount" && optStr c "currency" && reqStr c "phoneNumber" &&
      reqStr c "productName" && optRecordStr c "metadata",
    validate := none, allowedIncomingTypes := none, allowedOutgoingTypes := none,
    requiresSession := none, endsSession := none,
    defaultTimeout := some 30000,
    defaultRetry := some
      { maxAttempts := 2, initialDelayMs := 1000, backoffMultiplier := none,
        maxDelayMs := none, retryableErrors := some ["NETWORK_ERROR"] } }

def refundPaymentDef : NodeDefinition :=
  { type := "REFUND_PAYMENT", name := "Refund Payment", category := "action",
    configSchemaCheck := fun c => reqStr c "transactionId" && optStr c "amount",
    validate := none, allowedIncomingTypes := none, allowedOutgoingTypes := none,
    requiresSession := none, endsSession := none,
    defaultTimeout := some 30000,
    defaultRetry := some
      { maxAttempts := 2, initialDelayMs := 1000, backoffMultiplier := none,
        maxDelayMs := none, retryableErrors := some ["NETWORK_ERROR"] } }

def httpRequestDef : NodeDefinition :=
  { type := "HTTP_REQUEST", name := "HTTP Request", category := "action",
    configSchemaCheck := fun c =>
      optEnum c "method" ["GET", "POST", "PUT", "PATCH", "DELETE"] &&
      reqUrl c "url" && optRecordStr c "headers" && optStr c "body" &&
      optPosInt c "timeout",
    validate := none, allowedIncomingTypes := none, allowedOutgoingTypes := none,
    requiresSession := none, endsSession := none,
    defaultTimeout := some 30000,
    defaultRetry := some
      { maxAttempts := 3, initialDelayMs := 1000, backoffMultiplier := some 2,
        maxDelayMs := none, retryableErrors := some ["NETWORK_ERROR", "TIMEOUT", "5XX"] } }

def conditionDef : NodeDefinition :=
  { type := "CONDITION", name := "Condition", category := "logic",
    configSchemaCheck := fun c => reqStrMin1 c "expression",
    validate := none, allowedIncomingTypes := none, allowedOutgoingTypes := none,
    requiresSession := none, endsSession := none,
    defaultTimeout := some 1000, defaultRetry := none }

def caseEntryOk : JValue → Bool
  | .obj fs =>
      (match objLookup fs "value", objLookup fs "label" with
       | some (.str _), some (.str _) => true
       | _, _ => false)
  | _ => false

def switchDef : NodeDefinition :=
  { type := "SWITCH", name := "Switch", category := "logic",
    configSchemaCheck := fun c =>
      reqStr c "value" &&
      (match objLookup c "cases" with
       | some (.arr l) => decide (l ≠ []) && l.all caseEntryOk
       | _ => false),
    validate := none, allowedIncomingTypes := none, allowedOutgoingTypes := none,
    requiresSession := none, endsSession := none,
    defaultTimeout := some 1000, defaultRetry := none }

def delayDef : NodeDefinition :=
  { type := "DELAY", name := "Delay", category := "logic",
    configSchemaCheck := fun c => reqPosInt c "duration",
    validate := none, allowedIncomingTypes := none, allowedOutgoingTypes := none,
    requiresSession := none, endsSession := none,
    defaultTimeout := some 300000, defaultRetry := none }

def retryNodeDef : NodeDefinition :=
  { type := "RETRY", name := "Retry", category := "logic",
    configSchemaCheck := fun c =>
      optIntRange c "maxAttempts" 1 10 && optNonnegInt c "initialDelayMs" &&
      optPosInt c "backoffMultiplier" && optPosInt c "maxDelayMs" &&
      optArrStr c "retryableErrors",
    validate := none, allowedIncomingTypes := none, allowedOutgoingTypes := none,
    requiresSession := none, endsSession := none,
    defaultTimeout := some 300000, defaultRetry := none }

def rateLimitDef : NodeDefinition :=
  { type := "RATE_LIMIT", name := "Rate Limit", category := "logic",
    configSchemaCheck := fun c =>
      reqPosInt c "maxRequests" && reqPosInt c "windowMs" &&
      optEnum c "strategy" ["fixed", "sliding"] && optStr c "key",
    validate := none, allowedIncomingTypes := none, allowedOutgoingTypes := none,
    requiresSession := none, endsSession := none,
    defaultTimeout := some 60000, defaultRetry := none }

def mergeDef : NodeDefinition :=
  { type := "MERGE", name := "Merge", category := "logic",
    configSchemaCheck := fun c => optEnum c "strategy" ["first", "last", "all", "merge"],
    validate := none, allowedIncomingTypes := none, allowedOutgoingTypes := none,
    requiresSession := none, endsSession := none,
    defaultTimeout := some 1000, defaultRetry := none }

def sessionReadDef : NodeDefinition :=
  { type := "SESSION_READ", name := "Session Read", category := "state",
    configSchemaCheck := fun c =>
      optArrStr c "keys" && optRecordAny c "defaultValue" &&
      optBool c "mergeWithInput" && optStr c "outputKey",
    validate := none, allowedIncomingTypes := none, allowedOutgoingTypes := none,
    requiresSession := some true, endsSession := none,
    defaultTimeout := some 1000, defaultRetry := none }

def sessionWriteDef : NodeDefinition :=
  { type := "SESSION_WRITE", name := "Session Write", category := "state",
    configSchemaCheck := fun c =>
      reqRecordStr c "data" && optBool c "merge" && optIntRange c "ttl" 1 86400 &&
      optBool c "overwrite" && optEnum c "scope" ["session", "workflow", "global"] &&
      optBool c "encrypt",
    validate := none, allowedIncomingTypes := none, allowedOutgoingTypes := none,
    requiresSession := some true, endsSession := none,
    defaultTimeout := some 1000, defaultRetry := none }

def sessionEndDef : NodeDefinition :=
  { type := "SESSION_END", name := "Session End", category := "state",
    configSchemaCheck := fun c =>
      optStr c "message" && optBool c "clearData" && optBool c "saveData" &&
      optUrl c "redirectUrl" && optStr c "reason",
    validate := none, allowedIncomingTypes := none, allowedOutgoingTypes := none,
    requiresSession := some true, endsSession := some true,
    defaultTimeout := some 5000, defaultRetry := none }

/-- The registry populated by `registerAllNodes` in registration order
(triggers, actions, logic, state); `register` throws only on duplicate types
and none occur. -/
def atRegistry : List (String × NodeDefinition) :=
  [("SMS_RECEIVED", smsReceivedDef), ("USSD_SESSION_START", ussdSessionStartDef),
   ("INCOMING_CALL", incomingCallDef), ("PAYMENT_CALLBACK", paymentCallbackDef),
   ("SCHEDULED", scheduledDef), ("HTTP_WEBHOOK", httpWebhookDef),
   ("SEND_SMS", sendSmsDef), ("SEND_USSD_RESPONSE", sendUssdResponseDef),
   ("INITIATE_CALL", initiateCallDef), ("PLAY_IVR", playIvrDef),
   ("COLLECT_DTMF", collectDtmfDef), ("REQUEST_PAYMENT", requestPaymentDef),
   ("REFUND_PAYMENT", refundPaymentDef), ("HTTP_REQUEST", httpRequestDef),
   ("CONDITION", conditionDef), ("SWITCH", switchDef), ("DELAY", delayDef),
   ("RETRY", retryNodeDef), ("RATE_LIMIT", rateLimitDef), ("MERGE", mergeDef),
   ("SESSION_READ", sessionReadDef), ("SESSION_WRITE", sessionWriteDef),
   ("SESSION_END", sessionEndDef)]

/-- `NodeRegistry.validateConfig` (node-definitions/types.ts): unknown type,
then schema parse, then the optional validate hook.  The Zod issue text is
abstracted to a fixed message; only validity is consumed downstream. -/
def validateConfig (reg : List (String × NodeDefinition)) (type : String)
    (config : JObj) : NodeCheckResult :=
  match mapLookup reg type with
  | none => { valid := false, errors := [("type", "Unknown node type: " ++ type)] }
  | some d =>
      if d.configSchemaCheck config = false then
        { valid := false, errors := [("config", "schema validation failed")] }
      else
        match d.validate with
        | some v => v config
        | none => { valid := true, errors := [] }

/-
  The workflow compiler (src/backend/api/server.ts, lines 180-537):
  execution-graph types, `topologicalSort`, `calculateMaxDepth`,
  `buildExecutionGraph`, `validateExecutionGraph` and `compileWorkflow`.
  Maps are association lists with the replace-in-place `mapSet`, matching
  the key order of JS Map iteration.  Exceptions are `Except String`.
-/

structure ExecEdgeMeta where
  isConditional : Bool
  priority : Nat
deriving DecidableEq

structure ExecutionEdge where
  id : String
  source : String
  target : String
  sourceHandle : Option String
  targetHandle : Option String
  condition : Option String
  label : Option String
  metadata : ExecEdgeMeta
deriving DecidableEq

structure ExecNodeMeta where
  requiresSession : Bool
  endsSession : Bool
  executionOrder : Nat
deriving DecidableEq

structure ExecutionNode where
  id : String
  type : String
  definition : NodeDefinition
  config : JObj
  retry : Option RetryConfig
  timeout : Nat
  disabled : Bool
  incomingEdges : List ExecutionEdge
  outgoingEdges : List ExecutionEdge
  metadata : ExecNodeMeta

structure GraphMeta where
  requiresSession : Bool
  hasSessionEnd : Bool
  maxDepth : Nat
  hasCycles : Bool
deriving DecidableEq

structure ExecutionGraph where
  workflowId : String
  workflowVersion : Nat
  trigger : ExecutionNode
  nodes : List (String × ExecutionNode)
  executionOrder : List String
  metadata : GraphMeta

structure CompilationError where
  code : String
  message : String
  nodeId : Option String
  edgeId : Option String
  path : Option String
deriving DecidableEq

structure CompilationWarning where
  code : String
  message : String
  nodeId : Option String
deriving DecidableEq

structure CompilationResult where
  success : Bool
  graph : Option ExecutionGraph
  errors : List CompilationError
  warnings : List CompilationWarning

/-- `spec.edges.map` conversion (buildExecutionGraph, lines 347-360);
`!!edge.condition` is string truthiness, so an empty condition string is not
conditional. -/
def toExecutionEdge (e : WorkflowEdge) : ExecutionEdge :=
  { id := e.id, source := e.source, target := e.target,
    sourceHandle := e.sourceHandle, targetHandle := e.targetHandle,
    condition := e.condition, label := e.label,
    metadata :=
      { isConditional := (match e.condition with | some s => decide (s ≠ "") | none => false),
        priority := 0 } }

/-- JS `a || b` on an optional number: `0` and `undefined` are falsy. -/
def jsOrNat (o : Option Nat) (d : Nat) : Nat :=
  match o with
  | some v => if v = 0 then d else v
  | none => d

/-- One entry of the node map (buildExecutionGraph, lines 320-341).
`node.retry || definition.defaultRetry` is object truthiness, `node.timeout
|| definition.defaultTimeout || 30000` is number truthiness, and the boolean
defaults use `|| false`. -/
def mkExecutionNode (n : BaseNode) (d : NodeDefinition) : ExecutionNode :=
  { id := n.id, type := n.type, definition := d, config := n.config,
    retry := (match n.retry with | some r => some r | none => d.defaultRetry),
    timeout := jsOrNat n.timeout (jsOrNat d.defaultTimeout 30000),
    disabled := n.disabled.getD false,
    incomingEdges := [], outgoingEdges := [],
    metadata :=
      { requiresSession := d.requiresSession.getD false,
        endsSession := d.endsSession.getD false,
        executionOrder := 0 } }

/-- Build the node map in spec order.  The `nodeDefinitions.get(node.id)!`
of the source has no runtime check; a missing definition would make the
subsequent property access throw, modelled as this error.  `compileWorkflow`
only calls in with a complete definition map, so the branch is unreachable
from it. -/
def buildNodeMapGo (defs : List (String × NodeDefinition))
    (acc : List (String × ExecutionNode)) :
    List BaseNode → Except String (List (String × ExecutionNode))
  | [] => .ok acc
  | n :: ns =>
      match mapLookup defs n.id with
      | none => .error ("Missing node definition for: " ++ n.id)
      | some d => buildNodeMapGo defs (mapSet acc n.id (mkExecutionNode n d)) ns

/-- Link incoming/outgoing edges (buildExecutionGraph, lines 344-381); the
grouping maps preserve edge order, which `filter` reproduces. -/
def linkNodes (m : List (String × ExecutionNode)) (edges : List ExecutionEdge) :
    List (String × ExecutionNode) :=
  m.map (fun kv =>
    (kv.1, { kv.2 with
      incomingEdges := edges.filter (fun e => e.target = kv.1),
      outgoingEdges := edges.filter (fun e => e.source = kv.1) }))

/-- Topological-sort state: the `visiting` and `visited` sets and the
post-order `result` array. -/
structure TopoState where
  visiting : List String
  visited : List String
  result : List String

/-- Outgoing targets of a node id in the node map (`visit`, lines 433-439);
ids absent from the map have none. -/
def nodeTargets (nodes : List (String × ExecutionNode)) (nodeId : String) : List String :=
  match mapLookup nodes nodeId with
  | some nd => nd.outgoingEdges.map (fun e => e.target)
  | none => []

/-- The recursive `visit` of `topologicalSort` (server.ts, lines 424-443);
the `for` loop over outgoing edges is the fold.  The fuel bounds the nesting
depth of the recursion, which the `visiting`/`visited` checks keep below the
number of map entries plus two; `topologicalSort` supplies that much, so for
it the fuel-zero error never fires and the model agrees with the unbounded
source recursion. -/
def visitNode (nodes : List (String × ExecutionNode)) :
    Nat → TopoState → String → Except String TopoState
  | 0, _, nodeId => .error ("Recursion limit exceeded at node: " ++ nodeId)
  | fuel + 1, st, nodeId =>
      if nodeId ∈ st.visiting then
        .error ("Cycle detected in workflow graph at node: " ++ nodeId)
      else if nodeId ∈ st.visited then .ok st
      else
        match (nodeTargets nodes nodeId).foldl
            (fun (acc : Except String TopoState) t =>
              acc.bind (fun st1 => visitNode nodes fuel st1 t))
            (Except.ok { st with visiting := nodeId :: st.visiting }) with
        | .error e => .error e
        | .ok st2 =>
            .ok { visiting := st2.visiting.erase nodeId,
                  visited := nodeId :: st2.visited,
                  result := st2.result ++ [nodeId] }

/-- `topologicalSort` (server.ts, lines 419-449): visit from the start node,
then reverse the post-order. -/
def topologicalSort (nodes : List (String × ExecutionNode)) (startNodeId : String) :
    Except String (List String) :=
  match visitNode nodes (nodes.length + 2) ⟨[], [], []⟩ startNodeId with
  | .error e => .error e
  | .ok st => .ok st.result.reverse

/-- The recursive `calculateDepth` (server.ts, lines 457-475).  The source
memoises; the function is pure, so the memo table does not change values.
`compileWorkflow` reaches this only after a successful sort, on which the
part reachable from the start is acyclic, keeping the nesting below the
supplied fuel. -/
def calcDepth (nodes : List (String × ExecutionNode)) : Nat → String → Nat
  | 0, _ => 0
  | fuel + 1, nodeId =>
      match mapLookup nodes nodeId with
      | none => 0
      | some nd =>
          if nd.outgoingEdges.isEmpty then 0
          else ((nd.outgoingEdges.map (fun e => calcDepth nodes fuel e.target)).foldl max 0) + 1

def calculateMaxDepth (nodes : List (String × ExecutionNode)) (startNodeId : String) : Nat :=
  calcDepth nodes (nodes.length + 1) startNodeId

/-- The `executionOrder.forEach` of buildExecutionGraph (lines 387-392). -/
def setOrdinals (m : List (String × ExecutionNode)) (order : List String) :
    List (String × ExecutionNode) :=
  order.enum.foldl (fun acc p =>
    match mapLookup acc p.2 with
    | some nd => mapSet acc p.2 { nd with metadata := { nd.metadata with executionOrder := p.1 } }
    | none => acc) m

/-- `buildExecutionGraph` (server.ts, lines 312-413).  A missing trigger
entry would make `triggerNode.metadata` throw in the source, modelled as the
error branch; validation guarantees the trigger is present on every path
`compileWorkflow` takes here. -/
def buildExecutionGraph (spec : WorkflowSpec) (defs : List (String × NodeDefinition)) :
    Except String ExecutionGraph :=
  (buildNodeMapGo defs [] spec.nodes).bind (fun m0 =>
    (topologicalSort (linkNodes m0 (spec.edges.map toExecutionEdge)) spec.trigger.id).bind
      (fun order =>
          match mapLookup (setOrdinals (linkNodes m0 (spec.edges.map toExecutionEdge)) order)
              spec.trigger.id with
          | none => .error ("Missing trigger node: " ++ spec.trigger.id)
          | some triggerNode =>
              .ok { workflowId := spec.metadata.workflowId,
                    workflowVersion := spec.metadata.version,
                    trigger := triggerNode,
                    nodes := setOrdinals (linkNodes m0 (spec.edges.map toExecutionEdge)) order,
                    executionOrder := order,
                    metadata :=
                      { requiresSession := triggerNode.metadata.requiresSession ||
                          (setOrdinals (linkNodes m0 (spec.edges.map toExecutionEdge))
                            order).any (fun kv => kv.2.metadata.requiresSession),
                        hasSessionEnd := (setOrdinals (linkNodes m0
                          (spec.edges.map toExecutionEdge)) order).any
                            (fun kv => kv.2.metadata.endsSession),
                        maxDepth := calculateMaxDepth (setOrdinals (linkNodes m0
                          (spec.edges.map toExecutionEdge)) order) spec.trigger.id,
                        hasCycles := false } }))

/-- `validateExecutionGraph` (server.ts, lines 483-537). -/
def validateExecutionGraph (graph : ExecutionGraph) : List CompilationError :=
  let triggerErrors :=
    if graph.trigger.incomingEdges.length > 0 then
      [{ code := "TRIGGER_HAS_INCOMING_EDGES",
         message := "Trigger node cannot have incoming edges",
         nodeId := some graph.trigger.id, edgeId := none, path := none }]
    else []
  let ussdErrors :=
    if graph.trigger.type = "USSD_SESSION_START" ∧ graph.metadata.hasSessionEnd = false then
      [{ code := "USSD_MISSING_SESSION_END",
         message := "USSD workflows must include at least one SESSION_END node",
         nodeId := none, edgeId := none, path := none }]
    else []
  let connErrors := graph.nodes.flatMap (fun kv =>
    (match kv.2.definition.allowedIncomingTypes with
     | some l =>
         if l ≠ [] then
           kv.2.incomingEdges.flatMap (fun e =>
             match mapLookup graph.nodes e.source with
             | some src =>
                 if src.type ∉ l then
                   [{ code := "INVALID_NODE_CONNECTION",
                      message := "Node " ++ kv.1 ++ " (" ++ kv.2.type ++
                        ") cannot receive input from " ++ src.type,
                      nodeId := some kv.1, edgeId := some e.id, path := none }]
                 else []
             | none => [])
         else []
     | none => []) ++
    (match kv.2.definition.allowedOutgoingTypes with
     | some l =>
         if l ≠ [] then
           kv.2.outgoingEdges.flatMap (fun e =>
             match mapLookup graph.nodes e.target with
             | some tgt =>
                 if tgt.type ∉ l then
                   [{ code := "INVALID_NODE_CONNECTION",
                      message := "Node " ++ kv.1 ++ " (" ++ kv.2.type ++
                        ") cannot connect to " ++ tgt.type,
                      nodeId := some kv.1, edgeId := some e.id, path := none }]
                 else []
             | none => [])
         else []
     | none => []))
  triggerErrors ++ ussdErrors ++ connErrors

/-- The carried-over validation warnings (compileWorkflow, lines 224-236). -/
def compileWarnings (spec : WorkflowSpec) : List CompilationWarning :=
  (validateWorkflowSpec spec).warnings.map (fun w =>
    { code := w.code, message := w.message, nodeId := w.nodeId })

/-- Step 2 of compileWorkflow (lines 238-251): unknown-type errors. -/
def compileUnknownErrors (reg : List (String × NodeDefinition)) (spec : WorkflowSpec) :
    List CompilationError :=
  spec.nodes.flatMap (fun n =>
    if (mapLookup reg n.type).isNone then
      [{ code := "UNKNOWN_NODE_TYPE", message := "Unknown node type: " ++ n.type,
         nodeId := some n.id, edgeId := none, path := none }]
    else [])

/-- The `nodeDefinitions` map built in step 2 (lines 239-251). -/
def compiledDefs (reg : List (String × NodeDefinition)) (spec : WorkflowSpec) :
    List (String × NodeDefinition) :=
  spec.nodes.foldl (fun acc n =>
    match mapLookup reg n.type with
    | some d => mapSet acc n.id d
    | none => acc) []

/-- Step 3 of compileWorkflow (lines 257-273): node config errors. -/
def compileConfigErrors (reg : List (String × NodeDefinition)) (spec : WorkflowSpec) :
    List CompilationError :=
  spec.nodes.flatMap (fun n =>
    let cr := validateConfig reg n.type n.config
    if cr.valid then []
    else cr.errors.map (fun fm =>
      { code := "NODE_CONFIG_VALIDATION_ERROR",
        message := "Node " ++ n.id ++ ": " ++ fm.2,
        nodeId := some n.id, edgeId := none, path := some fm.1 }))

/-- Steps 4-5 of compileWorkflow (lines 279-306): a thrown build error is
caught as `COMPILATION_ERROR`; otherwise graph validation decides success. -/
def compileFinish (warnings : List CompilationWarning) :
    Except String ExecutionGraph → CompilationResult
  | .error msg =>
      { success := false, graph := none,
        errors := [{ code := "COMPILATION_ERROR", message := msg,
                     nodeId := none, edgeId := none, path := none }],
        warnings := warnings }
  | .ok graph =>
      if validateExecutionGraph graph ≠ [] then
        { success := false, graph := none, errors := validateExecutionGraph graph,
          warnings := warnings }
      else
        { success := true, graph := some graph, errors := [], warnings := warnings }

/-- `compileWorkflow` (server.ts, lines 209-307), parameterised by the node
registry.  Failure paths omit `graph` (here `none`). -/
def compileWorkflow (reg : List (String × NodeDefinition)) (spec : WorkflowSpec) :
    CompilationResult :=
  if (validateWorkflowSpec spec).valid = false then
    { success := false, graph := none,
      errors := (validateWorkflowSpec spec).errors.map (fun err =>
        { code := err.code, message := err.message, nodeId := err.nodeId,
          edgeId := none, path := err.path }),
      warnings := compileWarnings spec }
  else if compileUnknownErrors reg spec ≠ [] then
    { success := false, graph := none, errors := compileUnknownErrors reg spec,
      warnings := compileWarnings spec }
  else if compileConfigErrors reg spec ≠ [] then
    { success := false, graph := none, errors := compileConfigErrors reg spec,
      warnings := compileWarnings spec }
  else
    compileFinish (compileWarnings spec) (buildExecutionGraph spec (compiledDefs reg spec))

/-- Reachability over an adjacency function: reflexive closure of one-step
edges.  Instantiated with `edgeTargets` (the validator view) and
`nodeTargets` (the sort view). -/
inductive ReachF (adj : String → List String) : String → String → Prop
  | refl (a : String) : ReachF adj a a
  | step {a b t : String} : ReachF adj a b → t ∈ adj b → ReachF adj a t

/-- Targets of the edges leaving a node id, in edge order (the
`edgesBySource` index of the validator). -/
def edgeTargets (edges : List WorkflowEdge) (b : String) : List String :=
  (edges.filter (fun e => e.source = b)).map (fun e => e.target)

theorem ReachF_trans {adj : String → List String} {a b c : String}
    (h1 : ReachF adj a b) (h2 : ReachF adj b c) : ReachF adj a c := by
  induction h2 with
  | refl => exact h1
  | step _ ht ih => exact ReachF.step ih ht

theorem ReachF_congr {adj1 adj2 : String → List String} (h : ∀ b, adj1 b = adj2 b)
    {a x : String} (hr : ReachF adj1 a x) : ReachF adj2 a x := by
  induction hr with
  | refl => exact ReachF.refl _
  | step _ ht ih => exact ReachF.step ih (h _ ▸ ht)

/-- The fold that `visitNode` performs over the outgoing targets. -/
def visitFold (nodes : List (String × ExecutionNode)) (fuel : Nat) (st : TopoState)
    (ts : List String) : Except String TopoState :=
  ts.foldl
    (fun (acc : Except String TopoState) t => acc.bind (fun st1 => visitNode nodes fuel st1 t))
    (Except.ok st)

theorem visitFold_err (nodes : List (String × ExecutionNode)) (fuel : Nat) (e : String) :
    ∀ ts : List String,
      ts.foldl
        (fun (acc : Except String TopoState) t => acc.bind (fun st1 => visitNode nodes fuel st1 t))
        (Except.error e) = Except.error e := by
  intro ts
  induction ts with
  | nil => rfl
  | cons t ts ih => rw [List.foldl_cons]; exact ih

theorem visitFold_cons (nodes : List (String × ExecutionNode)) (fuel : Nat)
    (st : TopoState) (t : String) (ts : List String) :
    visitFold nodes fuel st (t :: ts) =
      match visitNode nodes fuel st t with
      | .error e => .error e
      | .ok st1 => visitFold nodes fuel st1 ts := by
  rw [visitFold, List.foldl_cons]
  cases hv : visitNode nodes fuel st t with
  | error e =>
      have hbind : (Except.ok st).bind (fun st1 => visitNode nodes fuel st1 t) =
          Except.error e := hv
      rw [hbind]
      exact visitFold_err nodes fuel e ts
  | ok st1 =>
      have hbind : (Except.ok st).bind (fun st1 => visitNode nodes fuel st1 t) =
          Except.ok st1 := hv
      rw [hbind]
      rfl

theorem visitNode_succ (nodes : List (String × ExecutionNode)) (fuel : Nat)
    (st : TopoState) (n : String) :
    visitNode nodes (fuel + 1) st n =
      if n ∈ st.visiting then
        .error ("Cycle detected in workflow graph at node: " ++ n)
      else if n ∈ st.visited then .ok st
      else
        match visitFold nodes fuel (⟨n :: st.visiting, st.visited, st.result⟩ : TopoState)
            (nodeTargets nodes n) with
        | .error e => .error e
        | .ok st2 =>
            .ok { visiting := st2.visiting.erase n,
                  visited := n :: st2.visited,
                  result := st2.result ++ [n] } := rfl

/-- The well-formedness the sort maintains: the post-order array is
duplicate-free, mirrors the visited set, and already lists every target of
each of its members at a strictly smaller index. -/
def TopoWF (nodes : List (String × ExecutionNode)) (st : TopoState) : Prop :=
  st.result.Nodup ∧ (∀ x, x ∈ st.visited ↔ x ∈ st.result) ∧
  (∀ u ∈ st.result, ∀ t ∈ nodeTargets nodes u,
    t ∈ st.result ∧ st.result.indexOf t < st.result.indexOf u)

theorem visit_invariant (nodes : List (String × ExecutionNode)) :
    ∀ fuel : Nat,
      (∀ st n st2, visitNode nodes fuel st n = .ok st2 → TopoWF nodes st →
        TopoWF nodes st2 ∧ st2.visiting = st.visiting ∧
        (∀ x ∈ st.visited, x ∈ st2.visited) ∧ n ∈ st2.visited ∧
        (∀ x ∈ st2.visited, x ∈ st.visited ∨ x ∉ st.visiting)) ∧
      (∀ ts st st2, visitFold nodes fuel st ts = .ok st2 → TopoWF nodes st →
        TopoWF nodes st2 ∧ st2.visiting = st.visiting ∧
        (∀ x ∈ st.visited, x ∈ st2.visited) ∧ (∀ t ∈ ts, t ∈ st2.visited) ∧
        (∀ x ∈ st2.visited, x ∈ st.visited ∨ x ∉ st.visiting)) := by
  intro fuel
  induction fuel with
  | zero =>
      constructor
      · intro st n st2 h
        exact absurd h (fun hh => Except.noConfusion hh)
      · intro ts
        induction ts with
        | nil =>
            intro st st2 h hwf
            have hst : st = st2 := Except.ok.inj h
            subst hst
            exact ⟨hwf, rfl, fun x hx => hx, fun t ht => absurd ht (List.not_mem_nil t),
              fun x hx => Or.inl hx⟩
        | cons t ts ih =>
            intro st st2 h hwf
            rw [visitFold_cons] at h
            exact Except.noConfusion h
  | succ fuel ih =>
      have N : ∀ st n st2, visitNode nodes (fuel + 1) st n = .ok st2 → TopoWF nodes st →
          TopoWF nodes st2 ∧ st2.visiting = st.visiting ∧
          (∀ x ∈ st.visited, x ∈ st2.visited) ∧ n ∈ st2.visited ∧
          (∀ x ∈ st2.visited, x ∈ st.visited ∨ x ∉ st.visiting) := by
        intro st n st2 h hwf
        rw [visitNode_succ] at h
        by_cases h1 : n ∈ st.visiting
        · rw [if_pos h1] at h
          exact Except.noConfusion h
        · rw [if_neg h1] at h
          by_cases h2 : n ∈ st.visited
          · rw [if_pos h2] at h
            have hst : st = st2 := Except.ok.inj h
            subst hst
            exact ⟨hwf, rfl, fun x hx => hx, h2, fun x hx => Or.inl hx⟩
          · rw [if_neg h2] at h
            generalize hf : visitFold nodes fuel
                (⟨n :: st.visiting, st.visited, st.result⟩ : TopoState)
                (nodeTargets nodes n) = res at h
            cases res with
            | error e => exact Except.noConfusion h
            | ok st3 =>
                have hst2 :
                    (⟨st3.visiting.erase n, n :: st3.visited, st3.result ++ [n]⟩ : TopoState) =
                      st2 := Except.ok.inj h
                obtain ⟨hwf3, hviseq, hmono, htgt, hnew⟩ :=
                  ih.2 (nodeTargets nodes n)
                    (⟨n :: st.visiting, st.visited, st.result⟩ : TopoState) st3 hf hwf
                have hn3 : n ∉ st3.visited := by
                  intro hmem
                  rcases hnew n hmem with hv | hnv
                  · exact h2 hv
                  · exact hnv (List.mem_cons_self n st.visiting)
                have hn3r : n ∉ st3.result := fun hr => hn3 ((hwf3.2.1 n).mpr hr)
                subst hst2
                refine ⟨⟨?_, ?_, ?_⟩, ?_, ?_, ?_, ?_⟩
                · rw [List.nodup_append]
                  refine ⟨hwf3.1, List.nodup_singleton n, ?_⟩
                  intro a ha hmem
                  rw [List.mem_singleton] at hmem
                  subst hmem
                  exact hn3r ha
                · intro x
                  constructor
                  · intro hx
                    rcases List.mem_cons.mp hx with rfl | hx
                    · exact List.mem_append.mpr (Or.inr (List.mem_singleton.mpr rfl))
                    · exact List.mem_append.mpr (Or.inl ((hwf3.2.1 x).mp hx))
                  · intro hx
                    rcases List.mem_append.mp hx with hx | hx
                    · exact List.mem_cons_of_mem n ((hwf3.2.1 x).mpr hx)
                    · rw [List.mem_singleton] at hx
                      rw [hx]
                      exact List.mem_cons_self n st3.visited
                · intro u hu t ht
                  rcases List.mem_append.mp hu with huR | huN
                  · obtain ⟨htR, hidx⟩ := hwf3.2.2 u huR t ht
                    refine ⟨List.mem_append.mpr (Or.inl htR), ?_⟩
                    rw [List.indexOf_append_of_mem htR, List.indexOf_append_of_mem huR]
                    exact hidx
                  · rw [List.mem_singleton] at huN
                    subst huN
                    have htv : t ∈ st3.visited := htgt t ht
                    have htR : t ∈ st3.result := (hwf3.2.1 t).mp htv
                    refine ⟨List.mem_append.mpr (Or.inl htR), ?_⟩
                    rw [List.indexOf_append_of_mem htR,
                      List.indexOf_append_of_not_mem hn3r]
                    have hlt : st3.result.indexOf t < st3.result.length :=
                      List.indexOf_lt_length.mpr htR
                    simp only [List.indexOf_cons, beq_self_eq_true, cond_true]
                    omega
                · rw [hviseq]
                  exact List.erase_cons_head n st.visiting
                · intro x hx
                  exact List.mem_cons_of_mem n (hmono x hx)
                · exact List.mem_cons_self n st3.visited
                · intro x hx
                  rcases List.mem_cons.mp hx with rfl | hx3
                  · exact Or.inr h1
                  · rcases hnew x hx3 with hv | hnv
                    · exact Or.inl hv
                    · exact Or.inr (fun hmem => hnv (List.mem_cons_of_mem n hmem))
      refine ⟨N, ?_⟩
      intro ts
      induction ts with
      | nil =>
          intro st st2 h hwf
          have hst : st = st2 := Except.ok.inj h
          subst hst
          exact ⟨hwf, rfl, fun x hx => hx, fun t ht => absurd ht (List.not_mem_nil t),
            fun x hx => Or.inl hx⟩
      | cons t ts iht =>
          intro st st2 h hwf
          rw [visitFold_cons] at h
          generalize hv : visitNode nodes (fuel + 1) st t = res at h
          cases res with
          | error e => exact Except.noConfusion h
          | ok st1 =>
              obtain ⟨hwf1, hviseq1, hmono1, hmem1, hnew1⟩ := N st t st1 hv hwf
              obtain ⟨hwf2, hviseq2, hmono2, hmemts, hnew2⟩ := iht st1 st2 h hwf1
              refine ⟨hwf2, hviseq2.trans hviseq1, fun x hx => hmono2 x (hmono1 x hx), ?_, ?_⟩
              · intro u hu
                rcases List.mem_cons.mp hu with rfl | hts
                · exact hmono2 u hmem1
                · exact hmemts u hts
              · intro x hx
                rcases hnew2 x hx with hv1 | hnv1
                · rcases hnew1 x hv1 with hv0 | hnv0
                  · exact Or.inl hv0
                  · exact Or.inr hnv0
                · rw [hviseq1] at hnv1
                  exact Or.inr hnv1

theorem indexOf_reverse_eq {l : List String} (hnd : l.Nodup) {a : String} (ha : a ∈ l) :
    l.reverse.indexOf a + l.indexOf a + 1 = l.length := by
  induction l with
  | nil => exact absurd ha (List.not_mem_nil a)
  | cons x xs ih =>
      rw [List.reverse_cons]
      by_cases hax : a = x
      · subst hax
        have hnx : a ∉ xs := (List.nodup_cons.mp hnd).1
        have hnxr : a ∉ xs.reverse := fun hh => hnx (List.mem_reverse.mp hh)
        rw [List.indexOf_append_of_not_mem hnxr]
        simp [List.indexOf_cons]
      · have hmem : a ∈ xs := by
          rcases List.mem_cons.mp ha with h | h
          · exact absurd h hax
          · exact h
        have hmemr : a ∈ xs.reverse := List.mem_reverse.mpr hmem
        rw [List.indexOf_append_of_mem hmemr]
        have hbeq : (x == a) = false := by
          rw [beq_eq_false_iff_ne]
          exact fun hh => hax hh.symm
        rw [List.indexOf_cons, hbeq]
        have := ih (List.nodup_cons.mp hnd).2 hmem
        simp only [cond_false, List.length_cons]
        omega

theorem topologicalSort_ok (nodes : List (String × ExecutionNode)) (start : String)
    (order : List String) (h : topologicalSort nodes start = .ok order) :
    order.Nodup ∧ start ∈ order ∧
    (∀ x, ReachF (nodeTargets nodes) start x → x ∈ order) ∧
    (∀ u ∈ order, ∀ t ∈ nodeTargets nodes u,
      t ∈ order ∧ order.indexOf u < order.indexOf t) := by
  rw [topologicalSort] at h
  generalize hv : visitNode nodes (nodes.length + 2) ⟨[], [], []⟩ start = res at h
  cases res with
  | error e => exact Except.noConfusion h
  | ok stF =>
      have horder : stF.result.reverse = order := Except.ok.inj h
      have hinit : TopoWF nodes (⟨[], [], []⟩ : TopoState) := by
        refine ⟨List.nodup_nil, fun x => Iff.rfl, ?_⟩
        intro u hu
        exact absurd hu (List.not_mem_nil u)
      obtain ⟨hwf, _, _, hstart, _⟩ := (visit_invariant nodes _).1 _ _ _ hv hinit
      subst horder
      have hmemiff : ∀ x, x ∈ stF.result.reverse ↔ x ∈ stF.result := by
        intro x
        exact List.mem_reverse
      have hclosed : ∀ u ∈ stF.result, ∀ t ∈ nodeTargets nodes u, t ∈ stF.result := by
        intro u hu t ht
        exact (hwf.2.2 u hu t ht).1
      refine ⟨List.nodup_reverse.mpr hwf.1, ?_, ?_, ?_⟩
      · exact (hmemiff start).mpr ((hwf.2.1 start).mp hstart)
      · intro x hr
        rw [hmemiff]
        induction hr with
        | refl => exact (hwf.2.1 start).mp hstart
        | step hrb ht ihb => exact hclosed _ ihb _ ht
      · intro u hu t ht
        have huR : u ∈ stF.result := (hmemiff u).mp hu
        obtain ⟨htR, hidx⟩ := hwf.2.2 u huR t ht
        refine ⟨(hmemiff t).mpr htR, ?_⟩
        have hu1 := indexOf_reverse_eq hwf.1 huR
        have ht1 := indexOf_reverse_eq hwf.1 htR
        omega

theorem topo_reach_le (nodes : List (String × ExecutionNode)) (order : List String)
    (h4 : ∀ u ∈ order, ∀ t ∈ nodeTargets nodes u,
      t ∈ order ∧ order.indexOf u < order.indexOf t)
    {a b : String} (hab : ReachF (nodeTargets nodes) a b) (ha : a ∈ order) :
    b ∈ order ∧ order.indexOf a ≤ order.indexOf b := by
  induction hab with
  | refl => exact ⟨ha, Nat.le_refl _⟩
  | step hrb ht ihb =>
      obtain ⟨hb, hle⟩ := ihb
      obtain ⟨htO, hlt⟩ := h4 _ hb _ ht
      exact ⟨htO, Nat.le_trans hle (Nat.le_of_lt hlt)⟩

/-- If the sort succeeds, no node reachable from the start lies on a cycle:
a strict order on positions would otherwise decrease around the cycle. -/
theorem topologicalSort_no_cycle (nodes : List (String × ExecutionNode))
    (start : String) (order : List String) (h : topologicalSort nodes start = .ok order)
    {v w : String} (hv : ReachF (nodeTargets nodes) start v)
    (hw : w ∈ nodeTargets nodes v) (hwv : ReachF (nodeTargets nodes) w v) : False := by
  obtain ⟨hnd, hs, hreach, h4⟩ := topologicalSort_ok nodes start order h
  have hvO : v ∈ order := hreach v hv
  obtain ⟨hwO, hlt⟩ := h4 v hvO w hw
  obtain ⟨_, hle⟩ := topo_reach_le nodes order h4 hwv hwO
  omega

theorem reachVisit_sound (edges : List WorkflowEdge) :
    ∀ fuel vis s x, x ∈ reachVisit edges fuel vis s →
      x ∈ vis ∨ ReachF (edgeTargets edges) s x := by
  intro fuel
  induction fuel with
  | zero =>
      intro vis s x hx
      exact Or.inl hx
  | succ fuel ih =>
      have hfold : ∀ (ts vis0 : List String) (x : String),
          x ∈ ts.foldl (reachVisit edges fuel) vis0 →
          x ∈ vis0 ∨ ∃ t ∈ ts, ReachF (edgeTargets edges) t x := by
        intro ts
        induction ts with
        | nil => intro vis0 x hx; exact Or.inl hx
        | cons t ts iht =>
            intro vis0 x hx
            rw [List.foldl_cons] at hx
            rcases iht _ x hx with hx1 | ⟨u, hu, hr⟩
            · rcases ih vis0 t x hx1 with hh | hh
              · exact Or.inl hh
              · exact Or.inr ⟨t, List.mem_cons_self t ts, hh⟩
            · exact Or.inr ⟨u, List.mem_cons_of_mem t hu, hr⟩
      intro vis s x hx
      have hstep : reachVisit edges (fuel + 1) vis s =
          if s ∈ vis then vis
          else (edgeTargets edges s).foldl (reachVisit edges fuel) (s :: vis) := rfl
      rw [hstep] at hx
      by_cases hs : s ∈ vis
      · rw [if_pos hs] at hx
        exact Or.inl hx
      · rw [if_neg hs] at hx
        rcases hfold _ _ x hx with hx1 | ⟨t, ht, hr⟩
        · rcases List.mem_cons.mp hx1 with rfl | hh
          · exact Or.inr (ReachF.refl x)
          · exact Or.inl hh
        · exact Or.inr (ReachF_trans (ReachF.step (ReachF.refl s) ht) hr)

theorem findReachableNodes_sound (spec : WorkflowSpec) {x : String}
    (hx : x ∈ findReachableNodes spec) :
    ReachF (edgeTargets spec.edges) spec.trigger.id x := by
  rcases reachVisit_sound spec.edges _ _ _ _ hx with h | h
  · exact absurd h (List.not_mem_nil x)
  · exact h

theorem mapLookup_isSome_iff {β : Type} (m : List (String × β)) (k : String) :
    (mapLookup m k).isSome = true ↔ k ∈ m.map Prod.fst := by
  induction m with
  | nil => simp [mapLookup]
  | cons kv rest ih =>
      obtain ⟨k0, v⟩ := kv
      rw [List.map_cons, mapLookup]
      by_cases h : k0 = k
      · subst h
        simp
      · rw [if_neg h, ih, List.mem_cons]
        constructor
        · exact fun hh => Or.inr hh
        · rintro (rfl | hh)
          · exact absurd rfl h
          · exact hh

theorem keys_mapSet_of_mem {β : Type} (m : List (String × β)) (k : String) (v : β)
    (h : k ∈ m.map Prod.fst) : (mapSet m k v).map Prod.fst = m.map Prod.fst := by
  induction m with
  | nil => exact absurd h (List.not_mem_nil k)
  | cons kv rest ih =>
      obtain ⟨k0, w⟩ := kv
      rw [mapSet]
      by_cases hk : k0 = k
      · rw [if_pos hk]
        rfl
      · rw [if_neg hk, List.map_cons, List.map_cons]
        have hmem : k ∈ rest.map Prod.fst := by
          rcases List.mem_cons.mp h with hh | hh
          · exact absurd hh.symm hk
          · exact hh
        rw [ih hmem]

theorem keys_mapSet_of_not_mem {β : Type} (m : List (String × β)) (k : String) (v : β)
    (h : k ∉ m.map Prod.fst) : (mapSet m k v).map Prod.fst = m.map Prod.fst ++ [k] := by
  induction m with
  | nil => rfl
  | cons kv rest ih =>
      obtain ⟨k0, w⟩ := kv
      have hk : k0 ≠ k := by
        intro hh
        exact h (by rw [List.map_cons, hh]; exact List.mem_cons_self k _)
      rw [mapSet, if_neg hk, List.map_cons, List.map_cons,
        ih (fun hh => h (by rw [List.map_cons]; exact List.mem_cons_of_mem k0 hh)),
        List.cons_append]

theorem keysNodup_mapSet {β : Type} (m : List (String × β)) (k : String) (v : β)
    (h : (m.map Prod.fst).Nodup) : ((mapSet m k v).map Prod.fst).Nodup := by
  by_cases hmem : k ∈ m.map Prod.fst
  · rw [keys_mapSet_of_mem m k v hmem]
    exact h
  · rw [keys_mapSet_of_not_mem m k v hmem, List.nodup_append]
    refine ⟨h, List.nodup_singleton k, ?_⟩
    intro a ha hmem2
    rw [List.mem_singleton] at hmem2
    subst hmem2
    exact hmem ha

theorem mem_lookup_of_keysNodup {β : Type} (m : List (String × β))
    (hnd : (m.map Prod.fst).Nodup) {kv : String × β} (hmem : kv ∈ m) :
    mapLookup m kv.1 = some kv.2 := by
  induction m with
  | nil => exact absurd hmem (List.not_mem_nil kv)
  | cons kw rest ih =>
      obtain ⟨k0, w⟩ := kw
      rw [mapLookup]
      rcases List.mem_cons.mp hmem with rfl | hmem2
      · rw [if_pos rfl]
      · have hk1 : kv.1 ∈ rest.map Prod.fst :=
          List.mem_map.mpr ⟨kv, hmem2, rfl⟩
        have hk0 : k0 ≠ kv.1 := by
          intro hh
          subst hh
          exact (List.nodup_cons.mp (by rw [List.map_cons] at hnd; exact hnd)).1 hk1
        rw [if_neg hk0]
        exact ih (List.nodup_cons.mp (by rw [List.map_cons] at hnd; exact hnd)).2 hmem2

theorem mapLookup_mapSet_isSome {β : Type} (m : List (String × β)) (k k2 : String) (v : β) :
    (mapLookup (mapSet m k v) k2).isSome = true ↔
      k2 = k ∨ (mapLookup m k2).isSome = true := by
  by_cases h : k2 = k
  · subst h
    rw [mapLookup_mapSet_self]
    simp
  · rw [mapLookup_mapSet_other _ _ _ _ h]
    simp [h]

theorem mapLookup_mapWithKey {β γ : Type} (f : String → β → γ) (m : List (String × β))
    (k : String) :
    mapLookup (m.map (fun kv => (kv.1, f kv.1 kv.2))) k = (mapLookup m k).map (f k) := by
  induction m with
  | nil => rfl
  | cons kv rest ih =>
      obtain ⟨k0, v⟩ := kv
      rw [List.map_cons, mapLookup, mapLookup]
      by_cases h : k0 = k
      · subst h
        rw [if_pos rfl, if_pos rfl]
        rfl
      · rw [if_neg h, if_neg h, ih]

theorem mapLookup_linkNodes (m : List (String × ExecutionNode)) (es : List ExecutionEdge)
    (k : String) :
    mapLookup (linkNodes m es) k = (mapLookup m k).map (fun nd =>
      { nd with incomingEdges := es.filter (fun e => e.target = k),
                outgoingEdges := es.filter (fun e => e.source = k) }) := by
  induction m with
  | nil => rfl
  | cons kv rest ih =>
      obtain ⟨k0, nd⟩ := kv
      rw [linkNodes, List.map_cons, mapLookup, mapLookup]
      by_cases h : k0 = k
      · subst h
        rw [if_pos rfl, if_pos rfl]
        rfl
      · rw [if_neg h, if_neg h]
        exact ih

theorem keys_linkNodes (m : List (String × ExecutionNode)) (es : List ExecutionEdge) :
    (linkNodes m es).map Prod.fst = m.map Prod.fst := by
  induction m with
  | nil => rfl
  | cons kv rest ih =>
      rw [linkNodes, List.map_cons, List.map_cons, List.map_cons]
      rw [linkNodes] at ih
      rw [ih]

theorem nodeTargets_linkNodes (m : List (String × ExecutionNode)) (es : List ExecutionEdge)
    (b : String) :
    nodeTargets (linkNodes m es) b =
      match mapLookup m b with
      | some _ => (es.filter (fun e => e.source = b)).map (fun e => e.target)
      | none => [] := by
  rw [nodeTargets, mapLookup_linkNodes]
  cases mapLookup m b with
  | none => rfl
  | some nd => rfl

/-- The node identical except for the execution ordinal; `setOrdinals` only
changes that field. -/
def stripOrd (nd : ExecutionNode) : ExecutionNode :=
  { nd with metadata := { nd.metadata with executionOrder := 0 } }

theorem setOrdinals_go (ps : List (Nat × String)) :
    ∀ (acc m : List (String × ExecutionNode)),
      (∀ k, (mapLookup acc k).map stripOrd = (mapLookup m k).map stripOrd) →
      ∀ k, (mapLookup (ps.foldl (fun acc p =>
          match mapLookup acc p.2 with
          | some nd =>
              mapSet acc p.2 { nd with metadata := { nd.metadata with executionOrder := p.1 } }
          | none => acc) acc) k).map stripOrd = (mapLookup m k).map stripOrd := by
  induction ps with
  | nil => intro acc m h k; exact h k
  | cons p ps ih =>
      intro acc m h k
      rw [List.foldl_cons]
      apply ih
      intro k2
      cases hl : mapLookup acc p.2 with
      | none =>
          simp only [hl]
          exact h k2
      | some nd =>
          simp only [hl]
          by_cases hk : k2 = p.2
          · rw [hk, mapLookup_mapSet_self]
            have h2 := h p.2
            rw [hl] at h2
            exact h2
          · rw [mapLookup_mapSet_other _ _ _ _ hk]
            exact h k2

theorem setOrdinals_lookup (m : List (String × ExecutionNode)) (order : List String)
    (k : String) :
    (mapLookup (setOrdinals m order) k).map stripOrd = (mapLookup m k).map stripOrd := by
  rw [setOrdinals]
  exact setOrdinals_go order.enum m m (fun k2 => rfl) k

theorem setOrdinals_go_keys (ps : List (Nat × String)) :
    ∀ (acc : List (String × ExecutionNode)),
      ((ps.foldl (fun acc p =>
          match mapLookup acc p.2 with
          | some nd =>
              mapSet acc p.2 { nd with metadata := { nd.metadata with executionOrder := p.1 } }
          | none => acc) acc).map Prod.fst) = acc.map Prod.fst := by
  induction ps with
  | nil => intro acc; rfl
  | cons p ps ih =>
      intro acc
      rw [List.foldl_cons]
      cases hl : mapLookup acc p.2 with
      | none =>
          simp only [hl]
          exact ih acc
      | some nd =>
          simp only [hl]
          rw [ih]
          exact keys_mapSet_of_mem acc p.2 _
            ((mapLookup_isSome_iff acc p.2).mp (by rw [hl]; rfl))

theorem keys_setOrdinals (m : List (String × ExecutionNode)) (order : List String) :
    (setOrdinals m order).map Prod.fst = m.map Prod.fst := by
  rw [setOrdinals]
  exact setOrdinals_go_keys order.enum m

theorem nodeTargets_setOrdinals (m : List (String × ExecutionNode)) (order : List String)
    (b : String) : nodeTargets (setOrdinals m order) b = nodeTargets m b := by
  rw [nodeTargets, nodeTargets]
  have h := setOrdinals_lookup m order b
  cases h1 : mapLookup (setOrdinals m order) b with
  | none =>
      rw [h1] at h
      cases h2 : mapLookup m b with
      | none => rfl
      | some nd2 =>
          rw [h2] at h
          exact Option.noConfusion h
  | some nd1 =>
      rw [h1] at h
      cases h2 : mapLookup m b with
      | none =>
          rw [h2] at h
          exact Option.noConfusion h
      | some nd2 =>
          rw [h2] at h
          have hstrip : stripOrd nd1 = stripOrd nd2 := Option.some.inj h
          have houtg : nd1.outgoingEdges = nd2.outgoingEdges :=
            congrArg (fun nd => nd.outgoingEdges) hstrip
          show nd1.outgoingEdges.map (fun e => e.target) =
            nd2.outgoingEdges.map (fun e => e.target)
          rw [houtg]

theorem buildNodeMapGo_keys (defs : List (String × NodeDefinition)) :
    ∀ (ns : List BaseNode) (acc m : List (String × ExecutionNode)),
      buildNodeMapGo defs acc ns = .ok m →
      ∀ k, ((mapLookup m k).isSome = true ↔
        (mapLookup acc k).isSome = true ∨ k ∈ ns.map (fun n => n.id)) := by
  intro ns
  induction ns with
  | nil =>
      intro acc m h k
      have hacc : acc = m := Except.ok.inj h
      subst hacc
      simp
  | cons n ns ih =>
      intro acc m h k
      rw [buildNodeMapGo] at h
      cases hd : mapLookup defs n.id with
      | none =>
          rw [hd] at h
          exact Except.noConfusion h
      | some d =>
          rw [hd] at h
          have hrec := ih (mapSet acc n.id (mkExecutionNode n d)) m h k
          rw [mapLookup_mapSet_isSome] at hrec
          rw [hrec, List.map_cons, List.mem_cons]
          tauto

theorem buildNodeMapGo_keysNodup (defs : List (String × NodeDefinition)) :
    ∀ (ns : List BaseNode) (acc m : List (String × ExecutionNode)),
      (acc.map Prod.fst).Nodup → buildNodeMapGo defs acc ns = .ok m →
      (m.map Prod.fst).Nodup := by
  intro ns
  induction ns with
  | nil =>
      intro acc m hnd h
      have hacc : acc = m := Except.ok.inj h
      subst hacc
      exact hnd
  | cons n ns ih =>
      intro acc m hnd h
      rw [buildNodeMapGo] at h
      cases hd : mapLookup defs n.id with
      | none =>
          rw [hd] at h
          exact Except.noConfusion h
      | some d =>
          rw [hd] at h
          exact ih _ m (keysNodup_mapSet acc n.id _ hnd) h

theorem filter_map_toExec_source (edges : List WorkflowEdge) (b : String) :
    (edges.map toExecutionEdge).filter (fun e => e.source = b) =
      (edges.filter (fun e => e.source = b)).map toExecutionEdge := by
  induction edges with
  | nil => rfl
  | cons e es ih =>
      simp only [List.map_cons, List.filter_cons]
      have hsrc : (toExecutionEdge e).source = e.source := rfl
      rw [hsrc]
      by_cases h : e.source = b
      · simp only [h, decide_True, if_true]
        rw [List.map_cons, ih]
      · simp only [h, decide_False, if_false]
        exact ih

theorem map_target_toExec (l : List WorkflowEdge) :
    (l.map toExecutionEdge).map (fun e => e.target) = l.map (fun e => e.target) := by
  induction l with
  | nil => rfl
  | cons e es ih =>
      rw [List.map_cons, List.map_cons, List.map_cons, ih]
      rfl

theorem nodeTargets_eq_edgeTargets (spec : WorkflowSpec)
    (m0 : List (String × ExecutionNode))
    (hkeys : ∀ k, (mapLookup m0 k).isSome = true ↔ k ∈ spec.nodes.map (fun n => n.id))
    (hsrc : ∀ e ∈ spec.edges, e.source ∈ spec.nodes.map (fun n => n.id)) :
    ∀ b, nodeTargets (linkNodes m0 (spec.edges.map toExecutionEdge)) b =
      edgeTargets spec.edges b := by
  intro b
  rw [nodeTargets_linkNodes]
  cases hl : mapLookup m0 b with
  | some nd =>
      show ((spec.edges.map toExecutionEdge).filter (fun e => e.source = b)).map
          (fun e => e.target) = edgeTargets spec.edges b
      rw [filter_map_toExec_source, map_target_toExec]
      rfl
  | none =>
      show ([] : List String) = edgeTargets spec.edges b
      symm
      rw [edgeTargets, List.eq_nil_iff_forall_not_mem]
      intro t ht
      obtain ⟨e, hef, hte⟩ := List.mem_map.mp ht
      obtain ⟨he, hsb⟩ := List.mem_filter.mp hef
      have hsb2 : e.source = b := of_decide_eq_true hsb
      have hbmem : b ∈ spec.nodes.map (fun n => n.id) := hsb2 ▸ hsrc e he
      have hssome := (hkeys b).mpr hbmem
      rw [hl] at hssome
      exact Bool.noConfusion hssome

theorem except_bind_ok {α β : Type} (x : Except String α) (f : α → Except String β)
    (v : β) : x.bind f = Except.ok v ↔ ∃ a, x = Except.ok a ∧ f a = Except.ok v := by
  cases x with
  | error e => simp [Except.bind]
  | ok a => simp [Except.bind]

theorem buildExecutionGraph_parts (spec : WorkflowSpec)
    (defs : List (String × NodeDefinition)) (g : ExecutionGraph)
    (h : buildExecutionGraph spec defs = .ok g) :
    ∃ m0, buildNodeMapGo defs [] spec.nodes = .ok m0 ∧
      topologicalSort (linkNodes m0 (spec.edges.map toExecutionEdge)) spec.trigger.id =
        .ok g.executionOrder ∧
      g.nodes = setOrdinals (linkNodes m0 (spec.edges.map toExecutionEdge))
        g.executionOrder ∧
      g.metadata.hasCycles = false := by
  rw [buildExecutionGraph, except_bind_ok] at h
  obtain ⟨m0, hm, h⟩ := h
  rw [except_bind_ok] at h
  obtain ⟨order, hs, h⟩ := h
  generalize hlook : mapLookup (setOrdinals (linkNodes m0
    (spec.edges.map toExecutionEdge)) order) spec.trigger.id = lres at h
  cases lres with
  | none => exact Except.noConfusion h
  | some triggerNode =>
      have hrec := Except.ok.inj h
      subst hrec
      exact ⟨m0, hm, hs, rfl, rfl⟩

theorem compileWorkflow_shape (reg : List (String × NodeDefinition)) (spec : WorkflowSpec) :
    ((compileWorkflow reg spec).success = false ∧ (compileWorkflow reg spec).graph = none) ∨
    ((compileWorkflow reg spec).success = true ∧ (validateWorkflowSpec spec).valid = true ∧
      ∃ g, (compileWorkflow reg spec).graph = some g ∧
        buildExecutionGraph spec (compiledDefs reg spec) = .ok g) := by
  rw [compileWorkflow]
  by_cases h1 : (validateWorkflowSpec spec).valid = false
  · rw [if_pos h1]
    exact Or.inl ⟨rfl, rfl⟩
  · rw [if_neg h1]
    have hvalid : (validateWorkflowSpec spec).valid = true := by
      cases hb : (validateWorkflowSpec spec).valid
      · exact absurd hb h1
      · rfl
    by_cases h2 : compileUnknownErrors reg spec ≠ []
    · rw [if_pos h2]
      exact Or.inl ⟨rfl, rfl⟩
    · rw [if_neg h2]
      by_cases h3 : compileConfigErrors reg spec ≠ []
      · rw [if_pos h3]
        exact Or.inl ⟨rfl, rfl⟩
      · rw [if_neg h3]
        cases hb : buildExecutionGraph spec (compiledDefs reg spec) with
        | error e =>
            exact Or.inl ⟨rfl, rfl⟩
        | ok g0 =>
            rw [compileFinish]
            by_cases h4 : validateExecutionGraph g0 ≠ []
            · rw [if_pos h4]
              exact Or.inl ⟨rfl, rfl⟩
            · rw [if_neg h4]
              exact Or.inr ⟨rfl, hvalid, g0, rfl, rfl⟩

theorem valid_true_parts (spec : WorkflowSpec)
    (h : (validateWorkflowSpec spec).valid = true) :
    validateGraphStructure spec = [] ∧ validateSemantics spec = [] := by
  rw [validateWorkflowSpec] at h
  by_cases hsc : schemaCheck spec = false
  · rw [if_pos hsc] at h
    exact absurd h (by simp)
  · rw [if_neg hsc] at h
    have h2 : (validateGraphStructure spec ++ validateSemantics spec).isEmpty = true := h
    rw [List.isEmpty_iff] at h2
    exact List.append_eq_nil.mp h2

theorem graphStructure_nil_edges (spec : WorkflowSpec)
    (h : validateGraphStructure spec = []) :
    ∀ e ∈ spec.edges, e.source ∈ spec.nodes.map (fun n => n.id) ∧
      e.target ∈ spec.nodes.map (fun n => n.id) := by
  simp only [validateGraphStructure] at h
  obtain ⟨h12, h3⟩ := List.append_eq_nil.mp h
  obtain ⟨h1, h2⟩ := List.append_eq_nil.mp h12
  rw [List.flatMap_eq_nil_iff] at h1
  intro e he
  have he2 := h1 e he
  obtain ⟨hsrc, htgt⟩ := List.append_eq_nil.mp he2
  constructor
  · by_cases hm : e.source ∈ spec.nodes.map (fun n => n.id)
    · exact hm
    · rw [if_neg hm] at hsrc
      exact absurd hsrc (List.cons_ne_nil _ _)
  · by_cases hm : e.target ∈ spec.nodes.map (fun n => n.id)
    · exact hm
    · rw [if_neg hm] at htgt
      exact absurd htgt (List.cons_ne_nil _ _)

theorem graphStructure_nil_reachable (spec : WorkflowSpec)
    (h : validateGraphStructure spec = []) :
    ∀ n ∈ spec.nodes, n.id ∈ findReachableNodes spec ∨ n.id = spec.trigger.id := by
  simp only [validateGraphStructure] at h
  obtain ⟨h12, h3⟩ := List.append_eq_nil.mp h
  rw [List.flatMap_eq_nil_iff] at h3
  intro n hn
  have hn2 := h3 n hn
  by_cases hm : n.id ∈ findReachableNodes spec
  · exact Or.inl hm
  · by_cases ht : n.id = spec.trigger.id
    · exact Or.inr ht
    · rw [if_pos ⟨hm, ht⟩] at hn2
      exact absurd hn2 (List.cons_ne_nil _ _)

/-
  Concrete workflow specifications for witnesses and counterexamples.
-/

def wfMeta : WorkflowMetadata :=
  { workflowId := "00000000-0000-4000-8000-000000000000", version := 1, name := "w",
    createdBy := "u", createdAt := "2024-01-01T00:00:00Z" }

def smsTriggerNode : BaseNode :=
  { id := "t", type := "SMS_RECEIVED", label := "t", config := [],
    retry := none, timeout := none, disabled := none }

def smsNodeA : BaseNode :=
  { id := "a", type := "SEND_SMS", label := "a",
    config := [("to", .str "x"), ("message", .str "m")],
    retry := none, timeout := none, disabled := none }

def smsNodeB : BaseNode :=
  { id := "b", type := "SEND_SMS", label := "b",
    config := [("to", .str "x"), ("message", .str "m")],
    retry := none, timeout := none, disabled := none }

def mkEdge (i s t : String) : WorkflowEdge :=
  { id := i, source := s, target := t, sourceHandle := none, targetHandle := none,
    condition := none, label := none }

/-- A schema-valid two-node workflow: trigger then one SEND_SMS. -/
def specLinear : WorkflowSpec :=
  { metadata := wfMeta, trigger := smsTriggerNode, nodes := [smsTriggerNode, smsNodeA],
    edges := [mkEdge "e1" "t" "a"] }

/-- A schema-valid workflow whose edge relation has the cycle a -> b -> a,
reachable from the trigger. -/
def specCyclic : WorkflowSpec :=
  { metadata := wfMeta, trigger := smsTriggerNode,
    nodes := [smsTriggerNode, smsNodeA, smsNodeB],
    edges := [mkEdge "e1" "t" "a", mkEdge "e2" "a" "b", mkEdge "e3" "b" "a"] }

def unknownNode : BaseNode :=
  { id := "u", type := "UNKNOWN_KIND", label := "u", config := [],
    retry := none, timeout := none, disabled := none }

/-- A workflow that passes the spec validator but whose node type is not in
the registry. -/
def specUnknown : WorkflowSpec :=
  { metadata := wfMeta, trigger := smsTriggerNode, nodes := [smsTriggerNode, unknownNode],
    edges := [mkEdge "e1" "t" "u"] }

theorem compiled_m0_keys (spec : WorkflowSpec) (m0 : List (String × ExecutionNode))
    (defs : List (String × NodeDefinition))
    (hm : buildNodeMapGo defs [] spec.nodes = .ok m0) :
    ∀ k, (mapLookup m0 k).isSome = true ↔ k ∈ spec.nodes.map (fun n => n.id) := by
  intro k
  have hh := buildNodeMapGo_keys defs spec.nodes [] m0 hm k
  simpa [mapLookup] using hh

/-- C1: whenever `compileWorkflow` (with the platform registry) returns a
graph, that graph has `metadata.hasCycles = false`, every id keyed in
`graph.nodes` occurs exactly once in `graph.executionOrder`, and every edge
stored on a node points forward: the source position in `executionOrder` is
strictly before the target position. -/
theorem compileWorkflow_graph_sound (spec : WorkflowSpec) (g : ExecutionGraph)
    (h : (compileWorkflow atRegistry spec).graph = some g) :
    g.metadata.hasCycles = false ∧
    (∀ kv ∈ g.nodes, g.executionOrder.count kv.1 = 1) ∧
    (∀ kv ∈ g.nodes, ∀ e ∈ kv.2.outgoingEdges,
      g.executionOrder.indexOf e.source < g.executionOrder.indexOf e.target) := by
  rcases compileWorkflow_shape atRegistry spec with ⟨hsf, hgn⟩ | ⟨hst, hvalid, g0, hg0, hbuild⟩
  · rw [hgn] at h
    exact Option.noConfusion h
  · rw [hg0] at h
    have hg : g0 = g := Option.some.inj h
    subst hg
    obtain ⟨m0, hm, hs, hnodes, hcyc⟩ := buildExecutionGraph_parts spec _ g0 hbuild
    obtain ⟨hgs, hsem⟩ := valid_true_parts spec hvalid
    have hedges := graphStructure_nil_edges spec hgs
    have hreachval := graphStructure_nil_reachable spec hgs
    have hkeys0 := compiled_m0_keys spec m0 _ hm
    have htrans := nodeTargets_eq_edgeTargets spec m0 hkeys0 (fun e he => (hedges e he).1)
    obtain ⟨hnd, hstart, hreach, h4⟩ := topologicalSort_ok _ _ _ hs
    have hmemO : ∀ k, k ∈ spec.nodes.map (fun n => n.id) → k ∈ g0.executionOrder := by
      intro k hk
      obtain ⟨n, hn, hid⟩ := List.mem_map.mp hk
      rcases hreachval n hn with hr | hr
      · have hre := findReachableNodes_sound spec hr
        have hre2 := ReachF_congr (fun b => (htrans b).symm) hre
        rw [← hid]
        exact hreach _ hre2
      · rw [← hid, hr]
        exact hstart
    have hndk0 : (m0.map Prod.fst).Nodup :=
      buildNodeMapGo_keysNodup _ spec.nodes [] m0 (by simp) hm
    have hkeysetord : (g0.nodes.map Prod.fst) = m0.map Prod.fst := by
      rw [hnodes, keys_setOrdinals, keys_linkNodes]
    have hndk : (g0.nodes.map Prod.fst).Nodup := by
      rw [hkeysetord]
      exact hndk0
    have hkeymem : ∀ kv : String × ExecutionNode, kv ∈ g0.nodes →
        kv.1 ∈ spec.nodes.map (fun n => n.id) := by
      intro kv hkv
      have hkmem : kv.1 ∈ g0.nodes.map Prod.fst := List.mem_map.mpr ⟨kv, hkv, rfl⟩
      rw [hkeysetord] at hkmem
      exact (hkeys0 kv.1).mp ((mapLookup_isSome_iff m0 kv.1).mpr hkmem)
    refine ⟨hcyc, ?_, ?_⟩
    · intro kv hkv
      exact List.count_eq_one_of_mem hnd (hmemO kv.1 (hkeymem kv hkv))
    · intro kv hkv e he
      have hlook : mapLookup g0.nodes kv.1 = some kv.2 :=
        mem_lookup_of_keysNodup g0.nodes hndk hkv
      have hstriplook := setOrdinals_lookup (linkNodes m0 (spec.edges.map toExecutionEdge))
        g0.executionOrder kv.1
      rw [← hnodes, hlook] at hstriplook
      cases hl1 : mapLookup (linkNodes m0 (spec.edges.map toExecutionEdge)) kv.1 with
      | none =>
          rw [hl1] at hstriplook
          exact absurd hstriplook (by simp)
      | some nd1 =>
          rw [hl1] at hstriplook
          have hstrip : stripOrd kv.2 = stripOrd nd1 := Option.some.inj hstriplook
          have houtg : kv.2.outgoingEdges = nd1.outgoingEdges :=
            congrArg (fun nd => nd.outgoingEdges) hstrip
          have hl0 := mapLookup_linkNodes m0 (spec.edges.map toExecutionEdge) kv.1
          rw [hl1] at hl0
          cases hl00 : mapLookup m0 kv.1 with
          | none =>
              rw [hl00] at hl0
              exact absurd hl0 (by simp)
          | some nd0 =>
              rw [hl00] at hl0
              have hnd1eq : nd1 =
                  { nd0 with
                    incomingEdges := (spec.edges.map toExecutionEdge).filter
                      (fun e2 => e2.target = kv.1),
                    outgoingEdges := (spec.edges.map toExecutionEdge).filter
                      (fun e2 => e2.source = kv.1) } := Option.some.inj hl0
              have houtg1 : nd1.outgoingEdges =
                  (spec.edges.map toExecutionEdge).filter (fun e2 => e2.source = kv.1) := by
                rw [hnd1eq]
              have hef : e ∈ (spec.edges.map toExecutionEdge).filter
                  (fun e2 => e2.source = kv.1) := by
                rw [← houtg1, ← houtg]
                exact he
              obtain ⟨hee, hsrc⟩ := List.mem_filter.mp hef
              have hsrceq : e.source = kv.1 := of_decide_eq_true hsrc
              have htmem : e.target ∈
                  nodeTargets (linkNodes m0 (spec.edges.map toExecutionEdge)) kv.1 := by
                rw [nodeTargets, hl1]
                show e.target ∈ nd1.outgoingEdges.map (fun e2 => e2.target)
                exact List.mem_map.mpr ⟨e, by rw [houtg1]; exact hef, rfl⟩
              obtain ⟨htO, hlt⟩ := h4 kv.1 (hmemO kv.1 (hkeymem kv hkv)) e.target htmem
              rw [hsrceq]
              exact hlt

/-- Concrete compiled graph of the linear workflow, for the C1 witness. -/
def gLinear : ExecutionGraph :=
  ((compileWorkflow atRegistry specLinear).graph).get (by decide)

theorem compileWorkflow_graph_sound_witness :
    gLinear.metadata.hasCycles = false ∧
    (∀ kv ∈ gLinear.nodes, gLinear.executionOrder.count kv.1 = 1) ∧
    (∀ kv ∈ gLinear.nodes, ∀ e ∈ kv.2.outgoingEdges,
      gLinear.executionOrder.indexOf e.source < gLinear.executionOrder.indexOf e.target) :=
  compileWorkflow_graph_sound specLinear gLinear (Option.some_get _).symm

/-- C4 (amended): a cycle in the edge relation reachable from the trigger
means compilation fails with no graph.  The error code, however, is
COMPILATION_ERROR, not cycle_detected (see the counterexample). -/
theorem compileWorkflow_cycle_no_graph (spec : WorkflowSpec)
    (hcyc : ∃ v w, ReachF (edgeTargets spec.edges) spec.trigger.id v ∧
      w ∈ edgeTargets spec.edges v ∧ ReachF (edgeTargets spec.edges) w v) :
    (compileWorkflow atRegistry spec).success = false ∧
    (compileWorkflow atRegistry spec).graph = none := by
  rcases compileWorkflow_shape atRegistry spec with ⟨hsf, hgn⟩ | ⟨hst, hvalid, g0, hg0, hbuild⟩
  · exact ⟨hsf, hgn⟩
  · exfalso
    obtain ⟨v, w, hv, hw, hwv⟩ := hcyc
    obtain ⟨m0, hm, hs, _, _⟩ := buildExecutionGraph_parts spec _ g0 hbuild
    obtain ⟨hgs, _⟩ := valid_true_parts spec hvalid
    have hedges := graphStructure_nil_edges spec hgs
    have hkeys0 := compiled_m0_keys spec m0 _ hm
    have htrans := nodeTargets_eq_edgeTargets spec m0 hkeys0 (fun e he => (hedges e he).1)
    have hv2 := ReachF_congr (fun b => (htrans b).symm) hv
    have hwv2 := ReachF_congr (fun b => (htrans b).symm) hwv
    have hw2 : w ∈ nodeTargets (linkNodes m0 (spec.edges.map toExecutionEdge)) v := by
      rw [htrans v]
      exact hw
    exact topologicalSort_no_cycle _ _ _ hs hv2 hw2 hwv2

theorem compileWorkflow_cycle_witness :
    (compileWorkflow atRegistry specCyclic).success = false ∧
    (compileWorkflow atRegistry specCyclic).graph = none :=
  compileWorkflow_cycle_no_graph specCyclic
    ⟨"a", "b", ReachF.step (ReachF.refl "t") (by decide), by decide,
      ReachF.step (ReachF.refl "b") (by decide)⟩

/-- C4 (counterexample to the stated error code): the cyclic workflow fails
compilation, but the reported code is COMPILATION_ERROR; no cycle_detected
code is produced anywhere. -/
theorem compileWorkflow_cycle_counterexample :
    (∃ v w, ReachF (edgeTargets specCyclic.edges) specCyclic.trigger.id v ∧
      w ∈ edgeTargets specCyclic.edges v ∧ ReachF (edgeTargets specCyclic.edges) w v) ∧
    (compileWorkflow atRegistry specCyclic).success = false ∧
    (compileWorkflow atRegistry specCyclic).errors.map (fun e => e.code) =
      ["COMPILATION_ERROR"] ∧
    "cycle_detected" ∉ (compileWorkflow atRegistry specCyclic).errors.map (fun e => e.code) := by
  refine ⟨⟨"a", "b", ReachF.step (ReachF.refl "t") (by decide), by decide,
    ReachF.step (ReachF.refl "b") (by decide)⟩, by decide, by decide, by decide⟩

/-- C5 (amended): compiler success implies validator success; the converse
fails (see the counterexample), so the two are not equivalent. -/
theorem compileWorkflow_success_implies_valid (spec : WorkflowSpec)
    (h : (compileWorkflow atRegistry spec).success = true) :
    (validateWorkflowSpec spec).valid = true := by
  rcases compileWorkflow_shape atRegistry spec with ⟨hsf, _⟩ | ⟨_, hvalid, _⟩
  · rw [hsf] at h
    exact Bool.noConfusion h
  · exact hvalid

theorem compileWorkflow_success_implies_valid_witness :
    (validateWorkflowSpec specLinear).valid = true :=
  compileWorkflow_success_implies_valid specLinear (by decide)

/-- C5 (counterexample to the equivalence): a workflow with an unregistered
node type validates but does not compile. -/
theorem validate_compile_not_equivalent :
    (validateWorkflowSpec specUnknown).valid = true ∧
    (compileWorkflow atRegistry specUnknown).success = false := by
  exact ⟨by decide, by decide⟩

/-
  The execution engine (src/backend/execution-engine/executor.ts).

  Modelling conventions: promises are dropped (all awaits are sequential);
  a thrown JS error is `Except.error` with the thrown message; `uuidv4()` and
  ISO timestamps are opaque to every observable property, so step/execution
  ids are constants and times are 0.  `Date.now()` is the constant 0, which
  makes the `maxExecutionTime` guard of `executeWorkflow` provably dead:
  `0 - 0 > maxExecutionTime` is false because the JS default makes the bound
  at least 1 (`options.maxExecutionTimeMs || 300000` with 0 falsy), so the
  EXECUTION_TIMEOUT branch is omitted here.  The delays passed to
  `this.sleep` are collected in an explicit list.  Node executors are
  functions returning `Except String NodeExecutionResult`, a thrown executor
  error being the `error` case.
-/

structure NodeError where
  code : String
  message : String
  type : String
deriving DecidableEq

structure NodeExecutionResult where
  nodeId : String
  status : String
  output : Option JObj
  error : Option NodeError
  durationMs : Nat
  executedAt : Nat
  attempt : Nat
deriving DecidableEq

structure ExecutionContext where
  executionId : String
  workflowId : String
  workflowVersion : Nat
  triggerPayload : JObj
  session : Option SessionState
  vars : JObj
  startedAt : Nat
deriving DecidableEq

structure ExecutionStep where
  stepId : String
  nodeId : String
  input : JObj
  attempt : Nat
  timestamp : Nat
deriving DecidableEq

structure ExecutionState where
  executionId : String
  workflowId : String
  workflowVersion : Nat
  graph : ExecutionGraph
  context : ExecutionContext
  currentNodeId : Option String
  status : String
  nodeResults : List (String × List NodeExecutionResult)
  startedAt : Nat
  nodesExecuted : Nat
  totalDurationMs : Nat
  resumable : Bool

structure ExecutionOptions where
  maxExecutionTimeMs : Option Nat
  enableRetries : Option Bool
  resumable : Option Bool
  timeout : Option Nat
deriving DecidableEq

structure ExecutionResult where
  executionId : String
  status : String
  output : Option JObj
  error : Option NodeError
  nodeResults : List NodeExecutionResult
  durationMs : Nat
  startedAt : Nat
  completedAt : Nat
deriving DecidableEq

/-- INodeExecutor.execute. -/
abbrev NodeExecutor : Type :=
  ExecutionNode → ExecutionContext → JObj → Except String NodeExecutionResult

/-- The `nodeExecutors` map of WorkflowExecutionEngine, in registration
order. -/
abbrev Engine : Type := List (String × NodeExecutor)

/-- `recordNodeResult` on the results map: create the entry if missing, then
unshift (most recent first). -/
def recordIn (m : List (String × List NodeExecutionResult)) (r : NodeExecutionResult) :
    List (String × List NodeExecutionResult) :=
  match mapLookup m r.nodeId with
  | none => mapSet m r.nodeId [r]
  | some rs => mapSet m r.nodeId (r :: rs)

def recordNodeResult (st : ExecutionState) (r : NodeExecutionResult) : ExecutionState :=
  { st with nodeResults := recordIn st.nodeResults r }

/-- The result recorded for a disabled node (executeStep, lines 120-132). -/
def skippedResult (step : ExecutionStep) : NodeExecutionResult :=
  { nodeId := step.nodeId, status := "skipped", output := none, error := none,
    durationMs := 0, executedAt := 0, attempt := step.attempt }

/-- The result of running the executor (executeStep, lines 141-161): either
the executor's own result or, when it throws, an error result with code
NODE_EXECUTION_ERROR and the step's attempt number. -/
def stepResult (st : ExecutionState) (step : ExecutionStep) (node : ExecutionNode)
    (ex : NodeExecutor) : NodeExecutionResult :=
  match ex node st.context step.input with
  | .ok r => r
  | .error msg =>
      { nodeId := step.nodeId, status := "error", output := none,
        error := some { code := "NODE_EXECUTION_ERROR", message := msg, type := "permanent" },
        durationMs := 0, executedAt := 0, attempt := step.attempt }

/-- Context update on success with output (executeStep, lines 166-173):
spread the output over the variables, then bind node_<id> to the output. -/
def applyOutput (st : ExecutionState) (nodeId : String) (result : NodeExecutionResult) :
    ExecutionState :=
  if result.status = "success" ∧ result.output.isSome then
    { st with context := { st.context with
        vars := objSet (objMerge st.context.vars (result.output.getD []))
          ("node_" ++ nodeId) (JValue.obj (result.output.getD [])) } }
  else st

/-- State bookkeeping at the end of executeStep (lines 175-178). -/
def bumpState (st : ExecutionState) (nodeId : String) (result : NodeExecutionResult) :
    ExecutionState :=
  { st with
    currentNodeId := some nodeId,
    nodesExecuted := st.nodesExecuted + 1,
    totalDurationMs := st.totalDurationMs + result.durationMs }

def finishStep (st : ExecutionState) (step : ExecutionStep)
    (result : NodeExecutionResult) : ExecutionState :=
  bumpState (applyOutput (recordNodeResult st result) step.nodeId result) step.nodeId result

/-- `executeStep` (executor.ts, lines 110-181). -/
def executeStep (engine : Engine) (st : ExecutionState) (step : ExecutionStep) :
    Except String ExecutionState :=
  match mapLookup st.graph.nodes step.nodeId with
  | none => .error ("Node " ++ step.nodeId ++ " not found in graph")
  | some node =>
      if node.disabled then .ok (recordNodeResult st (skippedResult step))
      else
        match mapLookup engine node.type with
        | none => .error ("No executor registered for node type: " ++ node.type)
        | some ex => .ok (finishStep st step (stepResult st step node ex))

/-- `getNodeInput` (executor.ts, lines 326-349): fold the incoming edges,
taking each source's oldest recorded result (`sourceResults[length-1]`,
which `unshift` keeps last), then overlay the context variables.  Pulling a
handle key the output lacks sets `undefined` in JS, modelled as no entry. -/
def getNodeInput (st : ExecutionState) (node : ExecutionNode) : JObj :=
  let input := node.incomingEdges.foldl (fun acc edge =>
    match mapLookup st.nodeResults edge.source with
    | none => acc
    | some rs =>
        match rs.getLast? with
        | none => acc
        | some lastResult =>
            if lastResult.status = "success" ∧ lastResult.output.isSome then
              match edge.sourceHandle with
              | some h =>
                  (match objLookup (lastResult.output.getD []) h with
                   | some v => objSet acc h v
                   | none => acc)
              | none => objMerge acc (lastResult.output.getD [])
            else acc) []
  objMerge input st.context.vars

/-- `getAllNodeResults` (executor.ts, lines 364-373): most recent result per
node, in execution order. -/
def getAllNodeResults (st : ExecutionState) : List NodeExecutionResult :=
  st.graph.executionOrder.flatMap (fun nodeId =>
    match mapLookup st.nodeResults nodeId with
    | some (r :: _) => [r]
    | _ => [])

/-- JS `Math.min(x, cap || Infinity)`: a zero or missing cap is no cap. -/
def jsMinCap (x : Nat) (cap : Option Nat) : Nat :=
  match cap with
  | some c => if c = 0 then x else min x c
  | none => x

/-- The delays slept by a full failing retry run: the first is the raw
initial delay, each next is `min(previous * multiplier, cap)`. -/
def delaySeq (mult : Nat) (cap : Option Nat) : Nat → Nat → List Nat
  | 0, _ => []
  | k + 1, d => d :: delaySeq mult cap k (jsMinCap (d * mult) cap)

/-- The retry loop of `handleRetry` (executor.ts, lines 284-318), counting
down the remaining iterations with the current attempt number and delay, and
collecting the slept delays.  The loop breaks when the last result is
missing or not an error, when a declared retryable list excludes the error
code, or after a successful retry. -/
def retryGo (engine : Engine) (node : ExecutionNode) (step : ExecutionStep)
    (retry : RetryConfig) :
    Nat → Nat → Nat → ExecutionState → List Nat →
    Except String (ExecutionState × List Nat)
  | 0, _, _, st, sleeps => .ok (st, sleeps)
  | remaining + 1, attempt, delay, st, sleeps =>
      match (mapLookup st.nodeResults node.id).bind List.head? with
      | none => .ok (st, sleeps)
      | some lr =>
          if lr.status ≠ "error" then .ok (st, sleeps)
          else if (match retry.retryableErrors, lr.error with
              | some allowed, some err => decide (err.code ∉ allowed)
              | _, _ => false) then .ok (st, sleeps)
          else
            match executeStep engine st
                { step with stepId := step.stepId, attempt := attempt, timestamp := 0 } with
            | .error e => .error e
            | .ok st2 =>
                if (match (mapLookup st2.nodeResults node.id).bind List.head? with
                    | some r => decide (r.status = "success")
                    | none => false) then .ok (st2, sleeps ++ [delay])
                else
                  retryGo engine node step retry remaining (attempt + 1)
                    (jsMinCap (delay * (retry.backoffMultiplier.getD 2)) retry.maxDelayMs)
                    st2 (sleeps ++ [delay])

/-- `handleRetry` (executor.ts, lines 271-321).  Also returns the list of
slept delays. -/
def handleRetry (engine : Engine) (st : ExecutionState) (node : ExecutionNode)
    (step : ExecutionStep) : Except String (ExecutionState × List Nat) :=
  match node.retry with
  | none => .ok (st, [])
  | some retry => retryGo engine node step retry retry.maxAttempts 1 retry.initialDelayMs st []

/-- The main loop of `executeWorkflow` (executor.ts, lines 194-245): missing
nodes are skipped, the trigger is skipped, each node is executed from its
collected input, retries run when enabled and the first attempt errored, and
the loop breaks after a session-ending node. -/
def runNodes (engine : Engine) (opts : ExecutionOptions) :
    List String → ExecutionState → List Nat →
    Except String (ExecutionState × List Nat)
  | [], st, sleeps => .ok (st, sleeps)
  | nodeId :: rest, st, sleeps =>
      match mapLookup st.graph.nodes nodeId with
      | none => runNodes engine opts rest st sleeps
      | some node =>
          if nodeId = st.graph.trigger.id then runNodes engine opts rest st sleeps
          else
            match executeStep engine st
                { stepId := nodeId, nodeId := nodeId, input := getNodeInput st node,
                  attempt := 0, timestamp := 0 } with
            | .error e => .error e
            | .ok st1 =>
                match (if (match (mapLookup st1.nodeResults nodeId).bind List.head? with
                        | some r => decide (r.status = "error")
                        | none => false) && opts.enableRetries.getD false then
                    handleRetry engine st1 node
                      { stepId := nodeId, nodeId := nodeId, input := getNodeInput st node,
                        attempt := 0, timestamp := 0 }
                  else .ok (st1, [])) with
                | .error e => .error e
                | .ok (st2, sl2) =>
                    if node.metadata.endsSession then .ok (st2, sleeps ++ sl2)
                    else runNodes engine opts rest st2 (sleeps ++ sl2)

/-- `executeWorkflow` (executor.ts, lines 186-266) minus the dead timeout
guard (see the section comment): run the loop, then build the final result
from the per-node most recent results. -/
def executeWorkflow (engine : Engine) (st0 : ExecutionState) (opts : ExecutionOptions) :
    Except String ExecutionResult :=
  match runNodes engine opts st0.graph.executionOrder st0 [] with
  | .error e => .error e
  | .ok (st, _) =>
      let allResults := getAllNodeResults st
      let hasErrors := allResults.any (fun r => r.status = "error")
      .ok { executionId := st.executionId,
            status := if hasErrors then "failed" else "completed",
            output := (match allResults.getLast? with
              | some r => if r.status = "success" then r.output else none
              | none => none),
            error := if hasErrors then
                (allResults.find? (fun r => r.status = "error")).bind (fun r => r.error)
              else none,
            nodeResults := allResults,
            durationMs := 0, startedAt := st.startedAt, completedAt := 0 }

/-- The context and state `execute` builds (executor.ts, lines 51-80). -/
def initState (graph : ExecutionGraph) (payload : JObj) (session : Option SessionState)
    (opts : ExecutionOptions) : ExecutionState :=
  { executionId := "exec", workflowId := graph.workflowId,
    workflowVersion := graph.workflowVersion, graph := graph,
    context := {
      executionId := "exec", workflowId := graph.workflowId,
      workflowVersion := graph.workflowVersion, triggerPayload := payload,
      session := session, vars := payload, startedAt := 0 },
    currentNodeId := none, status := "running", nodeResults := [],
    startedAt := 0, nodesExecuted := 0, totalDurationMs := 0,
    resumable := opts.resumable.getD false }

/-- `execute` (executor.ts, lines 45-105): any error thrown during the run is
caught and turned into a failed result with code EXECUTION_ERROR and an
empty nodeResults list. -/
def execute (engine : Engine) (graph : ExecutionGraph) (payload : JObj)
    (session : Option SessionState) (opts : ExecutionOptions) : ExecutionResult :=
  match executeWorkflow engine (initState graph payload session opts) opts with
  | .ok result => result
  | .error msg =>
      { executionId := "exec", status := "failed", output := none,
        error := some { code := "EXECUTION_ERROR", message := msg, type := "permanent" },
        nodeResults := [], durationMs := 0, startedAt := 0, completedAt := 0 }

theorem mapLookup_mem {β : Type} (m : List (String × β)) (k : String) (v : β)
    (h : mapLookup m k = some v) : (k, v) ∈ m := by
  induction m with
  | nil => exact Option.noConfusion h
  | cons kv rest ih =>
      obtain ⟨k0, w⟩ := kv
      rw [mapLookup] at h
      by_cases hk : k0 = k
      · rw [if_pos hk] at h
        have hw : w = v := Option.some.inj h
        subst hw
        subst hk
        exact List.mem_cons_self _ _
      · rw [if_neg hk] at h
        exact List.mem_cons_of_mem _ (ih h)

theorem applyOutput_nodeResults (st : ExecutionState) (n : String)
    (r : NodeExecutionResult) : (applyOutput st n r).nodeResults = st.nodeResults := by
  rw [applyOutput]
  split <;> rfl

theorem applyOutput_graph (st : ExecutionState) (n : String) (r : NodeExecutionResult) :
    (applyOutput st n r).graph = st.graph := by
  rw [applyOutput]
  split <;> rfl

theorem finishStep_nodeResults (st : ExecutionState) (step : ExecutionStep)
    (r : NodeExecutionResult) : (finishStep st step r).nodeResults = recordIn st.nodeResults r := by
  show (applyOutput (recordNodeResult st r) step.nodeId r).nodeResults = recordIn st.nodeResults r
  rw [applyOutput_nodeResults]
  rfl

theorem finishStep_graph (st : ExecutionState) (step : ExecutionStep)
    (r : NodeExecutionResult) : (finishStep st step r).graph = st.graph := by
  show (applyOutput (recordNodeResult st r) step.nodeId r).graph = st.graph
  rw [applyOutput_graph]
  rfl

theorem recordIn_head (m : List (String × List NodeExecutionResult))
    (r : NodeExecutionResult) :
    (mapLookup (recordIn m r) r.nodeId).bind List.head? = some r := by
  rw [recordIn]
  cases hl : mapLookup m r.nodeId with
  | none =>
      rw [mapLookup_mapSet_self]
      rfl
  | some rs =>
      rw [mapLookup_mapSet_self]
      rfl

theorem recordIn_len (m : List (String × List NodeExecutionResult))
    (r : NodeExecutionResult) :
    ((mapLookup (recordIn m r) r.nodeId).getD []).length =
      ((mapLookup m r.nodeId).getD []).length + 1 := by
  rw [recordIn]
  cases hl : mapLookup m r.nodeId with
  | none =>
      rw [mapLookup_mapSet_self]
      rfl
  | some rs =>
      rw [mapLookup_mapSet_self]
      rfl

theorem recordIn_other (m : List (String × List NodeExecutionResult))
    (r : NodeExecutionResult) (k : String) (hk : k ≠ r.nodeId) :
    mapLookup (recordIn m r) k = mapLookup m k := by
  rw [recordIn]
  cases mapLookup m r.nodeId with
  | none => exact mapLookup_mapSet_other _ _ _ _ hk
  | some rs => exact mapLookup_mapSet_other _ _ _ _ hk

theorem stepResult_of_exec (st : ExecutionState) (step : ExecutionStep)
    (node : ExecutionNode) (ex : NodeExecutor) (r0 : NodeExecutionResult)
    (hexec : ∀ ctx input, ex node ctx input = .ok r0) :
    stepResult st step node ex = r0 := by
  rw [stepResult, hexec]

theorem executeStep_run (engine : Engine) (st : ExecutionState) (step : ExecutionStep)
    (node : ExecutionNode) (ex : NodeExecutor)
    (hnode : mapLookup st.graph.nodes step.nodeId = some node)
    (hdis : node.disabled = false)
    (hex : mapLookup engine node.type = some ex) :
    executeStep engine st step = .ok (finishStep st step (stepResult st step node ex)) := by
  rw [executeStep, hnode]
  show (if node.disabled = true then _ else _) = _
  rw [hdis, if_neg (by decide), hex]

/-- Invariant payload for a failing retry run: the most recent result for
the node is an error whose code passes the retryable filter. -/
def HeadRetryable (retry : RetryConfig) (st : ExecutionState) (nodeId : String) : Prop :=
  ∃ r, (mapLookup st.nodeResults nodeId).bind List.head? = some r ∧
    r.status = "error" ∧ ∃ e, r.error = some e ∧
      (match retry.retryableErrors with
       | some allowed => e.code ∈ allowed
       | none => True)

theorem retryGo_all_fail (engine : Engine) (node : ExecutionNode) (step : ExecutionStep)
    (retry : RetryConfig) (ex : NodeExecutor) (r0 : NodeExecutionResult) (err0 : NodeError)
    (G : ExecutionGraph)
    (hnode : mapLookup G.nodes step.nodeId = some node)
    (hdis : node.disabled = false)
    (hid : r0.nodeId = node.id)
    (hex : mapLookup engine node.type = some ex)
    (hexec : ∀ ctx input, ex node ctx input = .ok r0)
    (hst0 : r0.status = "error")
    (herr : r0.error = some err0)
    (hcode : match retry.retryableErrors with
      | some allowed => err0.code ∈ allowed
      | none => True) :
    ∀ (remaining attempt delay : Nat) (st : ExecutionState) (sleeps : List Nat),
      st.graph = G → HeadRetryable retry st node.id →
      ∃ stF, retryGo engine node step retry remaining attempt delay st sleeps =
          .ok (stF, sleeps ++ delaySeq (retry.backoffMultiplier.getD 2) retry.maxDelayMs
            remaining delay) ∧
        stF.graph = G ∧
        ((mapLookup stF.nodeResults node.id).getD []).length =
          ((mapLookup st.nodeResults node.id).getD []).length + remaining := by
  intro remaining
  induction remaining with
  | zero =>
      intro attempt delay st sleeps hG hinv
      refine ⟨st, ?_, hG, by omega⟩
      rw [retryGo, delaySeq, List.append_nil]
  | succ remaining ih =>
      intro attempt delay st sleeps hG hinv
      obtain ⟨r, hhead, hrst, e, herr2, hcode2⟩ := hinv
      have hnode2 : mapLookup st.graph.nodes step.nodeId = some node := by
        rw [hG]
        exact hnode
      have hstep := executeStep_run engine st
        { step with stepId := step.stepId, attempt := attempt, timestamp := 0 }
        node ex hnode2 hdis hex
      have hres : stepResult st
          { step with stepId := step.stepId, attempt := attempt, timestamp := 0 }
          node ex = r0 := stepResult_of_exec _ _ _ _ _ hexec
      have hhead2 : (mapLookup (finishStep st
          { step with stepId := step.stepId, attempt := attempt, timestamp := 0 }
          (stepResult st { step with stepId := step.stepId, attempt := attempt, timestamp := 0 }
            node ex)).nodeResults node.id).bind List.head? = some r0 := by
        rw [finishStep_nodeResults, hres, ← hid]
        exact recordIn_head _ _
      have hlen2 : ((mapLookup (finishStep st
          { step with stepId := step.stepId, attempt := attempt, timestamp := 0 }
          (stepResult st { step with stepId := step.stepId, attempt := attempt, timestamp := 0 }
            node ex)).nodeResults node.id).getD []).length =
          ((mapLookup st.nodeResults node.id).getD []).length + 1 := by
        rw [finishStep_nodeResults, hres, ← hid]
        exact recordIn_len _ _
      have hG2 : (finishStep st
          { step with stepId := step.stepId, attempt := attempt, timestamp := 0 }
          (stepResult st { step with stepId := step.stepId, attempt := attempt, timestamp := 0 }
            node ex)).graph = G := by
        rw [finishStep_graph]
        exact hG
      obtain ⟨stF, hrec, hgF, hcount⟩ := ih (attempt + 1)
        (jsMinCap (delay * (retry.backoffMultiplier.getD 2)) retry.maxDelayMs)
        (finishStep st { step with stepId := step.stepId, attempt := attempt, timestamp := 0 }
          (stepResult st { step with stepId := step.stepId, attempt := attempt, timestamp := 0 }
            node ex))
        (sleeps ++ [delay]) hG2 ⟨r0, hhead2, hst0, err0, herr, hcode⟩
      refine ⟨stF, ?_, hgF, by omega⟩
      rw [retryGo, hhead]
      dsimp only
      have hc1 : ¬(r.status ≠ "error") := by
        rw [hrst]
        exact fun hh => hh rfl
      rw [if_neg hc1]
      have hc2 : (match retry.retryableErrors, r.error with
          | some allowed, some err => decide (err.code ∉ allowed)
          | _, _ => false) = false := by
        cases hre : retry.retryableErrors with
        | none =>
            rw [herr2]
        | some allowed =>
            rw [herr2]
            show decide (e.code ∉ allowed) = false
            have hmem : e.code ∈ allowed := by
              have hh := hcode2
              rw [hre] at hh
              exact hh
            exact decide_eq_false (fun hh => hh hmem)
      rw [hc2, if_neg (by decide), hstep]
      dsimp only
      rw [hhead2]
      dsimp only
      have hc3 : decide (r0.status = "success") = false := by
        rw [hst0]
        rfl
      rw [hc3, if_neg (by decide), hrec, delaySeq, List.append_assoc, List.singleton_append]

/-
  Concrete engines and workflows for the execution-engine claims.
-/

/-- An executor that always succeeds with a fixed output. -/
def okExec (out : JObj) : NodeExecutor :=
  fun nd _ _ =>
    .ok {
      nodeId := nd.id, status := "success", output := some out, error := none,
      durationMs := 0, executedAt := 0, attempt := 0 }

/-- An executor that always returns an error result (without throwing), as
the AT executors do; like them it hardcodes attempt 0. -/
def errExec (code ty : String) : NodeExecutor :=
  fun nd _ _ =>
    .ok {
      nodeId := nd.id, status := "error", output := none,
      error := some { code := code, message := "m", type := ty },
      durationMs := 0, executedAt := 0, attempt := 0 }

def defaultOpts : ExecutionOptions :=
  { maxExecutionTimeMs := none, enableRetries := none, resumable := none, timeout := none }

def retryOpts : ExecutionOptions :=
  { maxExecutionTimeMs := none, enableRetries := some true, resumable := none,
    timeout := none }

def mkEdgeH (i s t h : String) : WorkflowEdge :=
  { id := i, source := s, target := t, sourceHandle := some h, targetHandle := none,
    condition := none, label := none }

def condNode : BaseNode :=
  { id := "c", type := "CONDITION", label := "c",
    config := [("expression", .str "x")],
    retry := none, timeout := none, disabled := none }

/-- Trigger, a CONDITION node, and one SEND_SMS on each branch handle. -/
def specCond : WorkflowSpec :=
  { metadata := wfMeta, trigger := smsTriggerNode,
    nodes := [smsTriggerNode, condNode, smsNodeA, smsNodeB],
    edges := [mkEdge "e1" "t" "c", mkEdgeH "e2" "c" "a" "true",
      mkEdgeH "e3" "c" "b" "false"] }

def gCond : ExecutionGraph :=
  ((compileWorkflow atRegistry specCond).graph).get (by decide)

def condEngine : Engine :=
  [("CONDITION", okExec [("result", .bool false)]),
   ("SEND_SMS", okExec [("sent", .bool true)])]

def retryCfg : RetryConfig :=
  { maxAttempts := 3, initialDelayMs := 10, backoffMultiplier := some 2,
    maxDelayMs := none, retryableErrors := none }

def smsNodeRetry : BaseNode :=
  { id := "a", type := "SEND_SMS", label := "a",
    config := [("to", .str "x"), ("message", .str "m")],
    retry := some retryCfg, timeout := none, disabled := none }

/-- Trigger plus one SEND_SMS node carrying an explicit retry policy with no
retryable-errors list. -/
def specRetry : WorkflowSpec :=
  { metadata := wfMeta, trigger := smsTriggerNode, nodes := [smsTriggerNode, smsNodeRetry],
    edges := [mkEdge "e1" "t" "a"] }

def gRetry : ExecutionGraph :=
  ((compileWorkflow atRegistry specRetry).graph).get (by decide)

def netFailEngine : Engine := [("SEND_SMS", errExec "NETWORK_ERROR" "transient")]

def permFailEngine : Engine := [("SEND_SMS", errExec "PERM_FAIL" "permanent")]

/-- Trigger, a SEND_SMS, then a CONDITION node (left unregistered in the
engines below, like every non-AT type in createApp). -/
def specPartial : WorkflowSpec :=
  { metadata := wfMeta, trigger := smsTriggerNode,
    nodes := [smsTriggerNode, smsNodeA, condNode],
    edges := [mkEdge "e1" "t" "a", mkEdge "e2" "a" "c"] }

def gPartial : ExecutionGraph :=
  ((compileWorkflow atRegistry specPartial).graph).get (by decide)

def smsOnlyEngine : Engine := [("SEND_SMS", okExec [("sent", .bool true)])]

def condNodeDisabled : BaseNode :=
  { id := "c", type := "CONDITION", label := "c",
    config := [("expression", .str "x")],
    retry := none, timeout := none, disabled := some true }

/-- Like specPartial but the unregistered CONDITION node is disabled. -/
def specPartialDisabled : WorkflowSpec :=
  { metadata := wfMeta, trigger := smsTriggerNode,
    nodes := [smsTriggerNode, smsNodeA, condNodeDisabled],
    edges := [mkEdge "e1" "t" "a", mkEdge "e2" "a" "c"] }

def gPartialDisabled : ExecutionGraph :=
  ((compileWorkflow atRegistry specPartialDisabled).graph).get (by decide)

/-- Oldest-first error result recorded for the retrying node. -/
def failResult : NodeExecutionResult :=
  { nodeId := "a", status := "error", output := none,
    error := some { code := "NETWORK_ERROR", message := "m", type := "transient" },
    durationMs := 0, executedAt := 0, attempt := 0 }

def aNode : ExecutionNode := (mapLookup gRetry.nodes "a").get (by decide)

def stRetry : ExecutionState :=
  recordNodeResult (initState gRetry [] none retryOpts) failResult

def retryStep : ExecutionStep :=
  { stepId := "a", nodeId := "a", input := [], attempt := 0, timestamp := 0 }

/-- C3 (amended): when every attempt fails with a retryable error, the retry
handler performs maxAttempts further executions of the node (so maxAttempts
+ 1 attempts in total, counting the original attempt 0) and sleeps the
delays initial, min(initial*mult, cap), ...: the first delay is not clamped
and a zero maxDelayMs means no cap.  Recorded attempt numbers come from the
executor result, which the AT executors hardcode to 0 (see the
counterexample). -/
theorem handleRetry_all_fail (engine : Engine) (node : ExecutionNode) (step : ExecutionStep)
    (retry : RetryConfig) (ex : NodeExecutor) (r0 : NodeExecutionResult) (err0 : NodeError)
    (st : ExecutionState)
    (hretry : node.retry = some retry)
    (hnode : mapLookup st.graph.nodes step.nodeId = some node)
    (hdis : node.disabled = false)
    (hid : r0.nodeId = node.id)
    (hex : mapLookup engine node.type = some ex)
    (hexec : ∀ ctx input, ex node ctx input = .ok r0)
    (hst0 : r0.status = "error")
    (herr : r0.error = some err0)
    (hcode : match retry.retryableErrors with
      | some allowed => err0.code ∈ allowed
      | none => True)
    (hinv : HeadRetryable retry st node.id) :
    ∃ stF, handleRetry engine st node step =
        .ok (stF, delaySeq (retry.backoffMultiplier.getD 2) retry.maxDelayMs
          retry.maxAttempts retry.initialDelayMs) ∧
      ((mapLookup stF.nodeResults node.id).getD []).length =
        ((mapLookup st.nodeResults node.id).getD []).length + retry.maxAttempts := by
  obtain ⟨stF, hrec, _, hcount⟩ := retryGo_all_fail engine node step retry ex r0 err0 st.graph
    hnode hdis hid hex hexec hst0 herr hcode retry.maxAttempts 1 retry.initialDelayMs st []
    rfl hinv
  rw [List.nil_append] at hrec
  refine ⟨stF, ?_, hcount⟩
  rw [handleRetry, hretry]
  dsimp only
  rw [hrec]

theorem handleRetry_all_fail_witness :
    ∃ stF, handleRetry netFailEngine stRetry aNode retryStep = .ok (stF, [10, 20, 40]) ∧
      ((mapLookup stF.nodeResults aNode.id).getD []).length =
        ((mapLookup stRetry.nodeResults aNode.id).getD []).length + 3 := by
  obtain ⟨stF, h1, h2⟩ := handleRetry_all_fail netFailEngine aNode retryStep retryCfg
    (errExec "NETWORK_ERROR" "transient") failResult
    { code := "NETWORK_ERROR", message := "m", type := "transient" } stRetry
    (by decide) ((Option.some_get (by decide)).symm) (by decide) (by decide) rfl
    (fun ctx input => rfl) rfl rfl trivial
    ⟨failResult, rfl, rfl, { code := "NETWORK_ERROR", message := "m", type := "transient" },
      rfl, trivial⟩
  exact ⟨stF, h1, h2⟩

/-- C3 (counterexample to the claimed counts): with maxAttempts = 3,
initialDelayMs = 10, multiplier = 2 and every attempt failing retryably,
four attempts are recorded (not three), the slept delays are 10, 20 and 40
ms (not 10 and 20), and every recorded attempt number is the executor's
hardcoded 0 (not 0, 1, 2). -/
theorem retry_attempts_counterexample :
    (match runNodes netFailEngine retryOpts gRetry.executionOrder
        (initState gRetry [] none retryOpts) [] with
     | .ok p => p.2
     | .error _ => []) = [10, 20, 40] ∧
    (match runNodes netFailEngine retryOpts gRetry.executionOrder
        (initState gRetry [] none retryOpts) [] with
     | .ok p => ((mapLookup p.1.nodeResults "a").getD []).length
     | .error _ => 0) = 4 ∧
    (match runNodes netFailEngine retryOpts gRetry.executionOrder
        (initState gRetry [] none retryOpts) [] with
     | .ok p => ((mapLookup p.1.nodeResults "a").getD []).map (fun r => r.attempt)
     | .error _ => [9]) = [0, 0, 0, 0] ∧
    (match mapLookup gRetry.nodes "a" with
     | some nd => nd.retry
     | none => none) = some retryCfg := by
  exact ⟨by decide, by decide, by decide, by decide⟩

/-- C9 (amended): retry eligibility consults only the error code against the
declared retryableErrors list: when the list is present and the last error
code is not in it, the handler retries nothing and sleeps nothing,
regardless of the error type.  Without a list every error is retried, even
permanent ones (see the counterexample). -/
theorem handleRetry_code_filtered (engine : Engine) (st : ExecutionState)
    (node : ExecutionNode) (step : ExecutionStep) (retry : RetryConfig)
    (allowed : List String) (r : NodeExecutionResult) (e : NodeError)
    (hretry : node.retry = some retry)
    (hallowed : retry.retryableErrors = some allowed)
    (hhead : (mapLookup st.nodeResults node.id).bind List.head? = some r)
    (hrst : r.status = "error")
    (herr : r.error = some e)
    (hcode : e.code ∉ allowed) :
    handleRetry engine st node step = .ok (st, []) := by
  rw [handleRetry, hretry]
  dsimp only
  cases hma : retry.maxAttempts with
  | zero => rw [retryGo]
  | succ k =>
      rw [retryGo, hhead]
      dsimp only
      have hc1 : ¬(r.status ≠ "error") := by
        rw [hrst]
        exact fun hh => hh rfl
      rw [if_neg hc1]
      have hc2 : (match retry.retryableErrors, r.error with
          | some al, some er => decide (er.code ∉ al)
          | _, _ => false) = true := by
        rw [hallowed, herr]
        show decide (e.code ∉ allowed) = true
        exact decide_eq_true hcode
      rw [hc2, if_pos rfl]

def retryCfgFiltered : RetryConfig :=
  { maxAttempts := 3, initialDelayMs := 10, backoffMultiplier := some 2,
    maxDelayMs := none, retryableErrors := some ["NETWORK_ERROR"] }

def permResult : NodeExecutionResult :=
  { nodeId := "a", status := "error", output := none,
    error := some { code := "PERM_FAIL", message := "m", type := "permanent" },
    durationMs := 0, executedAt := 0, attempt := 0 }

def nodeFiltered : ExecutionNode :=
  { id := "a", type := "SEND_SMS", definition := sendSmsDef, config := [],
    retry := some retryCfgFiltered, timeout := 30000, disabled := false,
    incomingEdges := [], outgoingEdges := [],
    metadata := { requiresSession := false, endsSession := false, executionOrder := 0 } }

def stPerm : ExecutionState :=
  recordNodeResult (initState gRetry [] none retryOpts) permResult

theorem handleRetry_code_filtered_witness :
    handleRetry netFailEngine stPerm nodeFiltered retryStep = .ok (stPerm, []) :=
  handleRetry_code_filtered netFailEngine stPerm nodeFiltered retryStep retryCfgFiltered
    ["NETWORK_ERROR"] permResult { code := "PERM_FAIL", message := "m", type := "permanent" }
    rfl rfl rfl rfl rfl (by decide)

/-- C9 (counterexample): a node whose retry policy declares no
retryableErrors list retries a failed attempt whose error type is
permanent - three retries run and three delays are slept. -/
theorem permanent_error_retried_counterexample :
    (match runNodes permFailEngine retryOpts gRetry.executionOrder
        (initState gRetry [] none retryOpts) [] with
     | .ok p => ((mapLookup p.1.nodeResults "a").getD []).length
     | .error _ => 0) = 4 ∧
    (match runNodes permFailEngine retryOpts gRetry.executionOrder
        (initState gRetry [] none retryOpts) [] with
     | .ok p => ((mapLookup p.1.nodeResults "a").getD []).map
         (fun r => (r.status, match r.error with | some e => e.type | none => ""))
     | .error _ => []) =
      [("error", "permanent"), ("error", "permanent"), ("error", "permanent"),
       ("error", "permanent")] ∧
    (match mapLookup gRetry.nodes "a" with
     | some nd => (match nd.retry with | some rc => rc.retryableErrors.isNone | none => false)
     | none => false) = true := by
  exact ⟨by decide, by decide, by decide⟩

/-- C10 (amended): whenever the workflow run throws - in particular when a
reached, enabled node has no registered executor - execute catches the error
and returns a failed result with code EXECUTION_ERROR and an empty
nodeResults list, discarding every previously recorded result.  The original
claim over-reaches: a disabled unregistered node is skipped without
consulting the executor map, and execution can end before reaching the node
(see the counterexample). -/
theorem execute_error_discards_results (engine : Engine) (graph : ExecutionGraph)
    (payload : JObj) (session : Option SessionState) (opts : ExecutionOptions)
    (msg : String)
    (h : executeWorkflow engine (initState graph payload session opts) opts = .error msg) :
    execute engine graph payload session opts =
      { executionId := "exec", status := "failed", output := none,
        error := some { code := "EXECUTION_ERROR", message := msg, type := "permanent" },
        nodeResults := [], durationMs := 0, startedAt := 0, completedAt := 0 } := by
  rw [execute, h]

theorem execute_error_discards_results_witness :
    execute smsOnlyEngine gPartial [] none defaultOpts =
      { executionId := "exec", status := "failed", output := none,
        error := some {
          code := "EXECUTION_ERROR",
          message := "No executor registered for node type: CONDITION",
          type := "permanent" },
        nodeResults := [], durationMs := 0, startedAt := 0, completedAt := 0 } :=
  execute_error_discards_results smsOnlyEngine gPartial [] none defaultOpts
    "No executor registered for node type: CONDITION" rfl

/-- C10 (counterexample to the universal claim): with an unregistered but
disabled node in the execution order, the run completes and the returned
nodeResults are not empty. -/
theorem unregistered_disabled_counterexample :
    ("c" ∈ gPartialDisabled.executionOrder ∧ "c" ≠ gPartialDisabled.trigger.id ∧
      (match mapLookup gPartialDisabled.nodes "c" with
       | some nd => (mapLookup smsOnlyEngine nd.type).isNone
       | none => false) = true) ∧
    (execute smsOnlyEngine gPartialDisabled [] none defaultOpts).status = "completed" ∧
    (execute smsOnlyEngine gPartialDisabled [] none defaultOpts).nodeResults.map
      (fun r => (r.nodeId, r.status)) = [("a", "success"), ("c", "skipped")] := by
  exact ⟨by decide, by decide, by decide⟩

/-- An engine whose executors never report the skipped status themselves
(true of every executor in the repository: they return success or error). -/
def NoSkipEngine (engine : Engine) : Prop :=
  ∀ kv ∈ engine, ∀ nd ctx input r, kv.2 nd ctx input = Except.ok r → r.status ≠ "skipped"

/-- Every recorded skipped result belongs to a disabled node of the graph. -/
def SkipInv (G : ExecutionGraph) (m : List (String × List NodeExecutionResult)) : Prop :=
  ∀ k rs, mapLookup m k = some rs → ∀ r ∈ rs, r.status = "skipped" →
    ∃ nd, mapLookup G.nodes r.nodeId = some nd ∧ nd.disabled = true

theorem recordIn_skipInv (G : ExecutionGraph) (m : List (String × List NodeExecutionResult))
    (r : NodeExecutionResult) (hinv : SkipInv G m)
    (hr : r.status = "skipped" →
      ∃ nd, mapLookup G.nodes r.nodeId = some nd ∧ nd.disabled = true) :
    SkipInv G (recordIn m r) := by
  intro k rs hlk r2 hr2 hsk
  by_cases hk : k = r.nodeId
  · subst hk
    rw [recordIn] at hlk
    cases hml : mapLookup m r.nodeId with
    | none =>
        rw [hml, mapLookup_mapSet_self] at hlk
        have hrs : [r] = rs := Option.some.inj hlk
        rw [← hrs] at hr2
        rcases List.mem_singleton.mp hr2 with rfl
        exact hr hsk
    | some rs0 =>
        rw [hml, mapLookup_mapSet_self] at hlk
        have hrs : r :: rs0 = rs := Option.some.inj hlk
        rw [← hrs] at hr2
        rcases List.mem_cons.mp hr2 with rfl | hmem
        · exact hr hsk
        · exact hinv _ rs0 hml r2 hmem hsk
  · rw [recordIn_other m r k hk] at hlk
    exact hinv k rs hlk r2 hr2 hsk

theorem executeStep_skipInv (engine : Engine) (st : ExecutionState) (step : ExecutionStep)
    (st2 : ExecutionState) (hns : NoSkipEngine engine)
    (h : executeStep engine st step = .ok st2) :
    st2.graph = st.graph ∧
    (SkipInv st.graph st.nodeResults → SkipInv st.graph st2.nodeResults) := by
  rw [executeStep] at h
  generalize hnl : mapLookup st.graph.nodes step.nodeId = nres at h
  cases nres with
  | none => exact Except.noConfusion h
  | some node =>
      dsimp only at h
      by_cases hdis : node.disabled = true
      · rw [if_pos hdis] at h
        have hst2 : recordNodeResult st (skippedResult step) = st2 := Except.ok.inj h
        subst hst2
        refine ⟨rfl, ?_⟩
        intro hinv
        show SkipInv st.graph (recordIn st.nodeResults (skippedResult step))
        apply recordIn_skipInv _ _ _ hinv
        intro hsk
        exact ⟨node, hnl, hdis⟩
      · rw [if_neg hdis] at h
        generalize hel : mapLookup engine node.type = eres at h
        cases eres with
        | none => exact Except.noConfusion h
        | some ex =>
            have hst2 : finishStep st step (stepResult st step node ex) = st2 :=
              Except.ok.inj h
            subst hst2
            refine ⟨finishStep_graph st step _, ?_⟩
            intro hinv
            rw [finishStep_nodeResults]
            apply recordIn_skipInv _ _ _ hinv
            intro hsk
            exfalso
            rw [stepResult] at hsk
            cases hexr : ex node st.context step.input with
            | ok r =>
                rw [hexr] at hsk
                have hne := hns (node.type, ex) (mapLookup_mem engine node.type ex hel)
                  node st.context step.input r hexr
                exact hne hsk
            | error msg =>
                rw [hexr] at hsk
                have hne2 : ("error" : String) ≠ "skipped" := by decide
                exact hne2 hsk

theorem retryGo_skipInv (engine : Engine) (node : ExecutionNode) (step : ExecutionStep)
    (retry : RetryConfig) (hns : NoSkipEngine engine) :
    ∀ (remaining attempt delay : Nat) (st : ExecutionState) (sleeps : List Nat)
      (st2 : ExecutionState) (sl2 : List Nat),
      retryGo engine node step retry remaining attempt delay st sleeps = .ok (st2, sl2) →
      st2.graph = st.graph ∧
      (SkipInv st.graph st.nodeResults → SkipInv st.graph st2.nodeResults) := by
  intro remaining
  induction remaining with
  | zero =>
      intro attempt delay st sleeps st2 sl2 h
      rw [retryGo] at h
      have hpair := Except.ok.inj h
      have hst : st = st2 := congrArg Prod.fst hpair
      subst hst
      exact ⟨rfl, fun hinv => hinv⟩
  | succ remaining ih =>
      intro attempt delay st sleeps st2 sl2 h
      rw [retryGo] at h
      generalize hh : (mapLookup st.nodeResults node.id).bind List.head? = hres at h
      cases hres with
      | none =>
          have hpair := Except.ok.inj h
          have hst : st = st2 := congrArg Prod.fst hpair
          subst hst
          exact ⟨rfl, fun hinv => hinv⟩
      | some lr =>
          dsimp only at h
          by_cases hc1 : lr.status ≠ "error"
          · rw [if_pos hc1] at h
            have hpair := Except.ok.inj h
            have hst : st = st2 := congrArg Prod.fst hpair
            subst hst
            exact ⟨rfl, fun hinv => hinv⟩
          · rw [if_neg hc1] at h
            by_cases hc2 : (match retry.retryableErrors, lr.error with
                | some allowed, some err => decide (err.code ∉ allowed)
                | _, _ => false) = true
            · rw [if_pos hc2] at h
              have hpair := Except.ok.inj h
              have hst : st = st2 := congrArg Prod.fst hpair
              subst hst
              exact ⟨rfl, fun hinv => hinv⟩
            · rw [if_neg hc2] at h
              generalize hes : executeStep engine st
                { step with stepId := step.stepId, attempt := attempt, timestamp := 0 } =
                esres at h
              cases esres with
              | error e => exact Except.noConfusion h
              | ok stm =>
                  obtain ⟨hg1, hp1⟩ := executeStep_skipInv engine st _ stm hns hes
                  dsimp only at h
                  by_cases hc3 : (match (mapLookup stm.nodeResults node.id).bind List.head? with
                      | some r => decide (r.status = "success")
                      | none => false) = true
                  · rw [if_pos hc3] at h
                    have hpair := Except.ok.inj h
                    have hst : stm = st2 := congrArg Prod.fst hpair
                    subst hst
                    exact ⟨hg1, hp1⟩
                  · rw [if_neg hc3] at h
                    obtain ⟨hg2, hp2⟩ := ih (attempt + 1)
                      (jsMinCap (delay * (retry.backoffMultiplier.getD 2)) retry.maxDelayMs)
                      stm (sleeps ++ [delay]) st2 sl2 h
                    rw [hg1] at hg2 hp2
                    exact ⟨hg2, fun hinv => hp2 (hp1 hinv)⟩

theorem handleRetry_skipInv (engine : Engine) (st : ExecutionState) (node : ExecutionNode)
    (step : ExecutionStep) (st2 : ExecutionState) (sl2 : List Nat)
    (hns : NoSkipEngine engine)
    (h : handleRetry engine st node step = .ok (st2, sl2)) :
    st2.graph = st.graph ∧
    (SkipInv st.graph st.nodeResults → SkipInv st.graph st2.nodeResults) := by
  rw [handleRetry] at h
  cases hre : node.retry with
  | none =>
      rw [hre] at h
      dsimp only at h
      have hpair := Except.ok.inj h
      have hst : st = st2 := congrArg Prod.fst hpair
      subst hst
      exact ⟨rfl, fun hinv => hinv⟩
  | some retry =>
      rw [hre] at h
      dsimp only at h
      exact retryGo_skipInv engine node step retry hns retry.maxAttempts 1
        retry.initialDelayMs st [] st2 sl2 h

theorem runNodes_skipInv (engine : Engine) (opts : ExecutionOptions)
    (hns : NoSkipEngine engine) :
    ∀ (order : List String) (st : ExecutionState) (sleeps : List Nat)
      (st2 : ExecutionState) (sl2 : List Nat),
      runNodes engine opts order st sleeps = .ok (st2, sl2) →
      st2.graph = st.graph ∧
      (SkipInv st.graph st.nodeResults → SkipInv st.graph st2.nodeResults) := by
  intro order
  induction order with
  | nil =>
      intro st sleeps st2 sl2 h
      rw [runNodes] at h
      have hpair := Except.ok.inj h
      have hst : st = st2 := congrArg Prod.fst hpair
      subst hst
      exact ⟨rfl, fun hinv => hinv⟩
  | cons nodeId rest ih =>
      intro st sleeps st2 sl2 h
      rw [runNodes] at h
      generalize hnl : mapLookup st.graph.nodes nodeId = nres at h
      cases nres with
      | none => exact ih st sleeps st2 sl2 h
      | some node =>
          dsimp only at h
          by_cases htrig : nodeId = st.graph.trigger.id
          · rw [if_pos htrig] at h
            exact ih st sleeps st2 sl2 h
          · rw [if_neg htrig] at h
            generalize hes : executeStep engine st
              { stepId := nodeId, nodeId := nodeId, input := getNodeInput st node,
                attempt := 0, timestamp := 0 } = esres at h
            cases esres with
            | error e => exact Except.noConfusion h
            | ok st1 =>
                obtain ⟨hg1, hp1⟩ := executeStep_skipInv engine st _ st1 hns hes
                dsimp only at h
                by_cases hcond : ((match (mapLookup st1.nodeResults nodeId).bind
                      List.head? with
                    | some r => decide (r.status = "error")
                    | none => false) && opts.enableRetries.getD false) = true
                · rw [if_pos hcond] at h
                  generalize hhr : handleRetry engine st1 node
                    { stepId := nodeId, nodeId := nodeId, input := getNodeInput st node,
                      attempt := 0, timestamp := 0 } = hres at h
                  cases hres with
                  | error e => exact Except.noConfusion h
                  | ok p =>
                      obtain ⟨stm, slm⟩ := p
                      obtain ⟨hg2, hp2⟩ :=
                        handleRetry_skipInv engine st1 node _ stm slm hns hhr
                      dsimp only at h
                      by_cases hend : node.metadata.endsSession = true
                      · rw [if_pos hend] at h
                        have hpair := Except.ok.inj h
                        have hst : stm = st2 := congrArg Prod.fst hpair
                        subst hst
                        rw [hg1] at hg2 hp2
                        exact ⟨hg2, fun hinv => hp2 (hp1 hinv)⟩
                      · rw [if_neg hend] at h
                        obtain ⟨hg3, hp3⟩ := ih stm (sleeps ++ slm) st2 sl2 h
                        rw [hg1] at hg2 hp2
                        rw [hg2] at hg3 hp3
                        exact ⟨hg3, fun hinv => hp3 (hp2 (hp1 hinv))⟩
                · rw [if_neg hcond] at h
                  dsimp only at h
                  by_cases hend : node.metadata.endsSession = true
                  · rw [if_pos hend] at h
                    have hpair := Except.ok.inj h
                    have hst : st1 = st2 := congrArg Prod.fst hpair
                    subst hst
                    exact ⟨hg1, hp1⟩
                  · rw [if_neg hend] at h
                    obtain ⟨hg3, hp3⟩ := ih st1 (sleeps ++ []) st2 sl2 h
                    rw [hg1] at hg3 hp3
                    exact ⟨hg3, fun hinv => hp3 (hp1 hinv)⟩

theorem getAllNodeResults_mem (st : ExecutionState) (r : NodeExecutionResult)
    (h : r ∈ getAllNodeResults st) :
    ∃ k rs, mapLookup st.nodeResults k = some rs ∧ r ∈ rs := by
  rw [getAllNodeResults] at h
  obtain ⟨nodeId, hmem, hr⟩ := List.mem_flatMap.mp h
  cases hml : mapLookup st.nodeResults nodeId with
  | none =>
      rw [hml] at hr
      exact absurd hr (List.not_mem_nil r)
  | some rs =>
      cases rs with
      | nil =>
          rw [hml] at hr
          exact absurd hr (List.not_mem_nil r)
      | cons r0 rest =>
          rw [hml] at hr
          rcases List.mem_singleton.mp hr with rfl
          exact ⟨nodeId, r :: rest, hml, List.mem_cons_self _ _⟩

theorem executeWorkflow_ok_parts (engine : Engine) (st0 : ExecutionState)
    (opts : ExecutionOptions) (res : ExecutionResult)
    (h : executeWorkflow engine st0 opts = .ok res) :
    ∃ stF sl, runNodes engine opts st0.graph.executionOrder st0 [] = .ok (stF, sl) ∧
      res.nodeResults = getAllNodeResults stF := by
  rw [executeWorkflow] at h
  generalize hrn : runNodes engine opts st0.graph.executionOrder st0 [] = rres at h
  cases rres with
  | error e => exact Except.noConfusion h
  | ok p =>
      obtain ⟨stF, sl⟩ := p
      dsimp only at h
      have hres := Except.ok.inj h
      exact ⟨stF, sl, rfl, by rw [← hres]⟩

/-- C2 (amended): for engines whose executors never return a skipped status
(as all executors in the repository do), every result recorded with status
skipped belongs to a disabled node.  Conditional routing never skips a
branch: the engine executes every node of the execution order, so skipped
marks disabled nodes only (the counterexample shows both branch targets of a
CONDITION node executing). -/
theorem execute_skipped_only_disabled (engine : Engine) (graph : ExecutionGraph)
    (payload : JObj) (session : Option SessionState) (opts : ExecutionOptions)
    (hns : NoSkipEngine engine) :
    ∀ r ∈ (execute engine graph payload session opts).nodeResults,
      r.status = "skipped" →
      ∃ nd, mapLookup graph.nodes r.nodeId = some nd ∧ nd.disabled = true := by
  intro r hr hsk
  rw [execute] at hr
  generalize hew : executeWorkflow engine (initState graph payload session opts) opts =
    wres at hr
  cases wres with
  | error msg =>
      dsimp only at hr
      exact absurd hr (List.not_mem_nil r)
  | ok res =>
      dsimp only at hr
      obtain ⟨stF, sl, hrn, hres⟩ := executeWorkflow_ok_parts engine _ opts res hew
      rw [hres] at hr
      obtain ⟨hgF, hp⟩ := runNodes_skipInv engine opts hns _ _ _ _ _ hrn
      have hinv0 : SkipInv (initState graph payload session opts).graph
          (initState graph payload session opts).nodeResults := by
        intro k rs hlk
        exact Option.noConfusion hlk
      have hinvF := hp hinv0
      obtain ⟨k, rs, hlk, hmem⟩ := getAllNodeResults_mem stF r hr
      exact hinvF k rs hlk r hmem hsk

theorem noSkip_smsOnly : NoSkipEngine smsOnlyEngine := by
  intro kv hkv nd ctx input r h
  rcases List.mem_cons.mp hkv with rfl | hkv2
  · have hr := Except.ok.inj h
    rw [← hr]
    show ("success" : String) ≠ "skipped"
    decide
  · exact absurd hkv2 (List.not_mem_nil _)

theorem execute_skipped_only_disabled_witness :
    ∃ nd, mapLookup gPartialDisabled.nodes "c" = some nd ∧ nd.disabled = true :=
  execute_skipped_only_disabled smsOnlyEngine gPartialDisabled [] none defaultOpts
    noSkip_smsOnly
    { nodeId := "c", status := "skipped", output := none, error := none,
      durationMs := 0, executedAt := 0, attempt := 0 }
    (by decide) rfl

/-- C2 (counterexample): with a CONDITION node whose executor selects the
false branch, both branch targets still execute successfully and no result
is recorded as skipped - there is no conditional branch suppression. -/
theorem conditional_branches_counterexample :
    ((match mapLookup gCond.nodes "c" with
      | some nd => nd.type
      | none => "") = "CONDITION") ∧
    ((execute condEngine gCond [] none defaultOpts).nodeResults.map
      (fun r => (r.nodeId, r.status)) =
      [("c", "success"), ("b", "success"), ("a", "success")]) ∧
    ((execute condEngine gCond [] none defaultOpts).nodeResults.any
      (fun r => r.status = "skipped") = false) := by
  exact ⟨by decide, by decide, by decide⟩

end ATWorkflow
